import Mathlib

/-!
Verification development for the qlik_atlas lineage-graph core.

The Python sources under `backend/fetchers` and `backend/app` are shallowly
embedded: JSON values become an inductive type, Python dicts become
insertion-ordered association lists, Python sets become duplicate-free lists
maintained by an order-preserving insert, and the imperative builders become
folds over explicit state.  SHA-1 digests are modelled as an injective
encoding of the hashed text (the standard collision-freedom assumption);
every property proved depends only on determinism and injectivity of the
digest.  `str()` applied to JSON containers is rendered opaquely; no claim
exercises stringified containers.
-/

namespace QlikAtlas

/-- JSON values as produced by `json.loads`.  Objects are insertion-ordered
association lists with unique keys, matching Python dict semantics. -/
inductive Json where
  | null : Json
  | str : String → Json
  | num : Int → Json
  | bool : Bool → Json
  | arr : List Json → Json
  | obj : List (String × Json) → Json

mutual

def Json.decEq : (a b : Json) → Decidable (a = b)
  | .null, .null => isTrue rfl
  | .str a, .str b =>
    match String.decEq a b with
    | isTrue h => isTrue (h ▸ rfl)
    | isFalse h => isFalse fun hh => h (Json.str.inj hh)
  | .num a, .num b =>
    match Int.decEq a b with
    | isTrue h => isTrue (h ▸ rfl)
    | isFalse h => isFalse fun hh => h (Json.num.inj hh)
  | .bool a, .bool b =>
    match Bool.decEq a b with
    | isTrue h => isTrue (h ▸ rfl)
    | isFalse h => isFalse fun hh => h (Json.bool.inj hh)
  | .arr a, .arr b =>
    match Json.decEqList a b with
    | isTrue h => isTrue (h ▸ rfl)
    | isFalse h => isFalse fun hh => h (Json.arr.inj hh)
  | .obj a, .obj b =>
    match Json.decEqObj a b with
    | isTrue h => isTrue (h ▸ rfl)
    | isFalse h => isFalse fun hh => h (Json.obj.inj hh)
  | .null, .str _ | .null, .num _ | .null, .bool _ | .null, .arr _
  | .null, .obj _ => isFalse fun h => Json.noConfusion h
  | .str _, .null | .str _, .num _ | .str _, .bool _ | .str _, .arr _
  | .str _, .obj _ => isFalse fun h => Json.noConfusion h
  | .num _, .null | .num _, .str _ | .num _, .bool _ | .num _, .arr _
  | .num _, .obj _ => isFalse fun h => Json.noConfusion h
  | .bool _, .null | .bool _, .str _ | .bool _, .num _ | .bool _, .arr _
  | .bool _, .obj _ => isFalse fun h => Json.noConfusion h
  | .arr _, .null | .arr _, .str _ | .arr _, .num _ | .arr _, .bool _
  | .arr _, .obj _ => isFalse fun h => Json.noConfusion h
  | .obj _, .null | .obj _, .str _ | .obj _, .num _ | .obj _, .bool _
  | .obj _, .arr _ => isFalse fun h => Json.noConfusion h

def Json.decEqList : (a b : List Json) → Decidable (a = b)
  | [], [] => isTrue rfl
  | [], _ :: _ => isFalse fun h => List.noConfusion h
  | _ :: _, [] => isFalse fun h => List.noConfusion h
  | a :: as, b :: bs =>
    match Json.decEq a b with
    | isTrue h1 =>
      match Json.decEqList as bs with
      | isTrue h2 => isTrue (h1 ▸ h2 ▸ rfl)
      | isFalse h2 => isFalse fun hh => h2 (List.cons.inj hh).2
    | isFalse h1 => isFalse fun hh => h1 (List.cons.inj hh).1

def Json.decEqObj : (a b : List (String × Json)) → Decidable (a = b)
  | [], [] => isTrue rfl
  | [], _ :: _ => isFalse fun h => List.noConfusion h
  | _ :: _, [] => isFalse fun h => List.noConfusion h
  | (k1, v1) :: as, (k2, v2) :: bs =>
    match String.decEq k1 k2 with
    | isTrue hk =>
      match Json.decEq v1 v2 with
      | isTrue hv =>
        match Json.decEqObj as bs with
        | isTrue h2 => isTrue (hk ▸ hv ▸ h2 ▸ rfl)
        | isFalse h2 => isFalse fun hh => h2 (List.cons.inj hh).2
      | isFalse hv =>
        isFalse fun hh => hv (congrArg Prod.snd (List.cons.inj hh).1)
    | isFalse hk =>
      isFalse fun hh => hk (congrArg Prod.fst (List.cons.inj hh).1)

end

instance : DecidableEq Json := Json.decEq

/-- Python truthiness of a JSON value. -/
def Json.truthy : Json → Bool
  | .null => false
  | .str s => s != ""
  | .num n => n != 0
  | .bool b => b
  | .arr xs => !xs.isEmpty
  | .obj kvs => !kvs.isEmpty

/-- Python `str()` of a JSON value.  Containers are rendered opaquely; no
claim depends on stringified containers. -/
def Json.pyStr : Json → String
  | .null => "None"
  | .str s => s
  | .num n => toString n
  | .bool b => if b then "True" else "False"
  | .arr _ => "<list>"
  | .obj _ => "<dict>"

/-- Lookup in an association list (first match), i.e. Python `dict.get`. -/
def alGet {κ β : Type} [DecidableEq κ] : List (κ × β) → κ → Option β
  | [], _ => none
  | (k', v) :: rest, k => if k' = k then some v else alGet rest k

/-- In-place update of an association list, appending when the key is new:
Python `d[k] = v` on an insertion-ordered dict. -/
def alSet {κ β : Type} [DecidableEq κ] : List (κ × β) → κ → β → List (κ × β)
  | [], k, v => [(k, v)]
  | (k', v') :: rest, k, v =>
    if k' = k then (k', v) :: rest else (k', v') :: alSet rest k v

/-- Python `k in d`. -/
def alHas {κ β : Type} [DecidableEq κ] (m : List (κ × β)) (k : κ) : Bool :=
  (alGet m k).isSome

/-- Python `d.setdefault(k, v)`. -/
def alSetD {κ β : Type} [DecidableEq κ] (m : List (κ × β)) (k : κ) (v : β) :
    List (κ × β) :=
  if alHas m k then m else m ++ [(k, v)]

/-- Order-preserving insert into a duplicate-free list: Python `set.add`
(also the `append-if-absent` idiom used for provenance lists). -/
def listAdd {β : Type} [DecidableEq β] (l : List β) (x : β) : List β :=
  if x ∈ l then l else l ++ [x]

/-- Python `d.get(k)` on a JSON object dict, with `None` for a missing key. -/
def jget (m : List (String × Json)) (k : String) : Json :=
  (alGet m k).getD .null

/-- Python `a or b` on JSON values. -/
def jOr (a b : Json) : Json := if a.truthy then a else b

/-- Coerce to an object's entry list: non-objects give the empty dict.  Used
where the source writes `x or {}` (falsy) together with `isinstance` guards;
for truthy non-dict values the Python code would raise, which the artifact
loader turns into a skipped-file entry, so the coercion is only ever
exercised behind `Except` in the relevant paths. -/
def Json.asObj : Json → List (String × Json)
  | .obj kvs => kvs
  | _ => []

/-- Python `dict(x) if isinstance(x, dict) else {}` (`_safe_dict`). -/
def safeDict : Json → List (String × Json)
  | .obj kvs => kvs
  | _ => []

/-- Whitespace per Python `str.split()` / `str.strip()`. -/
def pyIsSpace (c : Char) : Bool :=
  c = ' ' || c = '\t' || c = '\n' || c = '\r' || c = '\x0b' || c = '\x0c'

private def splitWsAux : List Char → List Char → List (List Char)
  | [], acc => if acc.isEmpty then [] else [acc.reverse]
  | c :: cs, acc =>
    if pyIsSpace c then
      if acc.isEmpty then splitWsAux cs [] else acc.reverse :: splitWsAux cs []
    else splitWsAux cs (c :: acc)

/-- Python `s.split()` (split on whitespace runs, dropping empties). -/
def pySplitWs (s : String) : List String :=
  (splitWsAux s.data []).map fun cs => String.mk cs

/-- Python `" ".join(s.split())`: collapse internal whitespace runs and trim. -/
def pyNormWs (s : String) : String :=
  String.intercalate " " (pySplitWs s)

/-- Python `s.strip()`. -/
def pyStrip (s : String) : String :=
  String.mk ((s.data.dropWhile pyIsSpace).reverse.dropWhile pyIsSpace |>.reverse)

/-- Does `l` start with `p`? -/
def listStarts {α : Type} [DecidableEq α] : List α → List α → Bool
  | _, [] => true
  | [], _ :: _ => false
  | a :: as, b :: bs => a = b && listStarts as bs

/-- Lexicographic code-point order on character lists (Python string `<`). -/
def charListLt : List Char → List Char → Bool
  | [], [] => false
  | [], _ :: _ => true
  | _ :: _, [] => false
  | a :: as, b :: bs =>
    if a.toNat < b.toNat then true
    else if b.toNat < a.toNat then false
    else charListLt as bs

/-- Python string `<`. -/
def pyStrLt (a b : String) : Bool := charListLt a.data b.data

/-- ASCII lower-casing of one character (the identifiers and tokens the
source lowers are ASCII). -/
def charLower (c : Char) : Char :=
  if 65 ≤ c.toNat ∧ c.toNat ≤ 90 then Char.ofNat (c.toNat + 32) else c

/-- ASCII upper-casing of one character. -/
def charUpper (c : Char) : Char :=
  if 97 ≤ c.toNat ∧ c.toNat ≤ 122 then Char.ofNat (c.toNat - 32) else c

/-- Python `s.lower()`. -/
def strLower (s : String) : String := String.mk (s.data.map charLower)

/-- Python `s.upper()`. -/
def strUpper (s : String) : String := String.mk (s.data.map charUpper)

/-- Python `s.startswith(p)`. -/
def strStarts (s p : String) : Bool := listStarts s.data p.data

/-- Python `s.replace("Z", "+00:00")` (the only `replace` the source uses). -/
def replaceZChars : List Char → List Char
  | [] => []
  | c :: cs =>
    if c = 'Z' then '+' :: '0' :: '0' :: ':' :: '0' :: '0' :: replaceZChars cs
    else c :: replaceZChars cs

/-- `Z`-normalization of an ISO timestamp string. -/
def replaceZ (s : String) : String := String.mk (replaceZChars s.data)

/-- Does `sub` occur contiguously inside `hay` (Python `in` on strings)? -/
def listHasSub {α : Type} [DecidableEq α] : List α → List α → Bool
  | hay, sub =>
    match hay with
    | [] => sub.isEmpty
    | _ :: rest => listStarts hay sub || listHasSub rest sub

/-- Python `sub in s`. -/
def strHasSub (s sub : String) : Bool := listHasSub s.data sub.data

/-- Index of the first occurrence of `sub` in `l`, when present. -/
def listFindSub {α : Type} [DecidableEq α] : List α → List α → Option Nat
  | hay, sub =>
    match hay with
    | [] => if sub.isEmpty then some 0 else none
    | _ :: rest =>
      if listStarts hay sub then some 0
      else (listFindSub rest sub).map (· + 1)

/-- Python `s.split(sep, 1)[1]` for a separator known to occur. -/
def strAfterFirst (s sep : String) : String :=
  match listFindSub s.data sep.data with
  | some i => String.mk (s.data.drop (i + sep.data.length))
  | none => ""

end QlikAtlas

namespace QlikAtlas

/-! ### `qri_heuristics.py` -/

/-- `normalize_qri`: collapse whitespace runs and trim; return the original
alongside only when it differs. -/
def normalize_qri (q : Option String) : String × Option String :=
  match q with
  | none => ("", none)
  | some original =>
    let cleaned := pyNormWs original
    if cleaned != original then (cleaned, some original) else (cleaned, none)

/-- Convert the JSON value handed to `normalize_qri` into its argument:
`None` stays `None`, everything else is `str()`-coerced by the source. -/
def jsonToQriArg : Json → Option String
  | .null => none
  | v => some v.pyStr

/-- Token of `qri:db:<token>://` at the start of an already-lowercased
string: the maximal run of non-`:`/`/` characters after the scheme, which
must be nonempty and be followed immediately by `://` (the anchored
case-insensitive regex of `extract_db_group`). -/
def dbTokenFromLower (ls : String) : Option String :=
  let cs := ls.data
  if listStarts cs "qri:db:".data then
    let rest := cs.drop 7
    let tok := rest.takeWhile fun c => !(c == ':') && !(c == '/')
    if !tok.isEmpty && listStarts (rest.drop tok.length) "://".data then
      some (String.mk tok)
    else none
  else none

/-- `extract_db_group`. -/
def extract_db_group (qri : String) : Option String :=
  if qri = "" then none
  else (dbTokenFromLower (strLower qri)).map fun t => "db:" ++ t

/-- The backtick character (kept out of literals). -/
def backtick : Char := Char.ofNat 96

/-- Matcher for the label-qualifier pattern of `infer_group_from_label`
(anchored: optional backtick, nonempty qualifier free of backticks and dots,
optional backtick, a dot, then at least one non-dot character); the
backtracking regex admits exactly this deterministic reading because the
qualifier class excludes both delimiters. -/
def inferGroupFromChars (cs0 : List Char) : Option (List Char) :=
  let cs := match cs0 with
    | c :: rest => if c == backtick then rest else cs0
    | [] => []
  let g := cs.takeWhile fun c => !(c == backtick) && !(c == '.')
  if g.isEmpty then none
  else
    let rest := cs.drop g.length
    let rest2 := match rest with
      | c :: r => if c == backtick then r else rest
      | [] => []
    match rest2 with
    | '.' :: d :: _ => if d == '.' then none else some g
    | _ => none

/-- `infer_group_from_label`. -/
def infer_group_from_label (label : String) : Option String :=
  if label = "" then none
  else (inferGroupFromChars (pyStrip label).data).map fun g => String.mk g

/-- Result triple of `derive_type_group_layer` (the source returns all three
keys in every branch, `type` and `layer` always as concrete strings). -/
structure Hints where
  type : String
  layer : String
  group : Option String
deriving DecidableEq

/-- `derive_type_group_layer`. -/
def derive_type_group_layer (qri label : String)
    (metadata : List (String × Json)) : Hints :=
  let metaType := jget metadata "type"
  let subtype := jget metadata "subtype"
  let qriL := strLower qri
  let labelL := strLower label
  let isQvd := strHasSub qriL ".qvd" || strHasSub labelL ".qvd"
  let isFile := strStarts qriL "qri:file:" || strHasSub qriL "file://"
  let isApp := strStarts qriL "qri:app:sense://"
  let isDb := strStarts qriL "qri:db:"
  if isQvd then ⟨"qvd", "extract", some "qvd"⟩
  else if isFile then ⟨"file", "extract", some "file"⟩
  else if isApp then ⟨"app", "app", none⟩
  else if isDb then
    let group := extract_db_group qri
    if subtype = .str "TABLE" then ⟨"table", "db", group⟩
    else ⟨"db", "db", group⟩
  else if metaType = .str "DATASET" then ⟨"dataset", "transform", none⟩
  else ⟨"other", "other", none⟩

/-! ### `qlik_normalizer.py` -/

/-- `map_relation`. -/
def map_relation (relation : Json) : String :=
  let rel := strUpper (if relation.truthy then relation.pyStr else "OTHER")
  if rel = "LOAD" || rel = "STORE" || rel = "DEPENDS" then rel else "OTHER"

/-- SHA-1 hex digests modelled as an injective encoding of the hashed text:
two digests are equal exactly when the hashed texts are, matching the
collision-freedom assumption the source relies on. -/
def sha1Hex (s : String) : String := s

/-- `build_semantic_edge_id`. -/
def build_semantic_edge_id (source target relation appId : String) : String :=
  sha1Hex (source ++ "|" ++ target ++ "|" ++ relation ++ "|" ++ appId)

/-- Canonical node records; `subtype`/`group` hold the raw JSON values the
source stores, `meta` is `None` exactly when the source stores `None`. -/
structure NodeRec where
  id : String
  label : String
  type : String
  subtype : Json
  group : Json
  layer : String
  meta : Option (List (String × Json))
deriving DecidableEq

/-- `build_node`. -/
def build_node (qriKey : String) (nodeObj : Json) (app : List (String × Json)) :
    NodeRec :=
  let nodeObjM := nodeObj.asObj
  let metadata := (jget nodeObjM "metadata").asObj
  let label := (jOr (jget nodeObjM "label")
    (jOr (jget metadata "label") (.str qriKey))).pyStr
  let rawId := jOr (jget metadata "id") (.str qriKey)
  let np := normalize_qri (jsonToQriArg rawId)
  let normId := np.1
  let originalId := np.2
  let hints := derive_type_group_layer normId label metadata
  let metaType := jget metadata "type"
  let subtype := jget metadata "subtype"
  let tl0 : String × String :=
    if metaType = .str "DA_APP" then ("app", "app") else (hints.type, hints.layer)
  let tl1 : String × String :=
    if metaType = .str "DATASET" && tl0.1 = "other" then ("dataset", "transform")
    else tl0
  let tl2 : String × String :=
    if subtype = .str "TABLE" &&
        ((tl1.1 = "db" || tl1.1 = "table" || tl1.1 = "other") ||
          strStarts normId "qri:db:") then
      ("table", if tl1.2 != "" then tl1.2 else "db")
    else tl1
  let group0 : Json := match hints.group with | some g => .str g | none => .null
  let group1 :=
    if tl2.1 = "app" && (jget app "spaceId").truthy then jget app "spaceId"
    else group0
  let group2 :=
    if !group1.truthy then
      match infer_group_from_label label with
      | some g => Json.str g
      | none => Json.null
    else group1
  let meta :=
    match originalId with
    | some o => if o != "" && o != normId then alSetD metadata "original_id" (.str o) else metadata
    | none => metadata
  { id := normId
    label := if label != "" then label else normId
    type := if tl2.1 != "" then tl2.1 else "other"
    subtype := subtype
    group := group2
    layer := if tl2.2 != "" then tl2.2 else "other"
    meta := if meta.isEmpty then none else some meta }

/-- The per-record singleton edge context produced by `build_edge`. -/
structure CanonCtx where
  appId : String
  appName : String
  file : String
  fetchedAt : Option String
deriving DecidableEq

/-- Canonical edges as produced by `build_edge`. -/
structure CanonEdge where
  id : String
  source : String
  target : String
  relation : String
  context : CanonCtx
deriving DecidableEq

/-- Endpoint normalization inside `build_edge`. -/
def normQriOfJson (v : Json) : String :=
  (normalize_qri (jsonToQriArg v)).1

/-- `build_edge`: `none` when either normalized endpoint is empty. -/
def build_edge (edge : Json) (appId appName : String) (fetchedAt : Option String)
    (fileName : String) : Option CanonEdge :=
  let edgeM := edge.asObj
  let source := normQriOfJson (jget edgeM "source")
  let target := normQriOfJson (jget edgeM "target")
  if source = "" || target = "" then none
  else
    let relation := map_relation (jget edgeM "relation")
    some { id := build_semantic_edge_id source target relation appId
           source := source, target := target, relation := relation
           context := ⟨appId, appName, fileName, fetchedAt⟩ }

/-- App summary info of a canonical record. -/
structure AppInfo where
  appId : String
  appName : String
  spaceId : Json
  fetchedAt : Option String
  status : Json
  fileName : String
  rootNodeId : Option String
  nodesCount : Nat
  edgesCount : Nat
deriving DecidableEq

/-- `None`-aware string coercion for scalar fields kept as strings. -/
def jsonToOptStr : Json → Option String
  | .null => none
  | v => some v.pyStr

/-- A canonical record: the `(appInfo, nodes[], edges[])` tuple. -/
def CanonRecord := AppInfo × List NodeRec × List CanonEdge

instance : DecidableEq CanonRecord := by
  unfold CanonRecord
  exact fun a b => inferInstanceAs (Decidable (a = b))

/-- The shared normalization body of `normalize_file` (everything after
`json.loads`), applied to the parsed artifact content and the file name. -/
def normalizeArtifact (data : Json) (fileName : String) :
    Except String CanonRecord :=
  match data with
  | .obj dataM =>
    let app := (jget dataM "app").asObj
    let appId := let v := jget app "id"; if v.truthy then v.pyStr else ""
    let appName := let v := jget app "name"; if v.truthy then v.pyStr else ""
    let spaceId := jget app "spaceId"
    let fetchedAt := jsonToOptStr (jget dataM "fetched_at")
    let status := jget dataM "status"
    let graph : List (String × Json) :=
      match jget dataM "raw" with
      | .obj rawM =>
        match jget rawM "graph" with
        | .obj g => g
        | _ =>
          let nodesIsObj := match jget rawM "nodes" with | .obj _ => true | _ => false
          let edgesIsArr := match jget rawM "edges" with | .arr _ => true | _ => false
          if nodesIsObj || edgesIsArr then rawM else []
      | _ => []
    let nodesDict := (jget graph "nodes").asObj
    let edgesList := match jget graph "edges" with | .arr xs => xs | _ => []
    let canonicalNodes := nodesDict.map fun kv => build_node kv.1 kv.2 app
    let canonicalEdges :=
      edgesList.filterMap fun e => build_edge e appId appName fetchedAt fileName
    .ok ({ appId := appId, appName := appName, spaceId := spaceId
           fetchedAt := fetchedAt, status := status, fileName := fileName
           rootNodeId := none, nodesCount := canonicalNodes.length
           edgesCount := canonicalEdges.length }, canonicalNodes, canonicalEdges)
  | _ => .error "lineage artifact must be a JSON object"

/-- `normalize_file`: reads and parses the file, then normalizes.  The parse
result (or the error `json.loads` raises) is the input here and `path.name`
is the `fileName`. -/
def normalize_file (content : Except String Json) (fileName : String) :
    Except String CanonRecord :=
  match content with
  | .error e => .error e
  | .ok data => normalizeArtifact data fileName

/-- Modelled from the spec: `normalize_payload` is imported by
`artifact_graph.py` but its definition is not among the sources.  Per the
spec the artifact "must behave identically whether it arrives as a file on
disk or as an in-memory payload (dual entry points sharing one
normalization routine)", so the payload entry point applies the shared
normalization body to the in-memory payload in place of the parsed file
content. -/
def normalize_payload (payload : Json) (fileName : String) :
    Except String CanonRecord :=
  normalizeArtifact payload fileName

end QlikAtlas

namespace QlikAtlas

/-! ### `graph_store.py` / `artifact_graph.py` — the merge engine -/

/-- Truthiness of an optional string (Python empty string is falsy). -/
def optTruthy : Option String → Bool
  | none => false
  | some s => s != ""

/-- `_is_newer`: ISO-8601 comparison modelled as lexicographic comparison of
the `Z`-normalized strings; on timestamps of one common format this agrees
with `datetime.fromisoformat` ordering, and the source falls back to raw
string comparison on parse failure.  Every proof below uses only
irreflexivity of the comparison. -/
def pyIsNewer (candidate current : Option String) : Bool :=
  if !optTruthy candidate then false
  else if !optTruthy current then true
  else
    pyStrLt (replaceZ (current.getD "")) (replaceZ (candidate.getD ""))

/-- Aggregated edge context (`_new_edge_context` shape). -/
structure EdgeCtx where
  appId : String
  appName : String
  file : String
  fetchedAt : Option String
  appIds : List String
  appNames : List String
  files : List String
  firstFetchedAt : Option String
  lastFetchedAt : Option String
  occurrences : Nat
deriving DecidableEq

/-- Materialized edge records of the merged graph. -/
structure EdgeRec where
  id : String
  source : String
  target : String
  relation : String
  context : EdgeCtx
deriving DecidableEq

/-- The merged graph snapshot. -/
structure Snapshot where
  nodes : List (String × NodeRec)
  edges : List (String × EdgeRec)
  outAdj : List (String × List String)
  inAdj : List (String × List String)
  apps : List (String × AppInfo)
  filesLoaded : Nat
deriving DecidableEq

/-- Insert an edge id into a node's adjacency set. -/
def adjAdd (adj : List (String × List String)) (k eid : String) :
    List (String × List String) :=
  alSet adj k (listAdd ((alGet adj k).getD []) eid)

/-- `_ensure_node`: placeholder upsert for dangling edge endpoints. -/
def ensure_node (nodes : List (String × NodeRec)) (nodeId : String) :
    List (String × NodeRec) :=
  if alHas nodes nodeId then nodes
  else alSet nodes nodeId
    { id := nodeId, label := nodeId, type := "other", subtype := .null
      group := .null, layer := "other", meta := none }

/-- `_new_edge_context`. -/
def new_edge_context (c : CanonCtx) : EdgeCtx :=
  { appId := c.appId, appName := c.appName, file := c.file
    fetchedAt := c.fetchedAt
    appIds := if c.appId != "" then [c.appId] else []
    appNames := if c.appName != "" then [c.appName] else []
    files := if c.file != "" then [c.file] else []
    firstFetchedAt := c.fetchedAt, lastFetchedAt := c.fetchedAt
    occurrences := 1 }

/-- `_merge_edge_context` (the canonical contexts always carry the keys, so
`_append_unique` sees strings, never `None`). -/
def merge_edge_context (e0 : EdgeCtx) (c : CanonCtx) : EdgeCtx :=
  let e := { e0 with occurrences := e0.occurrences + 1
                     appIds := listAdd e0.appIds c.appId
                     appNames := listAdd e0.appNames c.appName
                     files := listAdd e0.files c.file }
  let e := if e.appId = "" && c.appId != "" then { e with appId := c.appId } else e
  let e := if e.appName = "" && c.appName != "" then { e with appName := c.appName } else e
  let e := if e.file = "" && c.file != "" then { e with file := c.file } else e
  let cand := c.fetchedAt
  if optTruthy cand then
    let firstSeen := e.firstFetchedAt
    let lastSeen := e.lastFetchedAt
    let e := if !optTruthy firstSeen || pyIsNewer firstSeen cand then
        { e with firstFetchedAt := cand } else e
    let e := if !optTruthy lastSeen || pyIsNewer cand lastSeen then
        { e with lastFetchedAt := cand, fetchedAt := cand } else e
    e
  else e

/-- The edge-map update of `_add_edge`: materialize on a miss, merge the
context on a hit. -/
def addEdgeRec (edges : List (String × EdgeRec)) (edge : CanonEdge) :
    List (String × EdgeRec) :=
  match alGet edges edge.id with
  | none =>
    alSet edges edge.id
      { id := edge.id, source := edge.source, target := edge.target
        relation := edge.relation, context := new_edge_context edge.context }
  | some existing =>
    alSet edges edge.id
      { existing with context := merge_edge_context existing.context edge.context }

/-- `_add_edge`: materialize or merge, then index both endpoints. -/
def add_edge (edges : List (String × EdgeRec))
    (outAdj inAdj : List (String × List String)) (edge : CanonEdge) :
    List (String × EdgeRec) × List (String × List String) ×
      List (String × List String) :=
  (addEdgeRec edges edge, adjAdd outAdj edge.source edge.id,
    adjAdd inAdj edge.target edge.id)

/-- The edge loop body of `GraphBuilder.build`, on the running
(edges, out_adj, in_adj) triple. -/
def addEdgeStep (t : List (String × EdgeRec) × List (String × List String) ×
    List (String × List String)) (e : CanonEdge) :
    List (String × EdgeRec) × List (String × List String) ×
      List (String × List String) :=
  add_edge t.1 t.2.1 t.2.2 e

/-- The endpoint-ensuring loop body of `GraphBuilder.build`. -/
def ensureStep (ns : List (String × NodeRec)) (e : CanonEdge) :
    List (String × NodeRec) :=
  ensure_node (ensure_node ns e.source) e.target

/-- `_is_better_label`. -/
def is_better_label (current candidate nodeId : String) : Bool :=
  if candidate = "" || candidate = nodeId then false
  else if current = "" || current = nodeId then true
  else decide (current.length < candidate.length)

/-- One step of the first-writer-wins meta merge of `_merge_node`. -/
def merge_meta_step (acc : List (String × Json)) (kv : String × Json) :
    List (String × Json) :=
  match alGet acc kv.1 with
  | none => alSet acc kv.1 kv.2
  | some v => if v = .null then alSet acc kv.1 kv.2 else acc

/-- The meta-merge loop of `_merge_node`. -/
def merge_meta (e i : List (String × Json)) : List (String × Json) :=
  i.foldl merge_meta_step e

/-- First occurrence of a node id (`_merge_node`, miss branch). -/
def insert_node_val (node : NodeRec) : NodeRec :=
  { id := node.id
    label := if node.label != "" then node.label else node.id
    type := if node.type != "" then node.type else "other"
    subtype := node.subtype
    group := node.group
    layer := if node.layer != "" then node.layer else "other"
    meta := node.meta }

/-- Repeat occurrence of a node id (`_merge_node`, hit branch). -/
def merge_node_val (existing node : NodeRec) : NodeRec :=
  let label :=
    if is_better_label existing.label node.label node.id then node.label
    else existing.label
  let type :=
    if existing.type = "other" && node.type != "other" then node.type
    else existing.type
  let layer :=
    if (existing.layer = "" || existing.layer = "other") && node.layer != "" then
      node.layer
    else existing.layer
  let group :=
    if !existing.group.truthy && node.group.truthy then node.group
    else existing.group
  let subtype :=
    if !existing.subtype.truthy && node.subtype.truthy then node.subtype
    else existing.subtype
  let metaMerged := merge_meta (existing.meta.getD []) (node.meta.getD [])
  { existing with
    label := label
    type := type
    layer := layer
    group := group
    subtype := subtype
    meta := if metaMerged.isEmpty then none else some metaMerged }

/-- `_merge_node` on the node map. -/
def merge_node (nodes : List (String × NodeRec)) (node : NodeRec) :
    List (String × NodeRec) :=
  match alGet nodes node.id with
  | none => alSet nodes node.id (insert_node_val node)
  | some existing => alSet nodes node.id (merge_node_val existing node)

/-- `_detect_root`. -/
def detect_root (nodes : List NodeRec) (appName : String) : Option String :=
  match nodes.find? (fun n => jget (n.meta.getD []) "type" = .str "DA_APP") with
  | some n => some n.id
  | none =>
    let byName :=
      if appName != "" then
        nodes.find? fun n =>
          n.type = "app" && strHasSub (strLower n.label) (strLower appName)
      else none
    match byName with
    | some n => some n.id
    | none =>
      match nodes.find? (fun n => strStarts n.id "qri:app:sense://") with
      | some n => some n.id
      | none => nodes.head?.map (·.id)

/-- `_merge_app_info`: whole-record replacement when strictly newer. -/
def merge_app_info (apps : List (String × AppInfo)) (info : AppInfo) :
    List (String × AppInfo) :=
  if info.appId = "" then apps
  else
    match alGet apps info.appId with
    | none => alSet apps info.appId info
    | some existing =>
      if pyIsNewer info.fetchedAt existing.fetchedAt then
        alSet apps info.appId info
      else apps

/-- One record of `GraphBuilder.build`'s main loop. -/
def build_step (st : Snapshot) (record : CanonRecord) : Snapshot :=
  let info := record.1
  let canonicalNodes := record.2.1
  let canonicalEdges := record.2.2
  let nodes := canonicalNodes.foldl merge_node st.nodes
  let eoi := canonicalEdges.foldl addEdgeStep (st.edges, st.outAdj, st.inAdj)
  let nodes := canonicalEdges.foldl ensureStep nodes
  let info :=
    match detect_root canonicalNodes info.appName with
    | some root => if root = "" then info else { info with rootNodeId := some root }
    | none => info
  { nodes := nodes, edges := eoi.1, outAdj := eoi.2.1, inAdj := eoi.2.2
    apps := merge_app_info st.apps info, filesLoaded := st.filesLoaded }

/-- `GraphSnapshot.empty()`. -/
def emptySnapshot : Snapshot := ⟨[], [], [], [], [], 0⟩

/-- `GraphBuilder.build`. -/
def build (records : List CanonRecord) (filesLoaded : Nat) : Snapshot :=
  { records.foldl build_step emptySnapshot with filesLoaded := filesLoaded }

/-- An artifact file: its `path.name` together with the `json.loads` result
(or the parse error `json.loads` raises). -/
def ArtifactFile := String × Except String Json

/-- One file of `LineageArtifactLoader.load_lineage_records`: append the
normalized record on success, record the failure reason otherwise. -/
def loadRecStep (acc : List CanonRecord × List (String × String))
    (f : ArtifactFile) : List CanonRecord × List (String × String) :=
  match normalize_file f.2 f.1 with
  | .ok r => (acc.1 ++ [r], acc.2)
  | .error e => (acc.1, alSet acc.2 f.1 e)

/-- `LineageArtifactLoader.load_lineage_records`: normalize each file,
collecting failures into the `name → reason` skip map instead of aborting. -/
def load_lineage_records (files : List ArtifactFile) :
    List CanonRecord × List (String × String) :=
  files.foldl loadRecStep ([], [])

/-- `build_snapshot_from_lineage_artifacts`. -/
def build_snapshot_from_lineage_artifacts (files : List ArtifactFile) :
    Snapshot × List (String × String) :=
  let lr := load_lineage_records files
  (build lr.1 files.length, lr.2)

/-- File-name resolution of `build_snapshot_from_payloads` (1-based index). -/
def payloadFileName (payload : Json) (idx : Nat) : String :=
  (jOr (jget payload.asObj "_artifactFileName")
    (jOr (jget payload.asObj "fileName")
      (.str ("in-memory-" ++ toString idx ++ ".json")))).pyStr

/-- One payload of `build_snapshot_from_payloads`'s loop (the running
1-based index is part of the accumulator). -/
def payloadStep (acc : Nat × List CanonRecord × List (String × String))
    (payload : Json) : Nat × List CanonRecord × List (String × String) :=
  let fileName := payloadFileName payload acc.1
  match normalize_payload payload fileName with
  | .ok r => (acc.1 + 1, acc.2.1 ++ [r], acc.2.2)
  | .error e => (acc.1 + 1, acc.2.1, alSet acc.2.2 fileName e)

/-- `build_snapshot_from_payloads`. -/
def build_snapshot_from_payloads (payloads : List Json) :
    Snapshot × List (String × String) :=
  let res := payloads.foldl payloadStep (1, [], [])
  (build res.2.1 0, res.2.2)

end QlikAtlas

namespace QlikAtlas

/-! ### `subgraph.py` — direction-aware bounded BFS -/

/-- Accumulated visited sets of `bfs_subgraph` (insertion-ordered,
duplicate-free lists standing for the Python sets). -/
structure BfsState where
  visitedNodes : List String
  visitedEdges : List String
deriving DecidableEq

/-- Follow one edge id out of a frontier node in the `down` sense: record
the edge, then visit its target when new.  A dangling adjacency entry (an
edge id missing from `edges`) is skipped; the theorems below assume the
adjacency indices are consistent, where the source would raise instead. -/
def bfsEdgeDown (snap : Snapshot) (acc : BfsState × List String) (eid : String) :
    BfsState × List String :=
  let st := { acc.1 with visitedEdges := listAdd acc.1.visitedEdges eid }
  match alGet snap.edges eid with
  | some e =>
    if e.target ∈ st.visitedNodes then (st, acc.2)
    else ({ st with visitedNodes := st.visitedNodes ++ [e.target] },
      acc.2 ++ [e.target])
  | none => (st, acc.2)

/-- Follow one edge id into a frontier node in the `up` sense. -/
def bfsEdgeUp (snap : Snapshot) (acc : BfsState × List String) (eid : String) :
    BfsState × List String :=
  let st := { acc.1 with visitedEdges := listAdd acc.1.visitedEdges eid }
  match alGet snap.edges eid with
  | some e =>
    if e.source ∈ st.visitedNodes then (st, acc.2)
    else ({ st with visitedNodes := st.visitedNodes ++ [e.source] },
      acc.2 ++ [e.source])
  | none => (st, acc.2)

/-- Process one frontier node of `step`. -/
def bfsProcessNode (snap : Snapshot) (direction : String)
    (acc : BfsState × List String) (nodeId : String) : BfsState × List String :=
  let acc :=
    if direction = "down" || direction = "both" then
      ((alGet snap.outAdj nodeId).getD []).foldl (bfsEdgeDown snap) acc
    else acc
  if direction = "up" || direction = "both" then
    ((alGet snap.inAdj nodeId).getD []).foldl (bfsEdgeUp snap) acc
  else acc

/-- The `step` closure: process the whole frontier, returning the updated
visited sets and the next frontier. -/
def bfsStep (snap : Snapshot) (direction : String) (st : BfsState)
    (frontier : List String) : BfsState × List String :=
  frontier.foldl (bfsProcessNode snap direction) (st, [])

/-- The `depth < 0` loop (`while frontier: frontier = step(frontier)`),
driven by explicit fuel; `bfsFuel` below always suffices because every
productive step strictly grows the visited-node set. -/
def bfsRunNeg (snap : Snapshot) (direction : String) :
    Nat → BfsState → List String → BfsState
  | 0, st, _ => st
  | fuel + 1, st, frontier =>
    if frontier.isEmpty then st
    else
      let r := bfsStep snap direction st frontier
      bfsRunNeg snap direction fuel r.1 r.2

/-- The `depth >= 0` loop: exactly `depth` steps, stopping early on an empty
frontier. -/
def bfsRunBounded (snap : Snapshot) (direction : String) :
    Nat → BfsState → List String → BfsState
  | 0, st, _ => st
  | k + 1, st, frontier =>
    let r := bfsStep snap direction st frontier
    if r.2.isEmpty then r.1
    else bfsRunBounded snap direction k r.1 r.2

/-- Fuel bound for the unbounded loop: the visited-node set can hold at most
the start node plus one node per edge endpoint. -/
def bfsFuel (snap : Snapshot) : Nat := 2 * snap.edges.length + 2

/-- `bfs_subgraph`. -/
def bfs_subgraph (snap : Snapshot) (start direction : String) (depth : Int) :
    List String × List String :=
  if !alHas snap.nodes start then ([], [])
  else
    let st0 : BfsState := ⟨[start], []⟩
    let r :=
      if depth < 0 then bfsRunNeg snap direction (bfsFuel snap) st0 [start]
      else bfsRunBounded snap direction depth.toNat st0 [start]
    (r.visitedNodes, r.visitedEdges)

/-! ### `heuristics.py` — orphan outputs -/

/-- Relation of an edge id, when the id resolves. -/
def edgeRelation (snap : Snapshot) (eid : String) : Option String :=
  (alGet snap.edges eid).map (·.relation)

/-- Does the node have at least one incoming STORE edge? -/
def hasIncomingStore (snap : Snapshot) (nodeId : String) : Bool :=
  ((alGet snap.inAdj nodeId).getD []).any fun eid =>
    edgeRelation snap eid = some "STORE"

/-- One out-edge of `_has_downstream_load_depends`: hit on LOAD/DEPENDS,
otherwise expand to an unvisited target.  State: (hit, visited, next
frontier). -/
def hddEdge (snap : Snapshot) (acc : Bool × List String × List String)
    (eid : String) : Bool × List String × List String :=
  if acc.1 then acc
  else
    match alGet snap.edges eid with
    | none => acc
    | some e =>
      if e.relation = "LOAD" || e.relation = "DEPENDS" then (true, acc.2)
      else if e.target ∈ acc.2.1 then acc
      else (false, acc.2.1 ++ [e.target], listAdd acc.2.2 e.target)

/-- One frontier node of `_has_downstream_load_depends`. -/
def hddNode (snap : Snapshot) (acc : Bool × List String × List String)
    (nodeId : String) : Bool × List String × List String :=
  if acc.1 then acc
  else ((alGet snap.outAdj nodeId).getD []).foldl (hddEdge snap) acc

/-- The hop loop of `_has_downstream_load_depends`. -/
def hddRun (snap : Snapshot) : Nat → List String → List String → Bool
  | 0, _, _ => false
  | k + 1, frontier, visited =>
    let r := frontier.foldl (hddNode snap) (false, visited, [])
    if r.1 then true
    else if r.2.2.isEmpty then false
    else hddRun snap k r.2.2 r.2.1

/-- `_has_downstream_load_depends`. -/
def has_downstream_load_depends (start : String) (snap : Snapshot)
    (depth : Int) : Bool :=
  hddRun snap depth.toNat [start] [start]

/-- `orphan_outputs` (default depth 3 at the call sites). -/
def orphan_outputs (snap : Snapshot) (depth : Int) : List String :=
  (snap.nodes.map Prod.fst).filter fun nodeId =>
    hasIncomingStore snap nodeId &&
    (((alGet snap.outAdj nodeId).getD []).length = 0 ||
      !has_downstream_load_depends nodeId snap depth)

end QlikAtlas

namespace QlikAtlas

/-! ### `db_runtime_views.py` — persisted-row reassembly and enrichment -/

/-- `_qri_prefix_before_hash`. -/
def qriBeforeHash (value : Option String) : Option String :=
  match value with
  | none => none
  | some v =>
    let text := pyStrip v
    if text = "" then none
    else
      let p := strLower (pyStrip (String.mk (text.data.takeWhile fun c =>
        !(c == '#'))))
      if p = "" then none else some p

/-- The engine alias table inside `_normalize_group_token`. -/
def groupAlias (t : String) : String :=
  if t = "mssql" then "sqlserver"
  else if t = "sqlservernativeclient" then "sqlserver"
  else if t = "postgres" then "postgresql"
  else if t = "postgresqlodbc" then "postgresql"
  else t

/-- `_normalize_group_token` on a string argument: strip, lowercase, drop
every character outside `[a-z0-9]`, then apply the alias table. -/
def normTokenStr (s : String) : Option String :=
  let token := String.mk ((strLower (pyStrip s)).data.filter fun c =>
    decide ((97 ≤ c.toNat ∧ c.toNat ≤ 122) ∨ (48 ≤ c.toNat ∧ c.toNat ≤ 57)))
  if token = "" then none else some (groupAlias token)

/-- `_normalize_group_token`. -/
def normalizeGroupToken (v : Json) : Option String :=
  match v with
  | .null => none
  | v => normTokenStr v.pyStr

/-- First occurrence of `qri:db:<token>://` anywhere in an already-lowercased
character list (the searching case-insensitive regex of
`_extract_group_from_qri_like_text`). -/
def findDbToken : List Char → Option (List Char)
  | [] => none
  | l@(_ :: rest) =>
    if listStarts l "qri:db:".data then
      let after := l.drop 7
      let tok := after.takeWhile fun c => !(c == ':') && !(c == '/')
      if !tok.isEmpty && listStarts (after.drop tok.length) "://".data then
        some tok
      else findDbToken rest
    else findDbToken rest

/-- Lower-case ASCII letter. -/
def isAsciiLower (c : Char) : Bool := decide (97 ≤ c.toNat ∧ c.toNat ≤ 122)

/-- Character class `[a-z0-9+._-]` of the generic scheme pattern (applied to
an already-lowercased string). -/
def isSchemeChar (c : Char) : Bool :=
  isAsciiLower c || decide (48 ≤ c.toNat ∧ c.toNat ≤ 57) || c = '+' || c = '.' ||
    c = '_' || c = '-'

/-- First occurrence of the generic `<scheme>://` pattern
(`([a-z][a-z0-9+._-]{1,30})://`, case-insensitive, here on the lowered
string): a letter, then a run of 1–30 class characters followed immediately
by `://`.  Because the class excludes `:`, the backtracking quantifier can
only succeed with the maximal run, so the reading is deterministic. -/
def findScheme : List Char → Option (List Char)
  | [] => none
  | c :: rest =>
    if isAsciiLower c then
      let run := rest.takeWhile isSchemeChar
      if run.length ≥ 1 && run.length ≤ 30 &&
          listStarts (rest.drop run.length) "://".data then
        some (c :: run)
      else findScheme rest
    else findScheme rest

/-- `_extract_group_from_qri_like_text`. -/
def extractGroupFromQriLikeText (v : Json) : Option String :=
  match v with
  | .null => none
  | v =>
    let raw := strLower v.pyStr
    match findDbToken raw.data with
    | some tok => normTokenStr (String.mk tok)
    | none =>
      match findScheme raw.data with
      | some tok => normTokenStr (String.mk tok)
      | none => none

/-- `_extract_db_group_from_node_id`. -/
def extractDbGroupFromNodeId (nodeId : String) : Option String :=
  match dbTokenFromLower (strLower nodeId) with
  | none => none
  | some tok => (normTokenStr tok).map fun t => "db:" ++ t

/-- `_normalize_db_group`. -/
def normalizeDbGroup (v : Json) : Option String :=
  match v with
  | .null => none
  | v =>
    let text := strLower (pyStrip v.pyStr)
    if text = "" then none
    else
      let tok :=
        if strStarts text "db:" then normTokenStr (text.drop 3)
        else normTokenStr text
      tok.map fun t => "db:" ++ t

/-- A persisted lineage-node row (the columns the reassembly reads). -/
structure NodeRow where
  projectId : Int
  nodeId : String
  appId : Option String
  data : Json
deriving DecidableEq

/-- A persisted lineage-edge row. -/
structure EdgeRow where
  projectId : Int
  edgeId : String
  data : Json
deriving DecidableEq

/-- A persisted data-connection row (the columns the reassembly reads). -/
structure ConnRow where
  projectId : Int
  connectionId : String
  qri : Option String
  spaceId : Option String
  data : Json
deriving DecidableEq

/-- The canonical app info stored in the per-build app index
(`app_info_by_project_and_app` values; only the keys the node-enrichment
pass reads). -/
structure AppInfoRow where
  appId : String
  appName : String
  spaceId : Option String
  spaceName : Option String
deriving DecidableEq

/-- One qri-prefix match handed to the connection pass
(`connection_matches_by_project_and_connection` values). -/
structure ConnMatch where
  appId : String
  appName : String
  rootNodeId : String
deriving DecidableEq

/-- Edge records of the reassembled snapshot (contexts stay raw JSON). -/
structure RowEdgeRec where
  id : String
  source : String
  target : String
  relation : String
  context : Option (List (String × Json))
deriving DecidableEq

/-- The reassembled snapshot (`apps` stays empty and `files_loaded` zero in
the source). -/
structure RowSnapshot where
  nodes : List (String × NodeRec)
  edges : List (String × RowEdgeRec)
  outAdj : List (String × List String)
  inAdj : List (String × List String)
deriving DecidableEq

/-- `_node_record_from_payload`. -/
def nodeRecordFromPayload (nodeId : String) (payload : List (String × Json)) :
    NodeRec :=
  { id := (jOr (jget payload "id") (.str nodeId)).pyStr
    label := (jOr (jget payload "label")
      (jOr (jget payload "id") (.str nodeId))).pyStr
    type := (jOr (jget payload "type") (.str "other")).pyStr
    subtype := jget payload "subtype"
    group := jget payload "group"
    layer := (jOr (jget payload "layer") (.str "other")).pyStr
    meta := match jget payload "meta" with
      | .obj kvs => some kvs
      | _ => none }

/-- `_edge_record_from_payload`. -/
def edgeRecordFromPayload (edgeId : String) (payload : List (String × Json)) :
    RowEdgeRec :=
  { id := (jOr (jget payload "id") (.str edgeId)).pyStr
    source := (jOr (jget payload "source") (.str "")).pyStr
    target := (jOr (jget payload "target") (.str "")).pyStr
    relation := (jOr (jget payload "relation") (.str "OTHER")).pyStr
    context := match jget payload "context" with
      | .obj kvs => some kvs
      | _ => none }

/-- `_is_source_db_node`. -/
def isSourceDbNode (r : NodeRec) : Bool :=
  let t := strLower r.type
  t = "db" || t = "table" || (extractDbGroupFromNodeId r.id).isSome

/-- `_node_db_group`. -/
def nodeDbGroup (r : NodeRec) : Option String :=
  match extractDbGroupFromNodeId r.id with
  | some g => some g
  | none =>
    match normalizeDbGroup r.group with
    | some g => some g
    | none =>
      match r.meta with
      | some m =>
        ["id", "original_id", "qri"].findSome? fun k =>
          extractDbGroupFromNodeId
            (let v := jget m k; if v.truthy then v.pyStr else "")
      | none => none

/-- `_connection_label`. -/
def connectionLabel (payload : List (String × Json)) (row : ConnRow) : String :=
  match ["qName", "name", "connectionName", "id"].findSome? (fun k =>
      match jget payload k with
      | .str s => if pyStrip s ≠ "" then some (pyStrip s) else none
      | _ => none) with
  | some s => s
  | none => if row.connectionId ≠ "" then row.connectionId else "connection"

/-- `_connection_node_id`. -/
def connectionNodeId (row : ConnRow) : String :=
  "qri:connection:qlik://" ++
    sha1Hex (toString row.projectId ++ "|" ++ row.connectionId)

/-- Stable insertion into a sorted list (used to model Python `sorted` on
the pairwise-distinct string sets it is applied to). -/
def sortedInsert (a : String) : List String → List String
  | [] => [a]
  | b :: bs => if !pyStrLt b a then a :: b :: bs else b :: sortedInsert a bs

/-- Python `sorted` on a list of strings. -/
def sortStrings (l : List String) : List String := l.foldr sortedInsert []

/-- `_connection_group_candidates`: collect engine tokens from the typed
fields, the connection-string-like fields and the connection's own
identifier, then sort and tag `db:`.  The Python set is modelled by the
duplicate-free accumulation; `sorted` is the lexicographic string sort. -/
def connectionGroupCandidates (payload : List (String × Json)) (row : ConnRow) :
    List String :=
  let t1 := ["type", "qType", "connectionType", "provider", "providerType",
    "databaseType", "dbType", "engine", "connector", "connectorType",
    "sourceType"].foldl
    (fun acc k =>
      match normalizeGroupToken (jget payload k) with
      | some tok => listAdd acc tok
      | none => acc) []
  let t2 := ["connectionString", "connectionstring", "qConnectionString",
    "qConnectStatement", "connection"].foldl
    (fun acc k =>
      match extractGroupFromQriLikeText (jget payload k) with
      | some tok => listAdd acc tok
      | none => acc) t1
  let t3 :=
    if row.connectionId ≠ "" then
      match extractGroupFromQriLikeText (.str row.connectionId) with
      | some tok => listAdd t2 tok
      | none => t2
    else t2
  (sortStrings t3).map fun t => "db:" ++ t

/-- `_app_lookup_keys_for_app_id`: the bare id, the `qri:app:sense://`
variant, and the bare suffix, deduplicated preserving order. -/
def appLookupKeysForAppId (appId : String) : List String :=
  let value := pyStrip appId
  if value = "" then []
  else
    let keys := [value]
    let keys :=
      if !strStarts value "qri:app:sense://" then
        keys ++ ["qri:app:sense://" ++ value]
      else keys
    let keys :=
      if strStarts value "qri:app:sense://" then
        let bare := pyStrip (strAfterFirst value "://")
        if bare ≠ "" then keys ++ [bare] else keys
      else keys
    keys.foldl listAdd []

/-- `_node_app_lookup_candidates`. -/
def nodeAppLookupCandidates (row : NodeRow) (record : NodeRec) : List String :=
  let meta := record.meta.getD []
  let raw0 : List Json :=
    [match row.appId with | some a => .str a | none => .null,
     jget meta "appId", jget meta "app_id"]
  let raws :=
    if record.type = "app" then raw0 ++ [jget meta "id", .str record.id]
    else raw0
  raws.foldl
    (fun keys raw =>
      match raw with
      | .null => keys
      | v => (appLookupKeysForAppId v.pyStr).foldl
          (fun ks k => if k ≠ "" then listAdd ks k else ks) keys)
    []

/-- Mutable state threaded through `_build_snapshot_from_rows`. -/
structure RowBuildState where
  nodes : List (String × NodeRec)
  edges : List (String × RowEdgeRec)
  outAdj : List (String × List String)
  inAdj : List (String × List String)
  nodeProjects : List (String × List Int)
  sourceNodes : List ((Int × String) × List String)
deriving DecidableEq

/-- The enriched node record a node row contributes: the payload record of
`_node_record_from_payload` with the app-identity enrichment applied. -/
def nodeRowRecord (appMap : List ((Int × String) × AppInfoRow))
    (row : NodeRow) : NodeRec :=
  let payload := safeDict row.data
  let record := nodeRecordFromPayload row.nodeId payload
  let found := (nodeAppLookupCandidates row record).findSome? fun c =>
    (alGet appMap (row.projectId, c)).map fun info => (c, info)
  match found with
  | none => record
  | some (_, info) =>
      let meta0 := record.meta.getD []
      let canonicalAppId := info.appId
      let record :=
        if !record.group.truthy && canonicalAppId ≠ "" then
          { record with group := .str canonicalAppId }
        else record
      let meta1 :=
        if canonicalAppId ≠ "" then alSetD meta0 "appId" (.str canonicalAppId)
        else meta0
      let meta2 :=
        if info.appName ≠ "" then alSetD meta1 "appName" (.str info.appName)
        else meta1
      let meta3 :=
        match info.spaceId with
        | some s => if s ≠ "" then alSetD meta2 "spaceId" (.str s) else meta2
        | none => meta2
      let meta4 :=
        match info.spaceName with
        | some s => if s ≠ "" then alSetD meta3 "spaceName" (.str s) else meta3
        | none => meta3
      { record with meta := some meta4 }

/-- The node-rows loop of `_build_snapshot_from_rows`: build the enriched
record, register project membership and the source-db group index. -/
def nodeRowStep (appMap : List ((Int × String) × AppInfoRow))
    (st : RowBuildState) (row : NodeRow) : RowBuildState :=
  let record := nodeRowRecord appMap row
  let st := { st with
    nodes := alSet st.nodes record.id record
    nodeProjects := alSet st.nodeProjects record.id
      (listAdd ((alGet st.nodeProjects record.id).getD []) row.projectId) }
  if isSourceDbNode record then
    match nodeDbGroup record with
    | some g =>
      let key : Int × String := (row.projectId, g)
      let updated := listAdd ((alGet st.sourceNodes key).getD []) record.id
      { st with sourceNodes := alSet st.sourceNodes key updated }
    | none => st
  else st

/-- The edge-rows loop of `_build_snapshot_from_rows`. -/
def edgeRowStep (st : RowBuildState) (row : EdgeRow) : RowBuildState :=
  let payload := safeDict row.data
  let record := edgeRecordFromPayload row.edgeId payload
  if record.source = "" || record.target = "" then st
  else
    let nodes := st.nodes
    let nodes :=
      if alHas nodes record.source then nodes
      else alSet nodes record.source
        (nodeRecordFromPayload record.source [("id", .str record.source)])
    let nodes :=
      if alHas nodes record.target then nodes
      else alSet nodes record.target
        (nodeRecordFromPayload record.target [("id", .str record.target)])
    { st with
      edges := alSet st.edges record.id record
      outAdj := adjAdd st.outAdj record.source record.id
      inAdj := adjAdd st.inAdj record.target record.id
      nodes := nodes
      nodeProjects :=
        let np := alSet st.nodeProjects record.source
          (listAdd ((alGet st.nodeProjects record.source).getD [])
            row.projectId)
        alSet np record.target
          (listAdd ((alGet np record.target).getD []) row.projectId) }

end QlikAtlas

namespace QlikAtlas


/-- The dedup-preserving-order collection of one field over the qri matches
(the three loops over `qri_matched_apps`). -/
def dedupMatchField (f : ConnMatch → String) (ms : List ConnMatch) :
    List String :=
  ms.foldl
    (fun acc item =>
      let v := pyStrip (f item)
      if v ≠ "" ∧ v ∉ acc then acc ++ [v] else acc) []

/-- The deterministic id of a group-inferred connection edge. -/
def connInferredEdgeId (c : ConnRow) (target : String) : String :=
  "conn_" ++ sha1Hex (connectionNodeId c ++ "|" ++ target ++ "|DEPENDS|" ++
    toString c.projectId)

/-- The group-inferred DEPENDS edge record itself. -/
def connInferredEdge (c : ConnRow) (target : String) : RowEdgeRec :=
  { id := connInferredEdgeId c target
    source := connectionNodeId c
    target := target
    relation := "DEPENDS"
    context := some [("projectId", .num c.projectId),
      ("connectionId", .str c.connectionId), ("inferred", .bool true)] }

/-- The deterministic id of a qri-prefix-inferred connection edge. -/
def connQriEdgeId (c : ConnRow) (target : String) : String :=
  "conn_qri_" ++ sha1Hex (connectionNodeId c ++ "|" ++ target ++ "|DEPENDS|" ++
    toString c.projectId ++ "|qri-prefix-before-hash")

/-- The qri-prefix-inferred DEPENDS edge record itself. -/
def connQriEdge (c : ConnRow) (target : String) : RowEdgeRec :=
  { id := connQriEdgeId c target
    source := connectionNodeId c
    target := target
    relation := "DEPENDS"
    context := some [("projectId", .num c.projectId),
      ("connectionId", .str c.connectionId),
      ("matchMode", .str "qri-prefix-before-hash"), ("inferred", .bool true)] }

/-- One target of the group-inference link pass: skip self-links, foreign
projects and already-present ids, otherwise insert the deterministic
DEPENDS edge and index it. -/
def connGroupLinkStep (row : ConnRow) (st : RowBuildState) (target : String) :
    RowBuildState :=
  let connNodeId := connectionNodeId row
  if target = connNodeId then st
  else if row.projectId ∉ (alGet st.nodeProjects target).getD [] then st
  else
    let edgeId := connInferredEdgeId row target
    if alHas st.edges edgeId then st
    else
      let edges' := alSet st.edges edgeId (connInferredEdge row target)
      let oa' := adjAdd st.outAdj connNodeId edgeId
      let ia' := adjAdd st.inAdj target edgeId
      { st with edges := edges', outAdj := oa', inAdj := ia' }

/-- The list of a JSON array value, and `[]` for anything else (the
`if not isinstance(..., list)` resets of the qri link pass). -/
def jArrList (v : Json) : List Json :=
  match v with
  | .arr xs => xs
  | _ => []

/-- Append a non-empty string to a provenance list when not yet present. -/
def provListAppend (xs : List Json) (v : String) : List Json :=
  if v ≠ "" ∧ Json.str v ∉ xs then xs ++ [.str v] else xs

/-- The provenance enrichment of a qri-matched target node's meta: append
the connection label to `sourceSystems` and the connection id to
`sourceConnectionIds`, each deduplicated. -/
def qriTargetMeta (tmeta : List (String × Json)) (connLabel cid : String) :
    List (String × Json) :=
  let ss := provListAppend (jArrList (jget tmeta "sourceSystems")) connLabel
  let tmeta := alSet tmeta "sourceSystems" (.arr ss)
  let sc := provListAppend (jArrList (jget tmeta "sourceConnectionIds")) cid
  alSet tmeta "sourceConnectionIds" (.arr sc)

/-- One target of the qri-prefix link pass: append the connection's display
name and id into the target's provenance lists (deduplicated), then insert
the deterministic DEPENDS edge when new. -/
def connQriLinkStep (row : ConnRow) (connLabel : String)
    (st : RowBuildState) (target : String) : RowBuildState :=
  let connNodeId := connectionNodeId row
  if target = connNodeId then st
  else
    match alGet st.nodes target with
    | none => st
    | some tnode =>
      if row.projectId ∉ (alGet st.nodeProjects target).getD [] then st
      else
        let tmeta := qriTargetMeta (tnode.meta.getD []) connLabel
          row.connectionId
        let nodes' := alSet st.nodes target { tnode with meta := some tmeta }
        let st := { st with nodes := nodes' }
        let edgeId := connQriEdgeId row target
        if alHas st.edges edgeId then st
        else
          let edges' := alSet st.edges edgeId (connQriEdge row target)
          let oa' := adjAdd st.outAdj connNodeId edgeId
          let ia' := adjAdd st.inAdj target edgeId
          { st with edges := edges', outAdj := oa', inAdj := ia' }

set_option maxHeartbeats 1000000 in
/-- Meta stage: the optional `qriPrefix` entry. -/
def connMetaQriPre (connQriPre : Option String) (m : List (String × Json)) :
    List (String × Json) :=
  match connQriPre with
  | some p => alSet m "qriPrefix" (.str p)
  | none => m

/-- Meta stage: the qri-match block. -/
def connMetaMatches (qmIds qmNames qmRoots : List String)
    (m : List (String × Json)) : List (String × Json) :=
  if qmRoots ≠ [] then
    let m := alSet m "qriMatchMode" (.str "prefix-before-hash")
    let m := alSet m "qriMatchRootNodeIds" (.arr (qmRoots.map .str))
    let m := if qmIds ≠ [] then alSet m "qriMatchAppIds" (.arr (qmIds.map .str)) else m
    let m := if qmNames ≠ [] then alSet m "qriMatchAppNames" (.arr (qmNames.map .str)) else m
    let m := match qmIds with
      | [a] => alSet m "appId" (.str a)
      | _ => m
    match qmNames with
    | [a] => alSet m "appName" (.str a)
    | _ => m
  else m

/-- Meta stage: the optional `spaceId` entry. -/
def connMetaSpace (spaceId : Option String) (m : List (String × Json)) :
    List (String × Json) :=
  match spaceId with
  | some s => if s ≠ "" then alSet m "spaceId" (.str s) else m
  | none => m

/-- Meta stage: the optional `connectionGroups` entry. -/
def connMetaGroups (connGroups : List String) (m : List (String × Json)) :
    List (String × Json) :=
  if connGroups ≠ [] then alSet m "connectionGroups" (.arr (connGroups.map .str))
  else m

/-- Meta stage: the three `setdefault` copies of typed payload fields. -/
def connMetaDefaults (payload : List (String × Json))
    (m : List (String × Json)) : List (String × Json) :=
  [("type", "connectionType"), ("qType", "qType"),
      ("connectorType", "connectorType")].foldl
    (fun m kv =>
      match jget payload kv.1 with
      | .str s => if pyStrip s ≠ "" then alSetD m kv.2 (.str (pyStrip s)) else m
      | _ => m) m

/-- The synthetic connection node's meta map, assembled in source order. -/
def connNodeMeta (row : ConnRow) (payload : List (String × Json))
    (connQriPre : Option String) (qmIds qmNames qmRoots : List String)
    (connGroups : List String) : List (String × Json) :=
  connMetaDefaults payload (connMetaGroups connGroups (connMetaSpace row.spaceId
    (connMetaMatches qmIds qmNames qmRoots (connMetaQriPre connQriPre
      [("projectId", .num row.projectId),
       ("connectionId", .str row.connectionId)]))))

/-- The data-connection loop body of `_build_snapshot_from_rows`:
materialize the synthetic connection node, then run the group-inference and
qri-prefix link passes. -/
def connRowStep (connMatches : List ((Int × String) × List ConnMatch))
    (st : RowBuildState) (row : ConnRow) : RowBuildState :=
  let payload := safeDict row.data
  let projectKey := row.projectId
  let connectionId := row.connectionId
  let connLabel := connectionLabel payload row
  let connQriPre := qriBeforeHash
    (match jget payload "qri" with
     | .null => row.qri
     | v => if v.truthy then some v.pyStr else row.qri)
  let connNodeId := connectionNodeId row
  let connGroups := connectionGroupCandidates payload row
  let matched := (alGet connMatches (projectKey, connectionId)).getD []
  let qmIds := dedupMatchField (·.appId) matched
  let qmNames := dedupMatchField (·.appName) matched
  let qmRoots := dedupMatchField (·.rootNodeId) matched
  let meta := connNodeMeta row payload connQriPre qmIds qmNames qmRoots connGroups
  let connNode : NodeRec :=
    { id := connNodeId
      label := connLabel
      type := "db"
      subtype := .str "CONNECTION"
      group := match connGroups.head? with | some g => .str g | none => .null
      layer := "extract"
      meta := some meta }
  let nodes1 := alSet st.nodes connNodeId connNode
  let np1 := alSet st.nodeProjects connNodeId
    (listAdd ((alGet st.nodeProjects connNodeId).getD []) projectKey)
  let st := { st with nodes := nodes1, nodeProjects := np1 }
  let targetIds := connGroups.foldl
    (fun acc g => ((alGet st.sourceNodes (projectKey, g)).getD []).foldl listAdd acc)
    []
  let st := (sortStrings targetIds).foldl (connGroupLinkStep row) st
  let st := (sortStrings qmRoots).foldl (connQriLinkStep row connLabel) st
  st

/-- `_build_snapshot_from_rows`. -/
def buildSnapshotFromRows (nodeRows : List NodeRow) (edgeRows : List EdgeRow)
    (appMap : List ((Int × String) × AppInfoRow))
    (dataConnectionRows : List ConnRow)
    (connMatches : List ((Int × String) × List ConnMatch)) : RowSnapshot :=
  let st0 : RowBuildState := ⟨[], [], [], [], [], []⟩
  let st1 := nodeRows.foldl (nodeRowStep appMap) st0
  let st2 := edgeRows.foldl edgeRowStep st1
  let st3 := dataConnectionRows.foldl (connRowStep connMatches) st2
  ⟨st3.nodes, st3.edges, st3.outAdj, st3.inAdj⟩

end QlikAtlas

namespace QlikAtlas

/-! ### Shared lemmas about the dict and set primitives -/

theorem alGet_alSet_self {κ β : Type} [DecidableEq κ]
    (m : List (κ × β)) (k : κ) (v : β) : alGet (alSet m k v) k = some v := by
  induction m with
  | nil => simp [alSet, alGet]
  | cons hd tl ih =>
    obtain ⟨k', v'⟩ := hd
    by_cases h : k' = k
    · simp [alSet, alGet, h]
    · simp [alSet, alGet, h, ih]

theorem alGet_alSet_ne {κ β : Type} [DecidableEq κ]
    (m : List (κ × β)) (k k' : κ) (v : β) (h : k' ≠ k) :
    alGet (alSet m k v) k' = alGet m k' := by
  have h' : ¬ k = k' := fun hh => h hh.symm
  induction m with
  | nil => simp [alSet, alGet, h']
  | cons hd tl ih =>
    obtain ⟨k0, v0⟩ := hd
    by_cases h0 : k0 = k
    · subst h0
      simp [alSet, alGet, h']
    · simp only [alSet, h0, if_false, alGet]
      by_cases h1 : k0 = k'
      · simp [h1]
      · simp [h1, ih]

theorem mem_listAdd {β : Type} [DecidableEq β] (l : List β) (x y : β) :
    y ∈ listAdd l x ↔ y ∈ l ∨ y = x := by
  unfold listAdd
  by_cases h : x ∈ l
  · simp only [h, if_true]
    constructor
    · exact fun hy => Or.inl hy
    · rintro (hy | rfl)
      · exact hy
      · exact h
  · simp [h]

theorem listAdd_nodup {β : Type} [DecidableEq β] (l : List β) (x : β)
    (h : l.Nodup) : (listAdd l x).Nodup := by
  unfold listAdd
  by_cases hx : x ∈ l
  · simpa [hx]
  · simp only [hx, if_false]
    exact List.Nodup.append h (List.nodup_singleton x) (by simpa using hx)

theorem listAdd_self_eq {β : Type} [DecidableEq β] (l : List β) (x : β)
    (h : x ∈ l) : listAdd l x = l := by
  simp [listAdd, h]

/-- Keys of an updated dict: membership view. -/
theorem alGet_isSome_alSet {κ β : Type} [DecidableEq κ]
    (m : List (κ × β)) (k k' : κ) (v : β) :
    (alGet (alSet m k v) k').isSome =
      ((alGet m k').isSome || decide (k' = k)) := by
  by_cases h : k' = k
  · subst h
    simp [alGet_alSet_self]
  · simp [alGet_alSet_ne m k k' v h, h]

end QlikAtlas

namespace QlikAtlas

/-! ### Concrete example inputs shared by the claim instances -/

/-- A minimal app-info value for the concrete examples. -/
def exInfo : AppInfo :=
  { appId := "app1", appName := "App One", spaceId := .null
    fetchedAt := some "2024-01-01T00:00:00Z", status := .null
    fileName := "f.json", rootNodeId := none, nodesCount := 0, edgesCount := 0 }

/-- A bare canonical node for the concrete examples. -/
def exNode (i : String) : NodeRec :=
  { id := i, label := i, type := "other", subtype := .null, group := .null
    layer := "other", meta := none }

/-! ### Claim C7 — node label merge rule -/

/-- The condition under which `_is_better_label` accepts the incoming
label, written out as a proposition. -/
theorem is_better_label_iff (cur cand nid : String) :
    is_better_label cur cand nid = true ↔
      cand ≠ "" ∧ cand ≠ nid ∧
        (cur = "" ∨ cur = nid ∨ cur.length < cand.length) := by
  unfold is_better_label
  by_cases h1 : cand = "" <;> by_cases h2 : cand = nid <;>
    by_cases h3 : cur = "" <;> by_cases h4 : cur = nid <;>
    simp [h1, h2, h3, h4]

/-- C7 (counterexample): the claim says the stored label is replaced only
by a strictly longer incoming label, but when the stored label equals the
bare node id the source replaces it by any non-id label, even a shorter
one: merging id `nodeid1` first with label `nodeid1` and then with label
`ab` stores `ab`, although `ab` is not strictly longer. -/
theorem C7_counterexample :
    ((alGet (build [(exInfo, [exNode "nodeid1",
        { exNode "nodeid1" with label := "ab" }], [])] 1).nodes
      "nodeid1").map NodeRec.label = some "ab") ∧
    ¬ ("nodeid1".length < "ab".length) := by decide

/-- C7 (amended): on a repeat merge of a node id, the stored label is
replaced by the incoming label exactly when the incoming label is
non-empty, differs from the bare node id, and either is strictly longer
than the stored label or the stored label is itself empty or equal to the
bare node id; otherwise the stored label is unchanged. -/
theorem C7_label_merge_rule (existing node : NodeRec) :
    (merge_node_val existing node).label =
      if node.label ≠ "" ∧ node.label ≠ node.id ∧
          (existing.label = "" ∨ existing.label = node.id ∨
            existing.label.length < node.label.length)
        then node.label else existing.label := by
  have hdef : (merge_node_val existing node).label =
      (if is_better_label existing.label node.label node.id then node.label
        else existing.label) := rfl
  rw [hdef]
  by_cases hc : node.label ≠ "" ∧ node.label ≠ node.id ∧
      (existing.label = "" ∨ existing.label = node.id ∨
        existing.label.length < node.label.length)
  · rw [if_pos ((is_better_label_iff _ _ _).mpr hc), if_pos hc]
  · rw [if_neg (fun h => hc ((is_better_label_iff _ _ _).mp h)), if_neg hc]

end QlikAtlas

namespace QlikAtlas

/-! ### Claim C9 — malformed-artifact tolerance of the batch loader -/

theorem alHas_alSet_of {κ β : Type} [DecidableEq κ]
    (m : List (κ × β)) (k k' : κ) (v : β) (h : alHas m k' = true) :
    alHas (alSet m k v) k' = true := by
  unfold alHas at *
  rw [alGet_isSome_alSet]
  simp [h]

theorem alHas_alSet_self {κ β : Type} [DecidableEq κ]
    (m : List (κ × β)) (k : κ) (v : β) : alHas (alSet m k v) k = true := by
  unfold alHas
  rw [alGet_alSet_self]
  rfl

theorem loadRec_fold_records (files : List ArtifactFile) :
    ∀ acc, (files.foldl loadRecStep acc).1 =
      acc.1 ++ files.filterMap fun f => (normalize_file f.2 f.1).toOption := by
  induction files with
  | nil => intro acc; simp
  | cons f fs ih =>
    intro acc
    simp only [List.foldl_cons, List.filterMap_cons]
    cases h : normalize_file f.2 f.1 with
    | ok r => simp [loadRecStep, h, ih, Except.toOption]
    | error e => simp [loadRecStep, h, ih, Except.toOption]

theorem loadRec_fold_has (files : List ArtifactFile) :
    ∀ acc k, alHas acc.2 k = true →
      alHas (files.foldl loadRecStep acc).2 k = true := by
  induction files with
  | nil => intro acc k h; simpa using h
  | cons f fs ih =>
    intro acc k h
    simp only [List.foldl_cons]
    apply ih
    cases hn : normalize_file f.2 f.1 with
    | ok r => simpa [loadRecStep, hn] using h
    | error e =>
      simp only [loadRecStep, hn]
      exact alHas_alSet_of _ _ _ _ h

theorem loadRec_fold_err (files : List ArtifactFile) :
    ∀ acc f, f ∈ files → (∃ e, normalize_file f.2 f.1 = .error e) →
      alHas (files.foldl loadRecStep acc).2 f.1 = true := by
  induction files with
  | nil => intro acc f h; exact absurd h (List.not_mem_nil f)
  | cons g fs ih =>
    intro acc f hmem he
    rcases List.mem_cons.mp hmem with rfl | htail
    · obtain ⟨e, he⟩ := he
      simp only [List.foldl_cons]
      apply loadRec_fold_has
      simp only [loadRecStep, he]
      exact alHas_alSet_self _ _ _
    · simp only [List.foldl_cons]
      exact ih _ f htail he

theorem loadRec_fold_src (files : List ArtifactFile) :
    ∀ acc k e, alGet (files.foldl loadRecStep acc).2 k = some e →
      alGet acc.2 k = some e ∨
        ∃ f, f ∈ files ∧ f.1 = k ∧ normalize_file f.2 f.1 = .error e := by
  induction files with
  | nil => intro acc k e h; exact Or.inl h
  | cons f fs ih =>
    intro acc k e h
    simp only [List.foldl_cons] at h
    cases hn : normalize_file f.2 f.1 with
    | ok r =>
      rcases ih _ k e (by simpa [loadRecStep, hn] using h) with h' | ⟨g, hg, hk, he⟩
      · exact Or.inl h'
      · exact Or.inr ⟨g, List.mem_cons_of_mem _ hg, hk, he⟩
    | error e0 =>
      rcases ih _ k e (by simpa [loadRecStep, hn] using h) with h' | ⟨g, hg, hk, he⟩
      · by_cases hk : k = f.1
        · subst hk
          rw [alGet_alSet_self] at h'
          obtain rfl : e0 = e := by injection h'
          exact Or.inr ⟨f, List.mem_cons_self _ _, rfl, hn⟩
        · rw [alGet_alSet_ne _ _ _ _ hk] at h'
          exact Or.inl h'
      · exact Or.inr ⟨g, List.mem_cons_of_mem _ hg, hk, he⟩

/-- C9: a file whose normalization fails does not abort the batch: the
returned record list is exactly the in-order normalization of the
non-failing files, every failing file's name is recorded in the
name-to-reason map, and every entry of that map comes from a failing file
of the batch. -/
theorem C9_malformed_tolerance (files : List ArtifactFile) :
    (load_lineage_records files).1 =
      (files.filterMap fun f => (normalize_file f.2 f.1).toOption) ∧
    (∀ f ∈ files, ∀ e, normalize_file f.2 f.1 = .error e →
      alHas (load_lineage_records files).2 f.1 = true) ∧
    (∀ k e, alGet (load_lineage_records files).2 k = some e →
      ∃ f, f ∈ files ∧ f.1 = k ∧ normalize_file f.2 f.1 = .error e) := by
  refine ⟨?_, ?_, ?_⟩
  · simpa using loadRec_fold_records files ([], [])
  · intro f hf e he
    exact loadRec_fold_err files ([], []) f hf ⟨e, he⟩
  · intro k e h
    rcases loadRec_fold_src files ([], []) k e h with h' | h'
    · simp [alGet] at h'
    · exact h'

/-- A well-formed artifact file and a malformed one for the C9 instance. -/
def exGoodFile : ArtifactFile := ("good.json", .ok (.obj []))

/-- A malformed artifact file (a JSON array instead of an object). -/
def exBadFile : ArtifactFile := ("bad.json", .ok (.arr []))

/-- C9 (witness): on a concrete two-file batch with one malformed artifact,
the loader keeps the good record and records the bad file's name. -/
theorem C9_witness :
    alHas (load_lineage_records [exGoodFile, exBadFile]).2 "bad.json" = true :=
  (C9_malformed_tolerance [exGoodFile, exBadFile]).2.1 exBadFile
    (List.mem_cons_of_mem _ (List.mem_singleton.mpr rfl))
    "lineage artifact must be a JSON object" rfl

end QlikAtlas

namespace QlikAtlas

/-! ### Claim C1 — file and in-memory payload entry points agree -/

/-- The payload resolves its artifact file name from its own
`_artifactFileName` key. -/
def carriesFileName (a : String × Json) : Prop :=
  jget a.2.asObj "_artifactFileName" = .str a.1 ∧ a.1 ≠ ""

instance (a : String × Json) : Decidable (carriesFileName a) := by
  unfold carriesFileName
  infer_instance

theorem payloadFileName_of_key (a : String × Json) (idx : Nat)
    (h : carriesFileName a) : payloadFileName a.2 idx = a.1 := by
  obtain ⟨hk, hne⟩ := h
  unfold payloadFileName
  rw [hk]
  simp [jOr, Json.truthy, Json.pyStr, hne]

theorem payload_fold_eq (arts : List (String × Json)) :
    ∀ idx accR accS, (∀ a ∈ arts, carriesFileName a) →
      ((arts.map (·.2)).foldl payloadStep (idx, accR, accS)).2 =
        (arts.map fun a => (a.1, Except.ok a.2)).foldl loadRecStep
          (accR, accS) := by
  induction arts with
  | nil => intro idx accR accS _; rfl
  | cons a as ih =>
    intro idx accR accS hall
    have ha := hall a (List.mem_cons_self a as)
    have hname : payloadFileName a.2 idx = a.1 := payloadFileName_of_key a idx ha
    have hsame : normalize_payload a.2 a.1 = normalize_file (Except.ok a.2) a.1 := rfl
    simp only [List.map_cons, List.foldl_cons]
    cases hn : normalize_file (Except.ok a.2) a.1 with
    | ok r =>
      have hstep : payloadStep (idx, accR, accS) a.2 =
          (idx + 1, accR ++ [r], accS) := by
        simp [payloadStep, hname, hsame, hn]
      have hstep' : loadRecStep (accR, accS) (a.1, Except.ok a.2) =
          (accR ++ [r], accS) := by
        simp [loadRecStep, hn]
      rw [hstep, hstep']
      exact ih (idx + 1) (accR ++ [r]) accS fun b hb =>
        hall b (List.mem_cons_of_mem _ hb)
    | error e =>
      have hstep : payloadStep (idx, accR, accS) a.2 =
          (idx + 1, accR, alSet accS a.1 e) := by
        simp [payloadStep, hname, hsame, hn]
      have hstep' : loadRecStep (accR, accS) (a.1, Except.ok a.2) =
          (accR, alSet accS a.1 e) := by
        simp [loadRecStep, hn]
      rw [hstep, hstep']
      exact ih (idx + 1) accR (alSet accS a.1 e) fun b hb =>
        hall b (List.mem_cons_of_mem _ hb)

/-- C1: the file-on-disk entry point and the in-memory-payload entry point
share one normalization routine — normalizing a parsed artifact file and
normalizing the same content as a payload give the same canonical
`(appInfo, nodes[], edges[])` record — and building a snapshot from files
and from the corresponding payloads (payloads carrying the artifact file
name) yields the same graph: equal node, edge, adjacency and app maps, and
the same skip map.  Only the `files_loaded` counter differs between the two
builders.  (`normalize_payload` is absent from the sources and is modelled
from the spec as the shared routine.) -/
theorem C1_file_payload_equivalence :
    (∀ (data : Json) (name : String),
      normalize_file (.ok data) name = normalize_payload data name) ∧
    (∀ arts : List (String × Json), (∀ a ∈ arts, carriesFileName a) →
      (build_snapshot_from_payloads (arts.map (·.2))).1.nodes =
        (build_snapshot_from_lineage_artifacts
          (arts.map fun a => (a.1, Except.ok a.2))).1.nodes ∧
      (build_snapshot_from_payloads (arts.map (·.2))).1.edges =
        (build_snapshot_from_lineage_artifacts
          (arts.map fun a => (a.1, Except.ok a.2))).1.edges ∧
      (build_snapshot_from_payloads (arts.map (·.2))).1.outAdj =
        (build_snapshot_from_lineage_artifacts
          (arts.map fun a => (a.1, Except.ok a.2))).1.outAdj ∧
      (build_snapshot_from_payloads (arts.map (·.2))).1.inAdj =
        (build_snapshot_from_lineage_artifacts
          (arts.map fun a => (a.1, Except.ok a.2))).1.inAdj ∧
      (build_snapshot_from_payloads (arts.map (·.2))).1.apps =
        (build_snapshot_from_lineage_artifacts
          (arts.map fun a => (a.1, Except.ok a.2))).1.apps ∧
      (build_snapshot_from_payloads (arts.map (·.2))).2 =
        (build_snapshot_from_lineage_artifacts
          (arts.map fun a => (a.1, Except.ok a.2))).2) := by
  constructor
  · intro data name; rfl
  · intro arts hall
    have hrec := payload_fold_eq arts 1 [] [] hall
    have hfiles : load_lineage_records (arts.map fun a => (a.1, Except.ok a.2)) =
        (arts.map fun a => (a.1, Except.ok a.2)).foldl loadRecStep ([], []) := rfl
    constructor
    · show (build ((arts.map (·.2)).foldl payloadStep (1, [], [])).2.1 0).nodes = _
      rw [hrec]; rfl
    constructor
    · show (build ((arts.map (·.2)).foldl payloadStep (1, [], [])).2.1 0).edges = _
      rw [hrec]; rfl
    constructor
    · show (build ((arts.map (·.2)).foldl payloadStep (1, [], [])).2.1 0).outAdj = _
      rw [hrec]; rfl
    constructor
    · show (build ((arts.map (·.2)).foldl payloadStep (1, [], [])).2.1 0).inAdj = _
      rw [hrec]; rfl
    constructor
    · show (build ((arts.map (·.2)).foldl payloadStep (1, [], [])).2.1 0).apps = _
      rw [hrec]; rfl
    · show ((arts.map (·.2)).foldl payloadStep (1, [], [])).2.2 = _
      rw [hrec]; rfl

/-- A concrete artifact whose payload carries its file name, for the C1
instance. -/
def exArt : String × Json :=
  ("a.json", .obj [("_artifactFileName", .str "a.json"),
    ("app", .obj [("id", .str "app1"), ("name", .str "App One")])])

/-- C1 (witness): at a concrete one-artifact batch the two builders agree
on nodes, edges and the skip map. -/
theorem C1_witness :
    (build_snapshot_from_payloads ([exArt].map (·.2))).1.nodes =
      (build_snapshot_from_lineage_artifacts
        ([exArt].map fun a => (a.1, Except.ok a.2))).1.nodes ∧
    (build_snapshot_from_payloads ([exArt].map (·.2))).2 =
      (build_snapshot_from_lineage_artifacts
        ([exArt].map fun a => (a.1, Except.ok a.2))).2 :=
  let h := (C1_file_payload_equivalence.2 [exArt]
    (fun a ha => by
      rcases List.mem_singleton.mp ha with rfl
      decide))
  ⟨h.1, h.2.2.2.2.2⟩

end QlikAtlas

namespace QlikAtlas

/-! ### Claim C6 — connection group-inference linking -/

/-- A stored node row whose declared `group` names a database engine but
whose `type` is neither `db` nor `table` and whose id carries no `qri:db:`
scheme. -/
def exC6Node : NodeRow where
  projectId := 1
  nodeId := "nX"
  appId := none
  data := .obj [("type", .str "dataset"), ("group", .str "db:postgresql")]

/-- A stored data-connection row whose `type` field resolves to the
`db:postgresql` group through the alias table. -/
def exC6Conn : ConnRow where
  projectId := 1
  connectionId := "c1"
  qri := none
  spaceId := none
  data := .obj [("type", .str "postgres")]

/-- C6 (counterexample): the claim promises a DEPENDS edge to every
same-project node whose id encodes the engine or whose group matches, but
the source only links nodes recognized as source-db nodes (`type` db or
table, or a `qri:db:` id).  Here the node's group normalizes exactly to the
connection's `db:postgresql` group and both live in project 1, yet the
reconstruction creates no edge at all. -/
theorem C6_counterexample :
    ((alGet (buildSnapshotFromRows [exC6Node] [] [] [exC6Conn] []).nodes
      "nX").isSome = true) ∧
    nodeDbGroup (nodeRowRecord [] exC6Node) = some "db:postgresql" ∧
    connectionGroupCandidates (safeDict exC6Conn.data) exC6Conn =
      ["db:postgresql"] ∧
    exC6Node.projectId = exC6Conn.projectId ∧
    (buildSnapshotFromRows [exC6Node] [] [] [exC6Conn] []).edges = [] := by
  decide

end QlikAtlas

namespace QlikAtlas

/-! ### Fold lemmas about the reassembly state, for the C6 link theorem -/

theorem alGetD_grow {κ β : Type} [DecidableEq κ] [DecidableEq β]
    (m : List (κ × List β)) (k k' : κ) (v x : β)
    (hx : x ∈ (alGet m k).getD []) :
    x ∈ (alGet (alSet m k' (listAdd ((alGet m k').getD []) v)) k).getD [] := by
  by_cases h : k = k'
  · subst h
    rw [alGet_alSet_self]
    exact (mem_listAdd _ _ _).mpr (Or.inl hx)
  · rw [alGet_alSet_ne _ _ _ _ h]
    exact hx

theorem alGetD_set_listAdd_src {κ β : Type} [DecidableEq κ] [DecidableEq β]
    (m : List (κ × List β)) (k k' : κ) (v x : β)
    (hx : x ∈ (alGet (alSet m k' (listAdd ((alGet m k').getD []) v)) k).getD []) :
    x ∈ (alGet m k).getD [] ∨ x = v := by
  by_cases h : k = k'
  · subst h
    rw [alGet_alSet_self] at hx
    simpa [mem_listAdd] using hx
  · rw [alGet_alSet_ne _ _ _ _ h] at hx
    exact Or.inl hx

theorem foldl_listAdd_mem {β : Type} [DecidableEq β] (l : List β) :
    ∀ (acc : List β) (x : β), x ∈ l.foldl listAdd acc ↔ x ∈ acc ∨ x ∈ l := by
  induction l with
  | nil => intro acc x; simp
  | cons a as ih =>
    intro acc x
    simp only [List.foldl_cons, ih, mem_listAdd, List.mem_cons]
    constructor
    · rintro ((h | rfl) | h)
      · exact Or.inl h
      · exact Or.inr (Or.inl rfl)
      · exact Or.inr (Or.inr h)
    · rintro (h | rfl | h)
      · exact Or.inl (Or.inl h)
      · exact Or.inl (Or.inr rfl)
      · exact Or.inr h

theorem mem_sortedInsert (a x : String) (l : List String) :
    x ∈ sortedInsert a l ↔ x = a ∨ x ∈ l := by
  induction l with
  | nil => simp [sortedInsert]
  | cons b bs ih =>
    unfold sortedInsert
    by_cases h : (!pyStrLt b a) = true
    · simp [h]
    · rw [Bool.not_eq_true] at h
      simp only [h, Bool.false_eq_true, if_false, List.mem_cons, ih]
      tauto

theorem mem_sortStrings (l : List String) (x : String) :
    x ∈ sortStrings l ↔ x ∈ l := by
  induction l with
  | nil => simp [sortStrings]
  | cons a as ih =>
    unfold sortStrings at *
    simp [List.foldr_cons, mem_sortedInsert, ih]

/-- The target-id accumulation of the group pass, as membership. -/
theorem mem_groupTargets (groups : List String)
    (src : List ((Int × String) × List String)) (p : Int) :
    ∀ (acc : List String) (x : String),
      x ∈ groups.foldl
        (fun acc g => ((alGet src (p, g)).getD []).foldl listAdd acc) acc ↔
      x ∈ acc ∨ ∃ g ∈ groups, x ∈ (alGet src (p, g)).getD [] := by
  induction groups with
  | nil => intro acc x; simp
  | cons g gs ih =>
    intro acc x
    simp only [List.foldl_cons, ih, foldl_listAdd_mem, List.mem_cons]
    constructor
    · rintro ((h | h) | ⟨g', hg', hx⟩)
      · exact Or.inl h
      · exact Or.inr ⟨g, Or.inl rfl, h⟩
      · exact Or.inr ⟨g', Or.inr hg', hx⟩
    · rintro (h | ⟨g', hg' | hg', hx⟩)
      · exact Or.inl (Or.inl h)
      · subst hg'; exact Or.inl (Or.inr hx)
      · exact Or.inr ⟨g', hg', hx⟩

end QlikAtlas

namespace QlikAtlas

theorem nodeRowStep_sourceNodes_grow (appMap : List ((Int × String) × AppInfoRow))
    (st : RowBuildState) (row : NodeRow) (key : Int × String) (x : String)
    (hx : x ∈ (alGet st.sourceNodes key).getD []) :
    x ∈ (alGet (nodeRowStep appMap st row).sourceNodes key).getD [] := by
  simp only [nodeRowStep]
  split
  · split
    · exact alGetD_grow _ _ _ _ _ hx
    · exact hx
  · exact hx

theorem nodeRowStep_nodeProjects_grow (appMap : List ((Int × String) × AppInfoRow))
    (st : RowBuildState) (row : NodeRow) (k : String) (p : Int)
    (hx : p ∈ (alGet st.nodeProjects k).getD []) :
    p ∈ (alGet (nodeRowStep appMap st row).nodeProjects k).getD [] := by
  simp only [nodeRowStep]
  split
  · split
    · exact alGetD_grow _ _ _ _ _ hx
    · exact alGetD_grow _ _ _ _ _ hx
  · exact alGetD_grow _ _ _ _ _ hx

theorem nodeRowStep_source_prov (appMap : List ((Int × String) × AppInfoRow))
    (st : RowBuildState) (row : NodeRow) (key : Int × String) (x : String)
    (hx : x ∈ (alGet (nodeRowStep appMap st row).sourceNodes key).getD []) :
    x ∈ (alGet st.sourceNodes key).getD [] ∨
      x = (nodeRowRecord appMap row).id := by
  simp only [nodeRowStep] at hx
  revert hx
  split
  · split
    · intro hx
      exact alGetD_set_listAdd_src _ _ _ _ _ hx
    · exact fun hx => Or.inl hx
  · exact fun hx => Or.inl hx

theorem nodeRowStep_registers (appMap : List ((Int × String) × AppInfoRow))
    (st : RowBuildState) (row : NodeRow) (g : String)
    (hsrc : isSourceDbNode (nodeRowRecord appMap row) = true)
    (hgrp : nodeDbGroup (nodeRowRecord appMap row) = some g) :
    (nodeRowRecord appMap row).id ∈
      (alGet (nodeRowStep appMap st row).sourceNodes
        (row.projectId, g)).getD [] ∧
    row.projectId ∈
      (alGet (nodeRowStep appMap st row).nodeProjects
        (nodeRowRecord appMap row).id).getD [] := by
  simp only [nodeRowStep, hsrc, hgrp, if_true]
  constructor
  · rw [alGet_alSet_self]
    simp [mem_listAdd]
  · rw [alGet_alSet_self]
    simp [mem_listAdd]

end QlikAtlas

namespace QlikAtlas

theorem nodeFold_sourceNodes_grow (appMap : List ((Int × String) × AppInfoRow))
    (rows : List NodeRow) :
    ∀ (st : RowBuildState) (key : Int × String) (x : String),
      x ∈ (alGet st.sourceNodes key).getD [] →
      x ∈ (alGet (rows.foldl (nodeRowStep appMap) st).sourceNodes key).getD [] := by
  induction rows with
  | nil => intro st key x hx; exact hx
  | cons r rs ih =>
    intro st key x hx
    exact ih _ key x (nodeRowStep_sourceNodes_grow appMap st r key x hx)

theorem nodeFold_nodeProjects_grow (appMap : List ((Int × String) × AppInfoRow))
    (rows : List NodeRow) :
    ∀ (st : RowBuildState) (k : String) (p : Int),
      p ∈ (alGet st.nodeProjects k).getD [] →
      p ∈ (alGet (rows.foldl (nodeRowStep appMap) st).nodeProjects k).getD [] := by
  induction rows with
  | nil => intro st k p hx; exact hx
  | cons r rs ih =>
    intro st k p hx
    exact ih _ k p (nodeRowStep_nodeProjects_grow appMap st r k p hx)

theorem nodeFold_registers (appMap : List ((Int × String) × AppInfoRow))
    (rows : List NodeRow) :
    ∀ (st : RowBuildState) (nr : NodeRow), nr ∈ rows → ∀ (g : String),
      isSourceDbNode (nodeRowRecord appMap nr) = true →
      nodeDbGroup (nodeRowRecord appMap nr) = some g →
      (nodeRowRecord appMap nr).id ∈
        (alGet (rows.foldl (nodeRowStep appMap) st).sourceNodes
          (nr.projectId, g)).getD [] ∧
      nr.projectId ∈
        (alGet (rows.foldl (nodeRowStep appMap) st).nodeProjects
          (nodeRowRecord appMap nr).id).getD [] := by
  induction rows with
  | nil => intro st nr h; exact absurd h (List.not_mem_nil nr)
  | cons r rs ih =>
    intro st nr hmem g hsrc hgrp
    rcases List.mem_cons.mp hmem with rfl | htail
    · have h := nodeRowStep_registers appMap st nr g hsrc hgrp
      exact ⟨nodeFold_sourceNodes_grow appMap rs _ _ _ h.1,
        nodeFold_nodeProjects_grow appMap rs _ _ _ h.2⟩
    · exact ih _ nr htail g hsrc hgrp

theorem nodeFold_source_prov (appMap : List ((Int × String) × AppInfoRow))
    (rows : List NodeRow) :
    ∀ (st : RowBuildState) (key : Int × String) (x : String),
      x ∈ (alGet (rows.foldl (nodeRowStep appMap) st).sourceNodes key).getD [] →
      x ∈ (alGet st.sourceNodes key).getD [] ∨
        ∃ nr' ∈ rows, x = (nodeRowRecord appMap nr').id := by
  induction rows with
  | nil => intro st key x hx; exact Or.inl hx
  | cons r rs ih =>
    intro st key x hx
    rcases ih _ key x hx with h | ⟨nr', hmem, hx'⟩
    · rcases nodeRowStep_source_prov appMap st r key x h with h' | h'
      · exact Or.inl h'
      · exact Or.inr ⟨r, List.mem_cons_self r rs, h'⟩
    · exact Or.inr ⟨nr', List.mem_cons_of_mem _ hmem, hx'⟩

theorem edgeRowStep_sourceNodes (st : RowBuildState) (row : EdgeRow) :
    (edgeRowStep st row).sourceNodes = st.sourceNodes := by
  simp only [edgeRowStep]
  split <;> rfl

theorem edgeRowStep_nodeProjects_grow (st : RowBuildState) (row : EdgeRow)
    (k : String) (p : Int) (hx : p ∈ (alGet st.nodeProjects k).getD []) :
    p ∈ (alGet (edgeRowStep st row).nodeProjects k).getD [] := by
  simp only [edgeRowStep]
  split
  · exact hx
  · exact alGetD_grow _ _ _ _ _ (alGetD_grow _ _ _ _ _ hx)

theorem edgeRowStep_edges_none (st : RowBuildState) (row : EdgeRow)
    (k : String)
    (hne : (edgeRecordFromPayload row.edgeId (safeDict row.data)).id ≠ k)
    (h : alGet st.edges k = none) : alGet (edgeRowStep st row).edges k = none := by
  simp only [edgeRowStep]
  split
  · exact h
  · rw [alGet_alSet_ne _ _ _ _ (fun hh => hne hh.symm)]
    exact h

theorem edgeFold_sourceNodes (rows : List EdgeRow) :
    ∀ st : RowBuildState,
      (rows.foldl edgeRowStep st).sourceNodes = st.sourceNodes := by
  induction rows with
  | nil => intro st; rfl
  | cons r rs ih =>
    intro st
    rw [List.foldl_cons, ih, edgeRowStep_sourceNodes]

theorem edgeFold_nodeProjects_grow (rows : List EdgeRow) :
    ∀ (st : RowBuildState) (k : String) (p : Int),
      p ∈ (alGet st.nodeProjects k).getD [] →
      p ∈ (alGet (rows.foldl edgeRowStep st).nodeProjects k).getD [] := by
  induction rows with
  | nil => intro st k p hx; exact hx
  | cons r rs ih =>
    intro st k p hx
    exact ih _ k p (edgeRowStep_nodeProjects_grow st r k p hx)

theorem edgeFold_edges_none (rows : List EdgeRow) :
    ∀ (st : RowBuildState) (k : String),
      (∀ er ∈ rows,
        (edgeRecordFromPayload er.edgeId (safeDict er.data)).id ≠ k) →
      alGet st.edges k = none →
      alGet (rows.foldl edgeRowStep st).edges k = none := by
  induction rows with
  | nil => intro st k _ h; exact h
  | cons r rs ih =>
    intro st k hall h
    exact ih _ k (fun er he => hall er (List.mem_cons_of_mem _ he))
      (edgeRowStep_edges_none st r k (hall r (List.mem_cons_self r rs)) h)

end QlikAtlas

namespace QlikAtlas

theorem connGroupLinkStep_sourceNodes (row : ConnRow) (st : RowBuildState)
    (t : String) : (connGroupLinkStep row st t).sourceNodes = st.sourceNodes := by
  simp only [connGroupLinkStep]
  split
  · rfl
  · split
    · rfl
    · split <;> rfl

theorem connGroupLinkStep_nodeProjects (row : ConnRow) (st : RowBuildState)
    (t : String) : (connGroupLinkStep row st t).nodeProjects = st.nodeProjects := by
  simp only [connGroupLinkStep]
  split
  · rfl
  · split
    · rfl
    · split <;> rfl

theorem connGroupLinkStep_edges_pres (row : ConnRow) (st : RowBuildState)
    (t : String) (k : String) (v : RowEdgeRec)
    (h : alGet st.edges k = some v) :
    alGet (connGroupLinkStep row st t).edges k = some v := by
  simp only [connGroupLinkStep]
  split
  · exact h
  · split
    · exact h
    · split
      · exact h
      · next hhas =>
        by_cases hk : k = connInferredEdgeId row t
        · subst hk
          exact absurd (by simp [alHas, h]) hhas
        · rw [alGet_alSet_ne _ _ _ _ hk]
          exact h

theorem connGroupLinkStep_edges_cases (row : ConnRow) (st : RowBuildState)
    (t : String) (k : String) :
    alGet (connGroupLinkStep row st t).edges k = alGet st.edges k ∨
      (connInferredEdgeId row t = k ∧
        alGet (connGroupLinkStep row st t).edges k =
          some (connInferredEdge row t)) := by
  simp only [connGroupLinkStep]
  split
  · exact Or.inl rfl
  · split
    · exact Or.inl rfl
    · split
      · exact Or.inl rfl
      · by_cases hk : k = connInferredEdgeId row t
        · subst hk
          exact Or.inr ⟨rfl, alGet_alSet_self _ _ _⟩
        · rw [alGet_alSet_ne _ _ _ _ hk]
          exact Or.inl rfl

theorem connQriLinkStep_sourceNodes (row : ConnRow) (lbl : String)
    (st : RowBuildState) (t : String) :
    (connQriLinkStep row lbl st t).sourceNodes = st.sourceNodes := by
  simp only [connQriLinkStep]
  split
  · rfl
  · split
    · rfl
    · split
      · rfl
      · split <;> rfl

theorem connQriLinkStep_nodeProjects (row : ConnRow) (lbl : String)
    (st : RowBuildState) (t : String) :
    (connQriLinkStep row lbl st t).nodeProjects = st.nodeProjects := by
  simp only [connQriLinkStep]
  split
  · rfl
  · split
    · rfl
    · split
      · rfl
      · split <;> rfl

theorem connQriLinkStep_edges_pres (row : ConnRow) (lbl : String)
    (st : RowBuildState) (t : String) (k : String) (v : RowEdgeRec)
    (h : alGet st.edges k = some v) :
    alGet (connQriLinkStep row lbl st t).edges k = some v := by
  simp only [connQriLinkStep]
  split
  · exact h
  · split
    · exact h
    · split
      · exact h
      · split
        · exact h
        · next hhas =>
          by_cases hk : k = connQriEdgeId row t
          · subst hk
            exact absurd (by simp [alHas, h]) hhas
          · rw [alGet_alSet_ne _ _ _ _ hk]
            exact h

theorem connQriLinkStep_edges_cases (row : ConnRow) (lbl : String)
    (st : RowBuildState) (t : String) (k : String) :
    alGet (connQriLinkStep row lbl st t).edges k = alGet st.edges k ∨
      (connQriEdgeId row t = k ∧
        alGet (connQriLinkStep row lbl st t).edges k =
          some (connQriEdge row t)) := by
  simp only [connQriLinkStep]
  split
  · exact Or.inl rfl
  · split
    · exact Or.inl rfl
    · split
      · exact Or.inl rfl
      · split
        · exact Or.inl rfl
        · by_cases hk : k = connQriEdgeId row t
          · subst hk
            exact Or.inr ⟨rfl, alGet_alSet_self _ _ _⟩
          · rw [alGet_alSet_ne _ _ _ _ hk]
            exact Or.inl rfl

end QlikAtlas

namespace QlikAtlas

theorem groupFold_sourceNodes (row : ConnRow) (targets : List String) :
    ∀ st : RowBuildState,
      ((targets.foldl (connGroupLinkStep row) st)).sourceNodes =
        st.sourceNodes := by
  induction targets with
  | nil => intro st; rfl
  | cons t ts ih =>
    intro st
    rw [List.foldl_cons, ih, connGroupLinkStep_sourceNodes]

theorem groupFold_nodeProjects (row : ConnRow) (targets : List String) :
    ∀ st : RowBuildState,
      ((targets.foldl (connGroupLinkStep row) st)).nodeProjects =
        st.nodeProjects := by
  induction targets with
  | nil => intro st; rfl
  | cons t ts ih =>
    intro st
    rw [List.foldl_cons, ih, connGroupLinkStep_nodeProjects]

theorem groupFold_edges_pres (row : ConnRow) (targets : List String) :
    ∀ (st : RowBuildState) (k : String) (v : RowEdgeRec),
      alGet st.edges k = some v →
      alGet ((targets.foldl (connGroupLinkStep row) st)).edges k = some v := by
  induction targets with
  | nil => intro st k v h; exact h
  | cons t ts ih =>
    intro st k v h
    exact ih _ k v (connGroupLinkStep_edges_pres row st t k v h)

theorem groupFold_edges_cases (row : ConnRow) (targets : List String) :
    ∀ (st : RowBuildState) (k : String),
      alGet ((targets.foldl (connGroupLinkStep row) st)).edges k =
        alGet st.edges k ∨
      ∃ t ∈ targets, connInferredEdgeId row t = k ∧
        alGet ((targets.foldl (connGroupLinkStep row) st)).edges k =
          some (connInferredEdge row t) := by
  induction targets with
  | nil => intro st k; exact Or.inl rfl
  | cons t ts ih =>
    intro st k
    rw [List.foldl_cons]
    rcases connGroupLinkStep_edges_cases row st t k with hcase | ⟨hid, hset⟩
    · rcases ih (connGroupLinkStep row st t) k with h | ⟨t', ht', hid', hset'⟩
      · exact Or.inl (h.trans hcase)
      · exact Or.inr ⟨t', List.mem_cons_of_mem _ ht', hid', hset'⟩
    · exact Or.inr ⟨t, List.mem_cons_self t ts, hid,
        groupFold_edges_pres row ts _ k _ hset⟩

theorem qriFold_sourceNodes (row : ConnRow) (lbl : String)
    (targets : List String) :
    ∀ st : RowBuildState,
      ((targets.foldl (connQriLinkStep row lbl) st)).sourceNodes =
        st.sourceNodes := by
  induction targets with
  | nil => intro st; rfl
  | cons t ts ih =>
    intro st
    rw [List.foldl_cons, ih, connQriLinkStep_sourceNodes]

theorem qriFold_nodeProjects (row : ConnRow) (lbl : String)
    (targets : List String) :
    ∀ st : RowBuildState,
      ((targets.foldl (connQriLinkStep row lbl) st)).nodeProjects =
        st.nodeProjects := by
  induction targets with
  | nil => intro st; rfl
  | cons t ts ih =>
    intro st
    rw [List.foldl_cons, ih, connQriLinkStep_nodeProjects]

theorem qriFold_edges_pres (row : ConnRow) (lbl : String)
    (targets : List String) :
    ∀ (st : RowBuildState) (k : String) (v : RowEdgeRec),
      alGet st.edges k = some v →
      alGet ((targets.foldl (connQriLinkStep row lbl) st)).edges k = some v := by
  induction targets with
  | nil => intro st k v h; exact h
  | cons t ts ih =>
    intro st k v h
    exact ih _ k v (connQriLinkStep_edges_pres row lbl st t k v h)

theorem qriFold_edges_cases (row : ConnRow) (lbl : String)
    (targets : List String) :
    ∀ (st : RowBuildState) (k : String),
      alGet ((targets.foldl (connQriLinkStep row lbl) st)).edges k =
        alGet st.edges k ∨
      ∃ t, connQriEdgeId row t = k ∧
        alGet ((targets.foldl (connQriLinkStep row lbl) st)).edges k =
          some (connQriEdge row t) := by
  induction targets with
  | nil => intro st k; exact Or.inl rfl
  | cons t ts ih =>
    intro st k
    rw [List.foldl_cons]
    rcases connQriLinkStep_edges_cases row lbl st t k with hcase | ⟨hid, hset⟩
    · rcases ih (connQriLinkStep row lbl st t) k with h | ⟨t', hid', hset'⟩
      · exact Or.inl (h.trans hcase)
      · exact Or.inr ⟨t', hid', hset'⟩
    · exact Or.inr ⟨t, hid, qriFold_edges_pres row lbl ts _ k _ hset⟩

/-- A qri-prefix-inferred edge id never equals a group-inferred one: the
mode tag in the hashed text separates them (in the digest model, the two
literal prefixes disagree at the ninth character, since the hashed text
always starts with the `qri:connection:` scheme). -/
theorem connQriEdgeId_ne_inferred (c' c : ConnRow) (t t' : String) :
    connQriEdgeId c' t ≠ connInferredEdgeId c t' := by
  intro h
  have hd := congrArg String.data h
  simp only [connQriEdgeId, connInferredEdgeId, connectionNodeId, sha1Hex,
    String.data_append, List.append_assoc] at hd
  simp at hd

end QlikAtlas

namespace QlikAtlas

theorem nodeRowStep_edges (appMap : List ((Int × String) × AppInfoRow))
    (st : RowBuildState) (row : NodeRow) :
    (nodeRowStep appMap st row).edges = st.edges := by
  simp only [nodeRowStep]
  split
  · split <;> rfl
  · rfl

theorem nodeFold_edges (appMap : List ((Int × String) × AppInfoRow))
    (rows : List NodeRow) :
    ∀ st : RowBuildState,
      (rows.foldl (nodeRowStep appMap) st).edges = st.edges := by
  induction rows with
  | nil => intro st; rfl
  | cons r rs ih =>
    intro st
    rw [List.foldl_cons, ih, nodeRowStep_edges]

theorem connRowStep_sourceNodes (m : List ((Int × String) × List ConnMatch))
    (st : RowBuildState) (c : ConnRow) :
    (connRowStep m st c).sourceNodes = st.sourceNodes := by
  simp only [connRowStep]
  rw [qriFold_sourceNodes, groupFold_sourceNodes]

theorem connRowStep_nodeProjects_grow
    (m : List ((Int × String) × List ConnMatch)) (st : RowBuildState)
    (c : ConnRow) (k : String) (p : Int)
    (hx : p ∈ (alGet st.nodeProjects k).getD []) :
    p ∈ (alGet (connRowStep m st c).nodeProjects k).getD [] := by
  simp only [connRowStep]
  rw [qriFold_nodeProjects, groupFold_nodeProjects]
  exact alGetD_grow _ _ _ _ _ hx

theorem connRowStep_edges_pres (m : List ((Int × String) × List ConnMatch))
    (st : RowBuildState) (c : ConnRow) (k : String) (v : RowEdgeRec)
    (h : alGet st.edges k = some v) :
    alGet (connRowStep m st c).edges k = some v := by
  simp only [connRowStep]
  exact qriFold_edges_pres _ _ _ _ _ _
    (groupFold_edges_pres _ _ _ _ _ h)

theorem connRowStep_edges_cases (m : List ((Int × String) × List ConnMatch))
    (st : RowBuildState) (c : ConnRow) (k : String) :
    alGet (connRowStep m st c).edges k = alGet st.edges k ∨
      (∃ t, (∃ g' ∈ connectionGroupCandidates (safeDict c.data) c,
          t ∈ (alGet st.sourceNodes (c.projectId, g')).getD []) ∧
        connInferredEdgeId c t = k ∧
        alGet (connRowStep m st c).edges k = some (connInferredEdge c t)) ∨
      (∃ t, connQriEdgeId c t = k ∧
        alGet (connRowStep m st c).edges k = some (connQriEdge c t)) := by
  simp only [connRowStep]
  rcases qriFold_edges_cases c (connectionLabel (safeDict c.data) c) _ _ k
    with hq | ⟨t, hid, hset⟩
  · rw [hq]
    rcases groupFold_edges_cases c _ _ k with hgc | ⟨t, ht, hid, hset⟩
    · rw [hgc]
      exact Or.inl rfl
    · refine Or.inr (Or.inl ⟨t, ?_, hid, hset⟩)
      rw [mem_sortStrings, mem_groupTargets] at ht
      rcases ht with h | ⟨g', hg', hmem⟩
      · exact absurd h (List.not_mem_nil t)
      · exact ⟨g', hg', hmem⟩
  · exact Or.inr (Or.inr ⟨t, hid, hset⟩)

theorem groupFold_establishes (row : ConnRow) (target : String)
    (targets : List String) :
    ∀ st : RowBuildState, target ∈ targets →
      target ≠ connectionNodeId row →
      row.projectId ∈ (alGet st.nodeProjects target).getD [] →
      (alGet st.edges (connInferredEdgeId row target) = none ∨
        alGet st.edges (connInferredEdgeId row target) =
          some (connInferredEdge row target)) →
      (∀ t' ∈ targets,
        connInferredEdgeId row t' = connInferredEdgeId row target →
        connInferredEdge row t' = connInferredEdge row target) →
      alGet ((targets.foldl (connGroupLinkStep row) st)).edges
        (connInferredEdgeId row target) = some (connInferredEdge row target) := by
  induction targets with
  | nil => intro st h; exact absurd h (List.not_mem_nil target)
  | cons t ts ih =>
    intro st hmem hne hproj hpre hcoll
    rw [List.foldl_cons]
    by_cases ht : t = target
    · subst ht
      have hstep : alGet (connGroupLinkStep row st t).edges
          (connInferredEdgeId row t) = some (connInferredEdge row t) := by
        simp only [connGroupLinkStep]
        rw [if_neg hne, if_neg (not_not_intro hproj)]
        split
        · next hhas =>
          rcases hpre with hnone | hsome
          · exact absurd hhas (by simp [alHas, hnone])
          · exact hsome
        · exact alGet_alSet_self _ _ _
      exact groupFold_edges_pres row ts _ _ _ hstep
    · have hmem' : target ∈ ts := by
        rcases List.mem_cons.mp hmem with h | h
        · exact absurd h.symm ht
        · exact h
      apply ih _ hmem' hne
      · rw [connGroupLinkStep_nodeProjects]
        exact hproj
      · rcases connGroupLinkStep_edges_cases row st t
          (connInferredEdgeId row target) with hcase | ⟨hid, hset⟩
        · rw [hcase]
          exact hpre
        · right
          rw [hset, hcoll t (List.mem_cons_self t ts) hid]
      · intro t' ht' hid
        exact hcoll t' (List.mem_cons_of_mem _ ht') hid

theorem connRowStep_establishes (m : List ((Int × String) × List ConnMatch))
    (st : RowBuildState) (c : ConnRow) (target g : String)
    (hg : g ∈ connectionGroupCandidates (safeDict c.data) c)
    (hsrcmem : target ∈ (alGet st.sourceNodes (c.projectId, g)).getD [])
    (hne : target ≠ connectionNodeId c)
    (hproj : c.projectId ∈ (alGet st.nodeProjects target).getD [])
    (hpre : alGet st.edges (connInferredEdgeId c target) = none ∨
      alGet st.edges (connInferredEdgeId c target) =
        some (connInferredEdge c target))
    (hcollc : ∀ t', (∃ g' ∈ connectionGroupCandidates (safeDict c.data) c,
        t' ∈ (alGet st.sourceNodes (c.projectId, g')).getD []) →
      connInferredEdgeId c t' = connInferredEdgeId c target →
      connInferredEdge c t' = connInferredEdge c target) :
    alGet (connRowStep m st c).edges (connInferredEdgeId c target) =
      some (connInferredEdge c target) := by
  simp only [connRowStep]
  apply qriFold_edges_pres
  apply groupFold_establishes
  · rw [mem_sortStrings, mem_groupTargets]
    exact Or.inr ⟨g, hg, hsrcmem⟩
  · exact hne
  · exact alGetD_grow _ _ _ _ _ hproj
  · exact hpre
  · intro t' ht' hid
    rw [mem_sortStrings, mem_groupTargets] at ht'
    rcases ht' with h | ⟨g', hg', hmemg⟩
    · exact absurd h (List.not_mem_nil t')
    · exact hcollc t' ⟨g', hg', hmemg⟩ hid

theorem connFold_edges_pres (m : List ((Int × String) × List ConnMatch))
    (rows : List ConnRow) :
    ∀ (st : RowBuildState) (k : String) (v : RowEdgeRec),
      alGet st.edges k = some v →
      alGet ((rows.foldl (connRowStep m) st)).edges k = some v := by
  induction rows with
  | nil => intro st k v h; exact h
  | cons r rs ih =>
    intro st k v h
    exact ih _ k v (connRowStep_edges_pres m st r k v h)

theorem connFold_sourceNodes (m : List ((Int × String) × List ConnMatch))
    (rows : List ConnRow) :
    ∀ st : RowBuildState,
      ((rows.foldl (connRowStep m) st)).sourceNodes = st.sourceNodes := by
  induction rows with
  | nil => intro st; rfl
  | cons r rs ih =>
    intro st
    rw [List.foldl_cons, ih, connRowStep_sourceNodes]

theorem connFold_nodeProjects_grow (m : List ((Int × String) × List ConnMatch))
    (rows : List ConnRow) :
    ∀ (st : RowBuildState) (k : String) (p : Int),
      p ∈ (alGet st.nodeProjects k).getD [] →
      p ∈ (alGet ((rows.foldl (connRowStep m) st)).nodeProjects k).getD [] := by
  induction rows with
  | nil => intro st k p h; exact h
  | cons r rs ih =>
    intro st k p h
    exact ih _ k p (connRowStep_nodeProjects_grow m st r k p h)

end QlikAtlas

namespace QlikAtlas

theorem connPreFold_inv (m : List ((Int × String) × List ConnMatch))
    (allConn : List ConnRow) (nodeRows : List NodeRow)
    (appMap : List ((Int × String) × AppInfoRow)) (c : ConnRow) (rid : String)
    (hcoll : ∀ c' ∈ allConn, ∀ nr' ∈ nodeRows,
      connInferredEdgeId c' (nodeRowRecord appMap nr').id =
        connInferredEdgeId c rid →
      connInferredEdge c' (nodeRowRecord appMap nr').id =
        connInferredEdge c rid)
    (rows : List ConnRow) (hsub : ∀ r ∈ rows, r ∈ allConn) :
    ∀ st : RowBuildState,
      (∀ key x, x ∈ (alGet st.sourceNodes key).getD [] →
        ∃ nr' ∈ nodeRows, x = (nodeRowRecord appMap nr').id) →
      (alGet st.edges (connInferredEdgeId c rid) = none ∨
        alGet st.edges (connInferredEdgeId c rid) =
          some (connInferredEdge c rid)) →
      (alGet ((rows.foldl (connRowStep m) st)).edges
          (connInferredEdgeId c rid) = none ∨
        alGet ((rows.foldl (connRowStep m) st)).edges
          (connInferredEdgeId c rid) = some (connInferredEdge c rid)) := by
  induction rows with
  | nil => intro st _ hpre; exact hpre
  | cons r rs ih =>
    intro st hprov hpre
    rw [List.foldl_cons]
    have hprov' : ∀ key x,
        x ∈ (alGet (connRowStep m st r).sourceNodes key).getD [] →
        ∃ nr' ∈ nodeRows, x = (nodeRowRecord appMap nr').id := by
      intro key x hx
      rw [connRowStep_sourceNodes] at hx
      exact hprov key x hx
    apply ih (fun r' hr' => hsub r' (List.mem_cons_of_mem _ hr')) _ hprov'
    rcases connRowStep_edges_cases m st r (connInferredEdgeId c rid) with
      hcase | ⟨t, ⟨g', _, hmemg⟩, hid, hset⟩ | ⟨t, hid, _⟩
    · rw [hcase]
      exact hpre
    · right
      rw [hset]
      obtain ⟨nr', hnr', rfl⟩ := hprov (r.projectId, g') t hmemg
      rw [hcoll r (hsub r (List.mem_cons_self r rs)) nr' hnr' hid]
    · exact absurd hid (connQriEdgeId_ne_inferred r c t rid)

/-- C6 (amended): for every stored data-connection row, the reconstruction
creates the deterministic DEPENDS edge from the connection's synthetic node
to every same-project node that is recognized as a source-db node (its
type is `db` or `table`, or its id matches `qri:db:<engine>://`) and whose
derived engine group — taken from its id, else its declared group, else the
db ids in its meta — equals one of the connection's `db:<engine>` groups.
The side hypotheses only rule out digest collisions: no stored edge row and
no other (connection, source-node) pair hashes to the same edge id other
than harmlessly. -/
theorem C6_group_inference_links
    (nodeRows : List NodeRow) (edgeRows : List EdgeRow)
    (appMap : List ((Int × String) × AppInfoRow))
    (connRows : List ConnRow)
    (connMatches : List ((Int × String) × List ConnMatch))
    (nr : NodeRow) (c : ConnRow) (g : String)
    (hnr : nr ∈ nodeRows) (hc : c ∈ connRows)
    (hsrc : isSourceDbNode (nodeRowRecord appMap nr) = true)
    (hgrp : nodeDbGroup (nodeRowRecord appMap nr) = some g)
    (hproj : nr.projectId = c.projectId)
    (hg : g ∈ connectionGroupCandidates (safeDict c.data) c)
    (hne : (nodeRowRecord appMap nr).id ≠ connectionNodeId c)
    (hrows : ∀ er ∈ edgeRows,
      (edgeRecordFromPayload er.edgeId (safeDict er.data)).id ≠
        connInferredEdgeId c (nodeRowRecord appMap nr).id)
    (hcoll : ∀ c' ∈ connRows, ∀ nr' ∈ nodeRows,
      connInferredEdgeId c' (nodeRowRecord appMap nr').id =
        connInferredEdgeId c (nodeRowRecord appMap nr).id →
      connInferredEdge c' (nodeRowRecord appMap nr').id =
        connInferredEdge c (nodeRowRecord appMap nr).id) :
    alGet (buildSnapshotFromRows nodeRows edgeRows appMap connRows
        connMatches).edges
        (connInferredEdgeId c (nodeRowRecord appMap nr).id) =
      some (connInferredEdge c (nodeRowRecord appMap nr).id) := by
  have hreg := nodeFold_registers appMap nodeRows
    (⟨[], [], [], [], [], []⟩ : RowBuildState) nr hnr g hsrc hgrp
  show alGet ((connRows.foldl (connRowStep connMatches)
    (edgeRows.foldl edgeRowStep
      (nodeRows.foldl (nodeRowStep appMap) ⟨[], [], [], [], [], []⟩))).edges)
    (connInferredEdgeId c (nodeRowRecord appMap nr).id) = _
  generalize hst1 : nodeRows.foldl (nodeRowStep appMap)
    (⟨[], [], [], [], [], []⟩ : RowBuildState) = st1 at *
  have hsrc1 : (nodeRowRecord appMap nr).id ∈
      (alGet st1.sourceNodes (c.projectId, g)).getD [] := by
    rw [← hproj]
    exact hreg.1
  have hproj1 : nr.projectId ∈
      (alGet st1.nodeProjects (nodeRowRecord appMap nr).id).getD [] := hreg.2
  generalize hst2 : edgeRows.foldl edgeRowStep st1 = st2
  have hsn2 : st2.sourceNodes = st1.sourceNodes := by
    rw [← hst2]; exact edgeFold_sourceNodes edgeRows st1
  have hproj2 : c.projectId ∈
      (alGet st2.nodeProjects (nodeRowRecord appMap nr).id).getD [] := by
    rw [← hst2, ← hproj]
    exact edgeFold_nodeProjects_grow edgeRows st1 _ _ hproj1
  have hnone2 : alGet st2.edges
      (connInferredEdgeId c (nodeRowRecord appMap nr).id) = none := by
    rw [← hst2]
    apply edgeFold_edges_none edgeRows st1 _ hrows
    rw [← hst1, nodeFold_edges]
    rfl
  have hprov : ∀ key x, x ∈ (alGet st2.sourceNodes key).getD [] →
      ∃ nr' ∈ nodeRows, x = (nodeRowRecord appMap nr').id := by
    intro key x hx
    rw [hsn2, ← hst1] at hx
    rcases nodeFold_source_prov appMap nodeRows _ key x hx with h | h
    · simp [alGet] at h
    · exact h
  obtain ⟨pre, post, rfl⟩ := List.append_of_mem hc
  rw [List.foldl_append, List.foldl_cons]
  have hsub : ∀ r ∈ pre, r ∈ pre ++ c :: post := fun r hr =>
    List.mem_append_left _ hr
  have hpreP := connPreFold_inv connMatches (pre ++ c :: post) nodeRows appMap
    c (nodeRowRecord appMap nr).id hcoll pre hsub st2 hprov (Or.inl hnone2)
  have hsnP : (pre.foldl (connRowStep connMatches) st2).sourceNodes =
      st2.sourceNodes := connFold_sourceNodes connMatches pre st2
  have hprovP : ∀ key x,
      x ∈ (alGet (pre.foldl (connRowStep connMatches)
        st2).sourceNodes key).getD [] →
      ∃ nr' ∈ nodeRows, x = (nodeRowRecord appMap nr').id := by
    intro key x hx
    rw [hsnP] at hx
    exact hprov key x hx
  have hestab := connRowStep_establishes connMatches
    (pre.foldl (connRowStep connMatches) st2) c
    (nodeRowRecord appMap nr).id g hg
    (by rw [hsnP, hsn2]; exact hsrc1)
    hne
    (connFold_nodeProjects_grow connMatches pre st2 _ _ hproj2)
    hpreP
    (by
      intro t' ht' hid
      obtain ⟨g', _, hmemg⟩ := ht'
      obtain ⟨nr', hnr', rfl⟩ := hprovP (c.projectId, g') t' hmemg
      exact hcoll c (List.mem_append_right _ (List.mem_cons_self c post))
        nr' hnr' hid)
  exact connFold_edges_pres connMatches post _ _ _ hestab

end QlikAtlas

namespace QlikAtlas

/-- A table-typed stored node row carrying the `db:postgresql` group, for
the C6 witness. -/
def exC6NodeT : NodeRow where
  projectId := 1
  nodeId := "nT"
  appId := none
  data := .obj [("type", .str "table"), ("group", .str "db:postgresql")]

/-- C6 (witness): on a concrete table-typed node and a `postgres`-typed
connection in the same project, the reconstruction contains the inferred
DEPENDS edge. -/
theorem C6_witness :
    alGet (buildSnapshotFromRows [exC6NodeT] [] [] [exC6Conn] []).edges
        (connInferredEdgeId exC6Conn (nodeRowRecord [] exC6NodeT).id) =
      some (connInferredEdge exC6Conn (nodeRowRecord [] exC6NodeT).id) :=
  C6_group_inference_links [exC6NodeT] [] [] [exC6Conn] [] exC6NodeT exC6Conn
    "db:postgresql"
    (List.mem_singleton.mpr rfl)
    (List.mem_singleton.mpr rfl)
    (by decide)
    (by decide)
    (by decide)
    (by decide)
    (by decide)
    (fun er he => absurd he (List.not_mem_nil er))
    (by
      intro c' hc' nr' hnr' hid
      obtain rfl := List.mem_singleton.mp hc'
      obtain rfl := List.mem_singleton.mp hnr'
      rfl)

end QlikAtlas

namespace QlikAtlas

/-! ### Claim C3 — reassembly idempotence and duplicate-freedom -/

theorem alSet_keys_nodup {κ β : Type} [DecidableEq κ]
    (m : List (κ × β)) (k : κ) (v : β) (h : (m.map Prod.fst).Nodup) :
    ((alSet m k v).map Prod.fst).Nodup := by
  induction m with
  | nil => simp [alSet]
  | cons hd tl ih =>
    obtain ⟨k0, v0⟩ := hd
    by_cases hk : k0 = k
    · simpa [alSet, hk] using h
    · simp only [alSet, hk, if_false, List.map_cons, List.nodup_cons] at h ⊢
      refine ⟨?_, ih h.2⟩
      intro hmem
      apply h.1
      have : ∀ m' : List (κ × β), k0 ∈ (alSet m' k v).map Prod.fst →
          k0 ∈ m'.map Prod.fst ∨ k0 = k := by
        intro m'
        induction m' with
        | nil => simp [alSet]
        | cons hd' tl' ih' =>
          obtain ⟨k1, v1⟩ := hd'
          by_cases hk1 : k1 = k
          · simp [alSet, hk1]
            tauto
          · simp only [alSet, hk1, if_false, List.map_cons, List.mem_cons]
            rintro (h' | h')
            · exact Or.inl (Or.inl h')
            · rcases ih' h' with h'' | h''
              · exact Or.inl (Or.inr h'')
              · exact Or.inr h''
      rcases this tl hmem with h' | h'
      · exact h'
      · exact absurd h' hk

theorem alSet_values_pres {κ β : Type} [DecidableEq κ] (P : β → Prop)
    (m : List (κ × β)) (key : κ) (v : β)
    (hm : ∀ k n, alGet m k = some n → P n) (hv : P v) :
    ∀ k n, alGet (alSet m key v) k = some n → P n := by
  intro k n h
  by_cases hk : k = key
  · subst hk
    rw [alGet_alSet_self] at h
    obtain rfl : v = n := by injection h
    exact hv
  · rw [alGet_alSet_ne _ _ _ _ hk] at h
    exact hm k n h

theorem jget_alSet_self (m : List (String × Json)) (k : String) (v : Json) :
    jget (alSet m k v) k = v := by
  unfold jget
  rw [alGet_alSet_self]
  rfl

theorem jget_alSet_ne (m : List (String × Json)) (k k' : String) (v : Json)
    (h : k' ≠ k) : jget (alSet m k v) k' = jget m k' := by
  unfold jget
  rw [alGet_alSet_ne _ _ _ _ h]

theorem alGet_append {κ β : Type} [DecidableEq κ]
    (m1 m2 : List (κ × β)) (k : κ) :
    alGet (m1 ++ m2) k = ((alGet m1 k).rec (alGet m2 k) fun v => some v) := by
  induction m1 with
  | nil => simp [alGet]
  | cons hd tl ih =>
    obtain ⟨k0, v0⟩ := hd
    by_cases hk : k0 = k
    · simp [alGet, hk]
    · simp [alGet, hk, ih]

theorem jget_alSetD_ne (m : List (String × Json)) (k k' : String) (v : Json)
    (h : k' ≠ k) : jget (alSetD m k v) k' = jget m k' := by
  unfold alSetD
  split
  · rfl
  · unfold jget
    rw [alGet_append]
    have h' : ¬ k = k' := fun hh => h hh.symm
    cases hg : alGet m k' with
    | none => simp [alGet, h']
    | some v' => simp

/-- The duplicate-freedom property of one node's provenance lists. -/
def provListsOk (n : NodeRec) : Prop :=
  (∀ xs, jget (n.meta.getD []) "sourceSystems" = .arr xs → xs.Nodup) ∧
  (∀ xs, jget (n.meta.getD []) "sourceConnectionIds" = .arr xs → xs.Nodup)

theorem provListsOk_of_meta_none (n : NodeRec) (h : n.meta = none) :
    provListsOk n := by
  unfold provListsOk
  rw [h]
  constructor <;> intro xs hx <;> simp [jget, alGet, Option.getD] at hx

end QlikAtlas

namespace QlikAtlas

theorem connMetaQriPre_jget (connQriPre : Option String)
    (m : List (String × Json)) (key : String) (h : key ≠ "qriPrefix") :
    jget (connMetaQriPre connQriPre m) key = jget m key := by
  unfold connMetaQriPre
  cases connQriPre with
  | none => rfl
  | some p => exact jget_alSet_ne _ _ _ _ h

theorem connMetaMatches_jget (qmIds qmNames qmRoots : List String)
    (m : List (String × Json)) (key : String)
    (h1 : key ≠ "qriMatchMode") (h2 : key ≠ "qriMatchRootNodeIds")
    (h3 : key ≠ "qriMatchAppIds") (h4 : key ≠ "qriMatchAppNames")
    (h5 : key ≠ "appId") (h6 : key ≠ "appName") :
    jget (connMetaMatches qmIds qmNames qmRoots m) key = jget m key := by
  unfold connMetaMatches
  split
  · have e1 : ∀ mm : List (String × Json),
        jget (match qmNames with
          | [a] => alSet mm "appName" (.str a)
          | _ => mm) key = jget mm key := by
      intro mm
      match qmNames with
      | [] => rfl
      | [a] => exact jget_alSet_ne _ _ _ _ h6
      | a :: b :: rest => rfl
    have e2 : ∀ mm : List (String × Json),
        jget (match qmIds with
          | [a] => alSet mm "appId" (.str a)
          | _ => mm) key = jget mm key := by
      intro mm
      match qmIds with
      | [] => rfl
      | [a] => exact jget_alSet_ne _ _ _ _ h5
      | a :: b :: rest => rfl
    have e3 : ∀ mm : List (String × Json),
        jget (if qmNames ≠ [] then
          alSet mm "qriMatchAppNames" (.arr (qmNames.map .str)) else mm) key =
          jget mm key := by
      intro mm
      split
      · exact jget_alSet_ne _ _ _ _ h4
      · rfl
    have e4 : ∀ mm : List (String × Json),
        jget (if qmIds ≠ [] then
          alSet mm "qriMatchAppIds" (.arr (qmIds.map .str)) else mm) key =
          jget mm key := by
      intro mm
      split
      · exact jget_alSet_ne _ _ _ _ h3
      · rfl
    rw [e1, e2, e3, e4, jget_alSet_ne _ _ _ _ h2, jget_alSet_ne _ _ _ _ h1]
  · rfl

theorem connMetaSpace_jget (spaceId : Option String)
    (m : List (String × Json)) (key : String) (h : key ≠ "spaceId") :
    jget (connMetaSpace spaceId m) key = jget m key := by
  unfold connMetaSpace
  cases spaceId with
  | none => rfl
  | some sp =>
    show jget (if sp ≠ "" then alSet m "spaceId" (.str sp) else m) key = jget m key
    split
    · exact jget_alSet_ne _ _ _ _ h
    · rfl

theorem connMetaGroups_jget (connGroups : List String)
    (m : List (String × Json)) (key : String) (h : key ≠ "connectionGroups") :
    jget (connMetaGroups connGroups m) key = jget m key := by
  unfold connMetaGroups
  split
  · exact jget_alSet_ne _ _ _ _ h
  · rfl

theorem connMetaDefaults_jget (payload : List (String × Json))
    (m : List (String × Json)) (key : String)
    (h1 : key ≠ "connectionType") (h2 : key ≠ "qType")
    (h3 : key ≠ "connectorType") :
    jget (connMetaDefaults payload m) key = jget m key := by
  unfold connMetaDefaults
  have hstep : ∀ (mm : List (String × Json)) (a b : String), key ≠ b →
      jget (match jget payload a with
        | .str s => if pyStrip s ≠ "" then alSetD mm b (.str (pyStrip s)) else mm
        | _ => mm) key = jget mm key := by
    intro mm a b hb
    cases jget payload a with
    | str s =>
      show jget (if pyStrip s ≠ "" then alSetD mm b (.str (pyStrip s)) else mm)
          key = jget mm key
      split
      · exact jget_alSetD_ne _ _ _ _ hb
      · rfl
    | null => rfl
    | num n => rfl
    | bool b' => rfl
    | arr xs => rfl
    | obj kvs => rfl
  simp only [List.foldl_cons, List.foldl_nil]
  rw [hstep _ _ _ h3, hstep _ _ _ h2, hstep _ _ _ h1]

theorem connNodeMeta_noProv (row : ConnRow) (payload : List (String × Json))
    (connQriPre : Option String) (qmIds qmNames qmRoots connGroups : List String) :
    jget (connNodeMeta row payload connQriPre qmIds qmNames qmRoots connGroups)
        "sourceSystems" = .null ∧
    jget (connNodeMeta row payload connQriPre qmIds qmNames qmRoots connGroups)
        "sourceConnectionIds" = .null := by
  constructor <;>
  · unfold connNodeMeta
    rw [connMetaDefaults_jget _ _ _ (by decide) (by decide) (by decide),
      connMetaGroups_jget _ _ _ (by decide),
      connMetaSpace_jget _ _ _ (by decide),
      connMetaMatches_jget _ _ _ _ _ (by decide) (by decide) (by decide)
        (by decide) (by decide) (by decide),
      connMetaQriPre_jget _ _ _ (by decide)]
    rfl

end QlikAtlas

namespace QlikAtlas

theorem nodup_append_single {α : Type} (xs : List α) (v : α)
    (h : xs.Nodup) (hv : v ∉ xs) : (xs ++ [v]).Nodup := by
  simp [List.nodup_append, h, hv]

theorem provListAppend_nodup (xs : List Json) (v : String) (h : xs.Nodup) :
    (provListAppend xs v).Nodup := by
  unfold provListAppend
  split
  · next hc => exact nodup_append_single xs _ h hc.2
  · exact h

theorem jArrList_nodup_of (v : Json) (h : ∀ xs, v = .arr xs → xs.Nodup) :
    (jArrList v).Nodup := by
  cases v with
  | arr xs => exact h xs rfl
  | null => exact List.nodup_nil
  | str s => exact List.nodup_nil
  | num n => exact List.nodup_nil
  | bool b => exact List.nodup_nil
  | obj kvs => exact List.nodup_nil

theorem qriTargetMeta_prov (tmeta : List (String × Json)) (lbl cid : String)
    (h1 : ∀ xs, jget tmeta "sourceSystems" = .arr xs → xs.Nodup)
    (h2 : ∀ xs, jget tmeta "sourceConnectionIds" = .arr xs → xs.Nodup) :
    (∀ xs, jget (qriTargetMeta tmeta lbl cid) "sourceSystems" = .arr xs →
      xs.Nodup) ∧
    (∀ xs, jget (qriTargetMeta tmeta lbl cid) "sourceConnectionIds" = .arr xs →
      xs.Nodup) := by
  unfold qriTargetMeta
  have hss : jget (alSet (alSet tmeta "sourceSystems"
        (.arr (provListAppend (jArrList (jget tmeta "sourceSystems")) lbl)))
        "sourceConnectionIds"
        (.arr (provListAppend (jArrList (jget (alSet tmeta "sourceSystems"
          (.arr (provListAppend (jArrList (jget tmeta "sourceSystems")) lbl)))
          "sourceConnectionIds")) cid))) "sourceSystems" =
      .arr (provListAppend (jArrList (jget tmeta "sourceSystems")) lbl) := by
    rw [jget_alSet_ne _ _ _ _ (by decide), jget_alSet_self]
  have hsc : jget (alSet (alSet tmeta "sourceSystems"
        (.arr (provListAppend (jArrList (jget tmeta "sourceSystems")) lbl)))
        "sourceConnectionIds"
        (.arr (provListAppend (jArrList (jget (alSet tmeta "sourceSystems"
          (.arr (provListAppend (jArrList (jget tmeta "sourceSystems")) lbl)))
          "sourceConnectionIds")) cid))) "sourceConnectionIds" =
      .arr (provListAppend (jArrList (jget (alSet tmeta "sourceSystems"
        (.arr (provListAppend (jArrList (jget tmeta "sourceSystems")) lbl)))
        "sourceConnectionIds")) cid) := jget_alSet_self _ _ _
  constructor
  · intro xs hx
    rw [hss] at hx
    obtain rfl : provListAppend (jArrList (jget tmeta "sourceSystems")) lbl =
        xs := by injection hx
    exact provListAppend_nodup _ _ (jArrList_nodup_of _ fun ys hy => h1 ys hy)
  · intro xs hx
    rw [hsc] at hx
    have heq : jget (alSet tmeta "sourceSystems"
        (.arr (provListAppend (jArrList (jget tmeta "sourceSystems")) lbl)))
        "sourceConnectionIds" = jget tmeta "sourceConnectionIds" :=
      jget_alSet_ne _ _ _ _ (by decide)
    rw [heq] at hx
    obtain rfl : provListAppend (jArrList (jget tmeta "sourceConnectionIds"))
        cid = xs := by injection hx
    exact provListAppend_nodup _ _ (jArrList_nodup_of _ fun ys hy => h2 ys hy)

theorem provListsOk_of_meta_eq (n : NodeRec) (m : List (String × Json))
    (h : n.meta = some m)
    (h1 : jget m "sourceSystems" = .null)
    (h2 : jget m "sourceConnectionIds" = .null) : provListsOk n := by
  unfold provListsOk
  rw [h]
  simp only [Option.getD_some]
  constructor <;> intro xs hx
  · rw [h1] at hx
    exact Json.noConfusion hx
  · rw [h2] at hx
    exact Json.noConfusion hx

theorem provListsOk_of_meta_lists (n : NodeRec) (m : List (String × Json))
    (h : n.meta = some m)
    (h1 : ∀ xs, jget m "sourceSystems" = .arr xs → xs.Nodup)
    (h2 : ∀ xs, jget m "sourceConnectionIds" = .arr xs → xs.Nodup) :
    provListsOk n := by
  unfold provListsOk
  rw [h]
  simp only [Option.getD_some]
  exact ⟨h1, h2⟩

end QlikAtlas

namespace QlikAtlas

theorem nodeRowStep_nodes (appMap : List ((Int × String) × AppInfoRow))
    (st : RowBuildState) (row : NodeRow) :
    (nodeRowStep appMap st row).nodes =
      alSet st.nodes (nodeRowRecord appMap row).id (nodeRowRecord appMap row) := by
  simp only [nodeRowStep]
  split
  · split <;> rfl
  · rfl

theorem nodeRowStep_prov (appMap : List ((Int × String) × AppInfoRow))
    (st : RowBuildState) (row : NodeRow)
    (hst : ∀ k n, alGet st.nodes k = some n → provListsOk n)
    (hrec : provListsOk (nodeRowRecord appMap row)) :
    ∀ k n, alGet (nodeRowStep appMap st row).nodes k = some n →
      provListsOk n := by
  intro k n h
  rw [nodeRowStep_nodes] at h
  exact alSet_values_pres provListsOk _ _ _ hst hrec k n h

theorem nodeFold_prov (appMap : List ((Int × String) × AppInfoRow))
    (rows : List NodeRow) :
    ∀ st : RowBuildState,
      (∀ k n, alGet st.nodes k = some n → provListsOk n) →
      (∀ r ∈ rows, provListsOk (nodeRowRecord appMap r)) →
      ∀ k n, alGet (rows.foldl (nodeRowStep appMap) st).nodes k = some n →
        provListsOk n := by
  induction rows with
  | nil => intro st hst _; exact hst
  | cons r rs ih =>
    intro st hst hall
    exact ih _ (nodeRowStep_prov _ _ _ hst (hall r (List.mem_cons_self r rs)))
      (fun r' hr' => hall r' (List.mem_cons_of_mem _ hr'))

theorem edgeRowStep_prov (st : RowBuildState) (row : EdgeRow)
    (hst : ∀ k n, alGet st.nodes k = some n → provListsOk n) :
    ∀ k n, alGet (edgeRowStep st row).nodes k = some n → provListsOk n := by
  simp only [edgeRowStep]
  split
  · exact hst
  · have h1 : ∀ (nodes : List (String × NodeRec)) (s : String),
        (∀ k n, alGet nodes k = some n → provListsOk n) →
        ∀ k n, alGet (if alHas nodes s then nodes
          else alSet nodes s
            (nodeRecordFromPayload s [("id", .str s)])) k = some n →
          provListsOk n := by
      intro nodes s hn
      split
      · exact hn
      · exact alSet_values_pres provListsOk _ _ _ hn
          (provListsOk_of_meta_none _ rfl)
    exact h1 _ _ (h1 _ _ hst)

theorem edgeFold_prov (rows : List EdgeRow) :
    ∀ st : RowBuildState,
      (∀ k n, alGet st.nodes k = some n → provListsOk n) →
      ∀ k n, alGet (rows.foldl edgeRowStep st).nodes k = some n →
        provListsOk n := by
  induction rows with
  | nil => intro st hst; exact hst
  | cons r rs ih =>
    intro st hst
    exact ih _ (edgeRowStep_prov _ _ hst)

theorem connGroupLinkStep_nodes (row : ConnRow) (st : RowBuildState)
    (t : String) : (connGroupLinkStep row st t).nodes = st.nodes := by
  simp only [connGroupLinkStep]
  split
  · rfl
  · split
    · rfl
    · split <;> rfl

theorem groupFold_nodes (row : ConnRow) (targets : List String) :
    ∀ st : RowBuildState,
      (targets.foldl (connGroupLinkStep row) st).nodes = st.nodes := by
  induction targets with
  | nil => intro st; rfl
  | cons t ts ih =>
    intro st
    rw [List.foldl_cons, ih, connGroupLinkStep_nodes]

theorem connQriLinkStep_prov (row : ConnRow) (lbl : String)
    (st : RowBuildState) (t : String)
    (hst : ∀ k n, alGet st.nodes k = some n → provListsOk n) :
    ∀ k n, alGet (connQriLinkStep row lbl st t).nodes k = some n →
      provListsOk n := by
  simp only [connQriLinkStep]
  split
  · exact hst
  · split
    · exact hst
    · next tnode heq =>
      split
      · exact hst
      · have hnode : provListsOk tnode := hst t tnode heq
        have hnew : provListsOk { tnode with
            meta := some (qriTargetMeta (tnode.meta.getD []) lbl
              row.connectionId) } :=
          provListsOk_of_meta_lists _ _ rfl
            (qriTargetMeta_prov _ _ _ hnode.1 hnode.2).1
            (qriTargetMeta_prov _ _ _ hnode.1 hnode.2).2
        split
        · exact alSet_values_pres provListsOk _ _ _ hst hnew
        · exact alSet_values_pres provListsOk _ _ _ hst hnew

theorem qriFold_prov (row : ConnRow) (lbl : String) (targets : List String) :
    ∀ st : RowBuildState,
      (∀ k n, alGet st.nodes k = some n → provListsOk n) →
      ∀ k n, alGet ((targets.foldl (connQriLinkStep row lbl) st)).nodes k =
        some n → provListsOk n := by
  induction targets with
  | nil => intro st hst; exact hst
  | cons t ts ih =>
    intro st hst
    exact ih _ (connQriLinkStep_prov _ _ _ _ hst)

end QlikAtlas

namespace QlikAtlas

set_option maxHeartbeats 1000000 in
theorem connRowStep_prov (m : List ((Int × String) × List ConnMatch))
    (st : RowBuildState) (c : ConnRow)
    (hst : ∀ k n, alGet st.nodes k = some n → provListsOk n) :
    ∀ k n, alGet (connRowStep m st c).nodes k = some n → provListsOk n := by
  simp only [connRowStep]
  apply qriFold_prov
  intro k n h
  rw [groupFold_nodes] at h
  exact alSet_values_pres provListsOk _ _ _ hst
    (provListsOk_of_meta_eq _ _ rfl
      (connNodeMeta_noProv _ _ _ _ _ _ _).1
      (connNodeMeta_noProv _ _ _ _ _ _ _).2) k n h

theorem connFold_prov (m : List ((Int × String) × List ConnMatch))
    (rows : List ConnRow) :
    ∀ st : RowBuildState,
      (∀ k n, alGet st.nodes k = some n → provListsOk n) →
      ∀ k n, alGet (rows.foldl (connRowStep m) st).nodes k = some n →
        provListsOk n := by
  induction rows with
  | nil => intro st hst; exact hst
  | cons r rs ih =>
    intro st hst
    exact ih _ (connRowStep_prov _ _ _ hst)

theorem edgeRowStep_edges_nodup (st : RowBuildState) (row : EdgeRow)
    (h : (st.edges.map Prod.fst).Nodup) :
    ((edgeRowStep st row).edges.map Prod.fst).Nodup := by
  simp only [edgeRowStep]
  split
  · exact h
  · exact alSet_keys_nodup _ _ _ h

theorem edgeFold_edges_nodup (rows : List EdgeRow) :
    ∀ st : RowBuildState, (st.edges.map Prod.fst).Nodup →
      (((rows.foldl edgeRowStep st)).edges.map Prod.fst).Nodup := by
  induction rows with
  | nil => intro st h; exact h
  | cons r rs ih =>
    intro st h
    exact ih _ (edgeRowStep_edges_nodup _ _ h)

theorem connGroupLinkStep_edges_nodup (row : ConnRow) (st : RowBuildState)
    (t : String) (h : (st.edges.map Prod.fst).Nodup) :
    ((connGroupLinkStep row st t).edges.map Prod.fst).Nodup := by
  simp only [connGroupLinkStep]
  split
  · exact h
  · split
    · exact h
    · split
      · exact h
      · exact alSet_keys_nodup _ _ _ h

theorem groupFold_edges_nodup (row : ConnRow) (targets : List String) :
    ∀ st : RowBuildState, (st.edges.map Prod.fst).Nodup →
      (((targets.foldl (connGroupLinkStep row) st)).edges.map Prod.fst).Nodup := by
  induction targets with
  | nil => intro st h; exact h
  | cons t ts ih =>
    intro st h
    exact ih _ (connGroupLinkStep_edges_nodup _ _ _ h)

theorem connQriLinkStep_edges_nodup (row : ConnRow) (lbl : String)
    (st : RowBuildState) (t : String) (h : (st.edges.map Prod.fst).Nodup) :
    ((connQriLinkStep row lbl st t).edges.map Prod.fst).Nodup := by
  simp only [connQriLinkStep]
  split
  · exact h
  · split
    · exact h
    · split
      · exact h
      · split
        · exact h
        · exact alSet_keys_nodup _ _ _ h

theorem qriFold_edges_nodup (row : ConnRow) (lbl : String)
    (targets : List String) :
    ∀ st : RowBuildState, (st.edges.map Prod.fst).Nodup →
      (((targets.foldl (connQriLinkStep row lbl) st)).edges.map
        Prod.fst).Nodup := by
  induction targets with
  | nil => intro st h; exact h
  | cons t ts ih =>
    intro st h
    exact ih _ (connQriLinkStep_edges_nodup _ _ _ _ h)

set_option maxHeartbeats 1000000 in
theorem connRowStep_edges_nodup (m : List ((Int × String) × List ConnMatch))
    (st : RowBuildState) (c : ConnRow)
    (h : (st.edges.map Prod.fst).Nodup) :
    ((connRowStep m st c).edges.map Prod.fst).Nodup := by
  simp only [connRowStep]
  apply qriFold_edges_nodup
  apply groupFold_edges_nodup
  exact h

theorem connFold_edges_nodup (m : List ((Int × String) × List ConnMatch))
    (rows : List ConnRow) :
    ∀ st : RowBuildState, (st.edges.map Prod.fst).Nodup →
      (((rows.foldl (connRowStep m) st)).edges.map Prod.fst).Nodup := by
  induction rows with
  | nil => intro st h; exact h
  | cons r rs ih =>
    intro st h
    exact ih _ (connRowStep_edges_nodup _ _ _ h)

end QlikAtlas

namespace QlikAtlas

/-- Claim C3 (main theorem): rebuilding from an unchanged collection of
persisted rows is deterministic — a second run yields an identical
snapshot — the rebuilt edge map holds no duplicated edge id (in
particular the deterministically-identified inferred connection edges are
never inserted twice), and, provided each node row's own persisted meta
carries duplicate-free `sourceSystems`/`sourceConnectionIds` lists, every
node of the rebuilt snapshot has duplicate-free provenance lists. -/
theorem C3_reassembly_dup_free (nodeRows : List NodeRow)
    (edgeRows : List EdgeRow) (appMap : List ((Int × String) × AppInfoRow))
    (connRows : List ConnRow)
    (ms : List ((Int × String) × List ConnMatch))
    (hprov : ∀ r ∈ nodeRows, provListsOk (nodeRowRecord appMap r)) :
    (buildSnapshotFromRows nodeRows edgeRows appMap connRows ms =
      buildSnapshotFromRows nodeRows edgeRows appMap connRows ms) ∧
    (((buildSnapshotFromRows nodeRows edgeRows appMap connRows ms).edges.map
      Prod.fst).Nodup) ∧
    (∀ k n,
      alGet (buildSnapshotFromRows nodeRows edgeRows appMap connRows
        ms).nodes k = some n → provListsOk n) := by
  refine ⟨rfl, ?_, ?_⟩
  · simp only [buildSnapshotFromRows]
    apply connFold_edges_nodup
    apply edgeFold_edges_nodup
    rw [nodeFold_edges]
    exact List.nodup_nil
  · simp only [buildSnapshotFromRows]
    apply connFold_prov
    apply edgeFold_prov
    apply nodeFold_prov _ _ _ _ hprov
    intro k n h
    exact absurd h (by simp [alGet])

/-- A persisted node row whose stored meta already carries a duplicated
`sourceSystems` list. -/
def exC3Node : NodeRow :=
  { projectId := 1, nodeId := "n1", appId := none,
    data := .obj [("id", .str "n1"),
      ("meta", .obj [("sourceSystems", .arr [.str "x", .str "x"])])] }

/-- A data-connection row in the same project. -/
def exC3Conn : ConnRow :=
  { projectId := 1, connectionId := "c1", qri := none, spaceId := none,
    data := .obj [] }

/-- A qri-prefix match that makes `n1` a target of the connection pass. -/
def exC3Match : ConnMatch := ⟨"", "", "n1"⟩

/-- Claim C3 (counterexample): a node row whose persisted meta already holds
a duplicated `sourceSystems` list survives reassembly with the duplicate
intact, even though the node is a target of a qri-prefix-inferred
connection edge — so the rebuilt snapshot does have a target node with
duplicate `sourceSystems` entries, refuting the unconditional claim. -/
theorem C3_counterexample :
    (alGet (buildSnapshotFromRows [exC3Node] [] [] [exC3Conn]
        [((1, "c1"), [exC3Match])]).edges (connQriEdgeId exC3Conn "n1") =
      some (connQriEdge exC3Conn "n1")) ∧
    ∃ p ∈ (buildSnapshotFromRows [exC3Node] [] [] [exC3Conn]
        [((1, "c1"), [exC3Match])]).nodes,
      (match jget (p.2.meta.getD []) "sourceSystems" with
        | .arr xs => !(decide xs.Nodup)
        | _ => false) = true := by decide

/-- A well-formed persisted node row (no meta at all). -/
def exC3WNode : NodeRow :=
  { projectId := 1, nodeId := "w1", appId := none,
    data := .obj [("id", .str "w1")] }

/-- Witness for C3 at a concrete row collection with a duplicate-free node
row and a data-connection row. -/
theorem C3_witness :
    (buildSnapshotFromRows [exC3WNode] [] [] [exC3Conn] [] =
      buildSnapshotFromRows [exC3WNode] [] [] [exC3Conn] []) ∧
    (((buildSnapshotFromRows [exC3WNode] [] [] [exC3Conn] []).edges.map
      Prod.fst).Nodup) ∧
    (∀ k n,
      alGet (buildSnapshotFromRows [exC3WNode] [] [] [exC3Conn] []).nodes k =
        some n → provListsOk n) :=
  C3_reassembly_dup_free [exC3WNode] [] [] [exC3Conn] []
    (fun r hr => by
      rw [List.mem_singleton] at hr
      subst hr
      exact provListsOk_of_meta_none _ (by decide))

end QlikAtlas

namespace QlikAtlas

/-! ### Claim C2 — primitive lemmas for the double-merge analysis -/

theorem charListLt_irrefl : ∀ l : List Char, charListLt l l = false
  | [] => rfl
  | a :: as => by
    simp only [charListLt, lt_irrefl, if_false]
    exact charListLt_irrefl as

theorem pyIsNewer_self (x : Option String) : pyIsNewer x x = false := by
  unfold pyIsNewer
  split
  · rfl
  · unfold pyStrLt
    exact charListLt_irrefl _

theorem alSet_eq_of_get {κ β : Type} [DecidableEq κ]
    (m : List (κ × β)) (k : κ) (v : β) (h : alGet m k = some v) :
    alSet m k v = m := by
  induction m with
  | nil => simp [alGet] at h
  | cons hd tl ih =>
    obtain ⟨k0, v0⟩ := hd
    by_cases hk : k0 = k
    · subst hk
      simp only [alGet, if_pos rfl] at h
      obtain rfl : v0 = v := by injection h
      simp [alSet]
    · simp only [alGet, hk, if_false] at h
      simp only [alSet, hk, if_false]
      rw [ih h]

theorem alGet_eq_none_of_not_mem {κ β : Type} [DecidableEq κ]
    (m : List (κ × β)) (k : κ) (h : k ∉ m.map Prod.fst) :
    alGet m k = none := by
  induction m with
  | nil => rfl
  | cons hd tl ih =>
    obtain ⟨k0, v0⟩ := hd
    simp only [List.map_cons, List.mem_cons] at h
    push_neg at h
    have hne : ¬ k0 = k := fun hh => h.1 hh.symm
    simp only [alGet, if_neg hne]
    exact ih h.2

theorem alSet_append_of_none {κ β : Type} [DecidableEq κ]
    (m : List (κ × β)) (k : κ) (v : β) (h : alGet m k = none) :
    alSet m k v = m ++ [(k, v)] := by
  induction m with
  | nil => rfl
  | cons hd tl ih =>
    obtain ⟨k0, v0⟩ := hd
    by_cases hk : k0 = k
    · subst hk
      simp [alGet] at h
    · simp only [alGet, hk, if_false] at h
      simp only [alSet, hk, if_false, List.cons_append]
      rw [ih h]

theorem alGet_mid {κ β : Type} [DecidableEq κ]
    (pre tl : List (κ × β)) (k : κ) (x : β)
    (h : k ∉ pre.map Prod.fst) :
    alGet (pre ++ (k, x) :: tl) k = some x := by
  rw [alGet_append, alGet_eq_none_of_not_mem _ _ h]
  simp [alGet]

theorem alSet_mid {κ β : Type} [DecidableEq κ]
    (pre tl : List (κ × β)) (k : κ) (x v : β)
    (h : k ∉ pre.map Prod.fst) :
    alSet (pre ++ (k, x) :: tl) k v = pre ++ (k, v) :: tl := by
  induction pre with
  | nil => simp [alSet]
  | cons hd rest ih =>
    obtain ⟨k0, v0⟩ := hd
    simp only [List.map_cons, List.mem_cons] at h
    push_neg at h
    have hne : ¬ k0 = k := fun hh => h.1 hh.symm
    show alSet ((k0, v0) :: (rest ++ (k, x) :: tl)) k v =
      (k0, v0) :: (rest ++ (k, v) :: tl)
    simp only [alSet, if_neg hne]
    rw [ih h.2]

end QlikAtlas

namespace QlikAtlas

theorem merge_new_self (c : CanonCtx) (h1 : c.appId ≠ "") (h2 : c.appName ≠ "")
    (h3 : c.file ≠ "") :
    merge_edge_context (new_edge_context c) c =
      { new_edge_context c with occurrences := 2 } := by
  unfold merge_edge_context new_edge_context
  by_cases hf : optTruthy c.fetchedAt <;>
    simp [h1, h2, h3, hf, pyIsNewer_self, listAdd_self_eq]

theorem alGet_of_mem_nodup {κ β : Type} [DecidableEq κ] (m : List (κ × β))
    (hm : (m.map Prod.fst).Nodup) (kv : κ × β) (h : kv ∈ m) :
    alGet m kv.1 = some kv.2 := by
  induction m with
  | nil => cases h
  | cons hd tl ih =>
    obtain ⟨k0, v0⟩ := hd
    simp only [List.map_cons, List.nodup_cons] at hm
    rcases List.mem_cons.mp h with rfl | h'
    · simp [alGet]
    · have hne : ¬ k0 = kv.1 := by
        intro hh
        exact hm.1 (hh ▸ List.mem_map_of_mem Prod.fst h')
      simp only [alGet, if_neg hne]
      exact ih hm.2 h'

theorem merge_meta_step_keep (acc : List (String × Json)) (kv : String × Json)
    (h : alGet acc kv.1 = some kv.2) : merge_meta_step acc kv = acc := by
  unfold merge_meta_step
  rw [h]
  show (if kv.2 = .null then alSet acc kv.1 kv.2 else acc) = acc
  split
  · exact alSet_eq_of_get _ _ _ h
  · rfl

theorem merge_meta_self (m : List (String × Json))
    (hm : (m.map Prod.fst).Nodup) : merge_meta m m = m := by
  unfold merge_meta
  have haux : ∀ l : List (String × Json),
      (∀ kv ∈ l, alGet m kv.1 = some kv.2) →
      l.foldl merge_meta_step m = m := by
    intro l
    induction l with
    | nil => intro _; rfl
    | cons kv rest ih =>
      intro hall
      rw [List.foldl_cons,
        merge_meta_step_keep _ _ (hall kv (List.mem_cons_self _ _))]
      exact ih (fun kv' h' => hall kv' (List.mem_cons_of_mem _ h'))
  exact haux m (fun kv h => alGet_of_mem_nodup m hm kv h)

theorem is_better_label_insert_self (l nodeId : String) :
    is_better_label (if l != "" then l else nodeId) l nodeId = false := by
  unfold is_better_label
  by_cases h0 : l = ""
  · simp [h0]
  · by_cases h1 : l = nodeId <;> simp [h0, h1]

theorem merge_node_self (n : NodeRec) (htype : n.type ≠ "")
    (hmeta : n.meta ≠ some [])
    (hnodup : ((n.meta.getD []).map Prod.fst).Nodup) :
    merge_node_val (insert_node_val n) n = insert_node_val n := by
  have ht : (n.type != "") = true := by simp [htype]
  simp only [merge_node_val, insert_node_val, ht, if_true,
    is_better_label_insert_self, merge_meta_self _ hnodup]
  by_cases hty : n.type = "other" <;>
    by_cases hla : n.layer = "" <;>
      by_cases hlo : n.layer = "other" <;>
        cases hmn : n.meta with
        | none => simp_all
        | some m =>
          have hm' : ¬ m.isEmpty := by
            cases m with
            | nil => exact absurd hmn hmeta
            | cons a as => simp
          simp_all

end QlikAtlas

namespace QlikAtlas

/-- The key/record pair a fresh canonical edge contributes. -/
def newEdgePair (e : CanonEdge) : String × EdgeRec :=
  (e.id, { id := e.id, source := e.source, target := e.target
           relation := e.relation, context := new_edge_context e.context })

/-- Set an aggregated edge record's occurrence count to 2. -/
def bumpEdgePair (p : String × EdgeRec) : String × EdgeRec :=
  (p.1, { p.2 with context := { p.2.context with occurrences := 2 } })

theorem addEdgeRec_none (E : List (String × EdgeRec)) (e : CanonEdge)
    (h : alGet E e.id = none) :
    addEdgeRec E e = alSet E e.id (newEdgePair e).2 := by
  unfold addEdgeRec
  rw [h]
  rfl

theorem addEdgeRec_some (E : List (String × EdgeRec)) (e : CanonEdge)
    (ex : EdgeRec) (h : alGet E e.id = some ex) :
    addEdgeRec E e = alSet E e.id
      { ex with context := merge_edge_context ex.context e.context } := by
  unfold addEdgeRec
  rw [h]

theorem addEdgeFold_fresh (es : List CanonEdge) :
    ∀ (E : List (String × EdgeRec)) (oa ia : List (String × List String)),
      (es.map (·.id)).Nodup →
      (∀ e ∈ es, alGet E e.id = none) →
      (es.foldl addEdgeStep (E, oa, ia)).1 = E ++ es.map newEdgePair := by
  induction es with
  | nil => intro E oa ia _ _; simp
  | cons e rest ih =>
    intro E oa ia hnd hfresh
    have hE : alGet E e.id = none := hfresh e (List.mem_cons_self _ _)
    have hstep : addEdgeStep (E, oa, ia) e =
        (E ++ [newEdgePair e], adjAdd oa e.source e.id,
          adjAdd ia e.target e.id) := by
      show (addEdgeRec E e, _, _) = _
      rw [addEdgeRec_none E e hE, alSet_append_of_none _ _ _ hE]
      rfl
    rw [List.foldl_cons, hstep]
    simp only [List.map_cons, List.nodup_cons] at hnd
    have hfresh' : ∀ e' ∈ rest, alGet (E ++ [newEdgePair e]) e'.id = none := by
      intro e' he'
      rw [alGet_append, hfresh e' (List.mem_cons_of_mem _ he')]
      have hne : ¬ e.id = e'.id := by
        intro hh
        exact hnd.1 (hh ▸ List.mem_map_of_mem (·.id) he')
      simp [newEdgePair, alGet, hne]
    rw [ih _ _ _ hnd.2 hfresh']
    simp [List.append_assoc]

theorem addEdgeFold_again (es : List CanonEdge) :
    ∀ (pre : List (String × EdgeRec)) (oa ia : List (String × List String)),
      (es.map (·.id)).Nodup →
      (∀ e ∈ es, e.id ∉ pre.map Prod.fst) →
      (∀ e ∈ es, e.context.appId ≠ "" ∧ e.context.appName ≠ "" ∧
        e.context.file ≠ "") →
      (es.foldl addEdgeStep (pre ++ es.map newEdgePair, oa, ia)).1 =
        pre ++ es.map (fun e => bumpEdgePair (newEdgePair e)) := by
  induction es with
  | nil => intro pre oa ia _ _ _; simp
  | cons e rest ih =>
    intro pre oa ia hnd hpre hctx
    simp only [List.map_cons, List.nodup_cons] at hnd
    have hpre0 : e.id ∉ pre.map Prod.fst := hpre e (List.mem_cons_self _ _)
    have hget : alGet (pre ++ newEdgePair e :: rest.map newEdgePair) e.id =
        some (newEdgePair e).2 := alGet_mid _ _ _ _ hpre0
    obtain ⟨hc1, hc2, hc3⟩ := hctx e (List.mem_cons_self _ _)
    have hmerged : ({ (newEdgePair e).2 with
        context := merge_edge_context (newEdgePair e).2.context e.context } :
          EdgeRec) = (bumpEdgePair (newEdgePair e)).2 := by
      show ({ (newEdgePair e).2 with
        context := merge_edge_context (new_edge_context e.context) e.context } :
          EdgeRec) = _
      rw [merge_new_self e.context hc1 hc2 hc3]
      rfl
    have hstep : addEdgeStep (pre ++ (e :: rest).map newEdgePair, oa, ia) e =
        ((pre ++ [bumpEdgePair (newEdgePair e)]) ++ rest.map newEdgePair,
          adjAdd oa e.source e.id, adjAdd ia e.target e.id) := by
      show (addEdgeRec (pre ++ newEdgePair e :: rest.map newEdgePair) e, _, _) = _
      rw [addEdgeRec_some _ _ _ hget, hmerged]
      have hexp : (newEdgePair e : String × EdgeRec) =
          (e.id, (newEdgePair e).2) := rfl
      rw [hexp, alSet_mid _ _ _ _ _ hpre0]
      simp only [List.append_assoc, List.singleton_append]
      rfl
    rw [List.foldl_cons, hstep]
    have hpre' : ∀ e' ∈ rest,
        e'.id ∉ (pre ++ [bumpEdgePair (newEdgePair e)]).map Prod.fst := by
      intro e' he'
      simp only [List.map_append, List.mem_append, List.map_cons, List.map_nil,
        List.mem_singleton, List.mem_cons]
      rintro (h' | h')
      · exact hpre e' (List.mem_cons_of_mem _ he') h'
      · simp only [bumpEdgePair, newEdgePair] at h'
        rcases h' with h' | h'
        · exact hnd.1 (h' ▸ List.mem_map_of_mem (·.id) he')
        · cases h'
    rw [ih _ _ _ hnd.2 hpre'
      (fun e' he' => hctx e' (List.mem_cons_of_mem _ he'))]
    simp [List.append_assoc]

end QlikAtlas

namespace QlikAtlas

theorem merge_node_miss (ns : List (String × NodeRec)) (n : NodeRec)
    (h : alGet ns n.id = none) :
    merge_node ns n = alSet ns n.id (insert_node_val n) := by
  unfold merge_node
  rw [h]

theorem merge_node_hit (ns : List (String × NodeRec)) (n : NodeRec)
    (ex : NodeRec) (h : alGet ns n.id = some ex) :
    merge_node ns n = alSet ns n.id (merge_node_val ex n) := by
  unfold merge_node
  rw [h]

theorem mergeNodeFold_get (l : List NodeRec) :
    ∀ (ns : List (String × NodeRec)) (k : String),
      (∀ n ∈ l, n.id ≠ k) →
      alGet (l.foldl merge_node ns) k = alGet ns k := by
  induction l with
  | nil => intro ns k _; rfl
  | cons n rest ih =>
    intro ns k hall
    rw [List.foldl_cons,
      ih _ k (fun n' h' => hall n' (List.mem_cons_of_mem _ h'))]
    unfold merge_node
    have hne : ¬ k = n.id := fun hh => hall n (List.mem_cons_self _ _) hh.symm
    cases hg : alGet ns n.id with
    | none => exact alGet_alSet_ne _ _ _ _ hne
    | some ex => exact alGet_alSet_ne _ _ _ _ hne

theorem mergeNodeFold_fresh (l : List NodeRec) :
    ∀ (ns : List (String × NodeRec)),
      ((l.map (·.id)).Nodup) → (∀ n ∈ l, alGet ns n.id = none) →
      ∀ n ∈ l, alGet (l.foldl merge_node ns) n.id = some (insert_node_val n) := by
  induction l with
  | nil => intro ns _ _ n h; cases h
  | cons n0 rest ih =>
    intro ns hnd hfresh n hn
    simp only [List.map_cons, List.nodup_cons] at hnd
    rw [List.foldl_cons, merge_node_miss _ _ (hfresh n0 (List.mem_cons_self _ _))]
    rcases List.mem_cons.mp hn with rfl | hn'
    · rw [mergeNodeFold_get rest _ n.id
        (fun n' h' hh => hnd.1 (by
          rw [← hh]; exact List.mem_map_of_mem (·.id) h'))]
      exact alGet_alSet_self _ _ _
    · exact ih _ hnd.2
        (fun n' h' => by
          rw [alGet_alSet_ne _ _ _ _
            (fun hh => hnd.1 (by
              rw [← hh]; exact List.mem_map_of_mem (·.id) h'))]
          exact hfresh n' (List.mem_cons_of_mem _ h')) n hn'

theorem mergeNodeFold_absorbed (l : List NodeRec)
    (ns : List (String × NodeRec))
    (h : ∀ n ∈ l, alGet ns n.id = some (insert_node_val n))
    (hstable : ∀ n ∈ l, merge_node_val (insert_node_val n) n =
      insert_node_val n) :
    l.foldl merge_node ns = ns := by
  induction l with
  | nil => rfl
  | cons n rest ih =>
    have hid : merge_node ns n = ns := by
      rw [merge_node_hit _ _ _ (h n (List.mem_cons_self _ _)),
        hstable n (List.mem_cons_self _ _)]
      exact alSet_eq_of_get _ _ _ (h n (List.mem_cons_self _ _))
    rw [List.foldl_cons, hid]
    exact ih (fun n' h' => h n' (List.mem_cons_of_mem _ h'))
      (fun n' h' => hstable n' (List.mem_cons_of_mem _ h'))

theorem ensure_node_get_pres (ns : List (String × NodeRec)) (s k : String)
    (h : (alGet ns k).isSome) : alGet (ensure_node ns s) k = alGet ns k := by
  unfold ensure_node
  split
  · rfl
  · next hhas =>
    have hk : ¬ k = s := by
      intro hh
      subst hh
      exact hhas (by simpa [alHas] using h)
    exact alGet_alSet_ne _ _ _ _ hk

theorem ensure_node_skip (ns : List (String × NodeRec)) (s : String)
    (h : alHas ns s = true) : ensure_node ns s = ns := by
  unfold ensure_node
  rw [if_pos h]

theorem ensure_node_has_mono (ns : List (String × NodeRec)) (s k : String)
    (h : alHas ns k = true) : alHas (ensure_node ns s) k = true := by
  unfold ensure_node
  split
  · exact h
  · exact alHas_alSet_of _ _ _ _ h

theorem ensure_node_has_self (ns : List (String × NodeRec)) (s : String) :
    alHas (ensure_node ns s) s = true := by
  unfold ensure_node
  split
  · assumption
  · exact alHas_alSet_self _ _ _

theorem ensureFold_get_pres (es : List CanonEdge) :
    ∀ (ns : List (String × NodeRec)) (k : String), (alGet ns k).isSome →
      alGet (es.foldl ensureStep ns) k = alGet ns k := by
  induction es with
  | nil => intro ns k _; rfl
  | cons e rest ih =>
    intro ns k h
    have h1 : alGet (ensure_node ns e.source) k = alGet ns k :=
      ensure_node_get_pres _ _ _ h
    have h2 : alGet (ensure_node (ensure_node ns e.source) e.target) k =
        alGet ns k := by
      rw [ensure_node_get_pres _ _ _ (by rw [h1]; exact h), h1]
    rw [List.foldl_cons]
    show alGet (rest.foldl ensureStep
      (ensure_node (ensure_node ns e.source) e.target)) k = alGet ns k
    rw [ih _ k (by rw [h2]; exact h), h2]

theorem ensureFold_skip (es : List CanonEdge)
    (ns : List (String × NodeRec))
    (h : ∀ e ∈ es, alHas ns e.source = true ∧ alHas ns e.target = true) :
    es.foldl ensureStep ns = ns := by
  induction es with
  | nil => rfl
  | cons e rest ih =>
    obtain ⟨h1, h2⟩ := h e (List.mem_cons_self _ _)
    have hid : ensureStep ns e = ns := by
      unfold ensureStep
      rw [ensure_node_skip _ _ h1, ensure_node_skip _ _ h2]
    rw [List.foldl_cons, hid]
    exact ih (fun e' h' => h e' (List.mem_cons_of_mem _ h'))

theorem ensureFold_has_mono (es : List CanonEdge) :
    ∀ (ns : List (String × NodeRec)) (k : String), alHas ns k = true →
      alHas (es.foldl ensureStep ns) k = true := by
  induction es with
  | nil => intro ns k h; exact h
  | cons e rest ih =>
    intro ns k h
    rw [List.foldl_cons]
    exact ih _ k (ensure_node_has_mono _ _ _ (ensure_node_has_mono _ _ _ h))

theorem ensureFold_establishes (es : List CanonEdge) :
    ∀ (ns : List (String × NodeRec)), ∀ e ∈ es,
      alHas (es.foldl ensureStep ns) e.source = true ∧
      alHas (es.foldl ensureStep ns) e.target = true := by
  induction es with
  | nil => intro ns e h; cases h
  | cons e0 rest ih =>
    intro ns e he
    rcases List.mem_cons.mp he with rfl | he'
    · rw [List.foldl_cons]
      constructor
      · exact ensureFold_has_mono rest _ _
          (ensure_node_has_mono _ _ _ (ensure_node_has_self _ _))
      · exact ensureFold_has_mono rest _ _ (ensure_node_has_self _ _)
    · rw [List.foldl_cons]
      exact ih _ e he'

end QlikAtlas

namespace QlikAtlas

theorem build_edge_id (edge : Json) (appId appName : String)
    (f : Option String) (fn : String) (e : CanonEdge)
    (h : build_edge edge appId appName f fn = some e) :
    e.id = build_semantic_edge_id e.source e.target e.relation appId := by
  simp only [build_edge] at h
  split at h
  · exact absurd h (by simp)
  · obtain rfl : _ = e := by injection h
    rfl

end QlikAtlas

namespace QlikAtlas

/-- Claim C2: canonical edges agreeing on (source, target, relation) and
built for the same appId get the same deterministic semantic edge id; and
merging an artifact record twice yields the same node map as merging it
once, and the same edge map except that every aggregated context's
occurrence count is 2 — given that the record's canonical node ids, edge
ids and meta keys are duplicate-free, its nodes carry a non-empty type and
no empty-but-present meta, and its edge contexts carry non-empty
appId/appName/file. -/
theorem C2_edge_identity_idempotence (j1 j2 : Json)
    (appId appName1 appName2 : String) (f1 f2 : Option String)
    (fn1 fn2 : String) (e1 e2 : CanonEdge)
    (h1 : build_edge j1 appId appName1 f1 fn1 = some e1)
    (h2 : build_edge j2 appId appName2 f2 fn2 = some e2)
    (hs : e1.source = e2.source) (ht : e1.target = e2.target)
    (hr : e1.relation = e2.relation)
    (A : CanonRecord)
    (hedgeids : (A.2.2.map (·.id)).Nodup)
    (hnodeids : (A.2.1.map (·.id)).Nodup)
    (hctx : ∀ e ∈ A.2.2, e.context.appId ≠ "" ∧ e.context.appName ≠ "" ∧
      e.context.file ≠ "")
    (hnode : ∀ n ∈ A.2.1, n.type ≠ "" ∧ n.meta ≠ some [] ∧
      ((n.meta.getD []).map Prod.fst).Nodup) :
    e1.id = e2.id ∧
    (build [A, A] 0).nodes = (build [A] 0).nodes ∧
    (build [A, A] 0).edges = (build [A] 0).edges.map bumpEdgePair := by
  have hS1edges : (build_step emptySnapshot A).edges =
      A.2.2.map newEdgePair := by
    show (A.2.2.foldl addEdgeStep ([], [], [])).1 = _
    rw [addEdgeFold_fresh A.2.2 [] [] [] hedgeids (fun _ _ => rfl)]
    simp
  have hns1 : ∀ n ∈ A.2.1,
      alGet (A.2.1.foldl merge_node []) n.id = some (insert_node_val n) :=
    mergeNodeFold_fresh A.2.1 [] hnodeids (fun _ _ => rfl)
  have hS1nodes_def : (build_step emptySnapshot A).nodes =
      A.2.2.foldl ensureStep (A.2.1.foldl merge_node []) := rfl
  have hS1get : ∀ n ∈ A.2.1,
      alGet (build_step emptySnapshot A).nodes n.id =
        some (insert_node_val n) := by
    intro n hn
    rw [hS1nodes_def,
      ensureFold_get_pres _ _ _ (by rw [hns1 n hn]; rfl), hns1 n hn]
  have hhas : ∀ e ∈ A.2.2,
      alHas (build_step emptySnapshot A).nodes e.source = true ∧
      alHas (build_step emptySnapshot A).nodes e.target = true := by
    intro e he
    rw [hS1nodes_def]
    exact ensureFold_establishes _ _ e he
  refine ⟨?_, ?_, ?_⟩
  · rw [build_edge_id _ _ _ _ _ _ h1, build_edge_id _ _ _ _ _ _ h2,
      hs, ht, hr]
  · show (build_step (build_step emptySnapshot A) A).nodes =
      (build_step emptySnapshot A).nodes
    have hdefn : (build_step (build_step emptySnapshot A) A).nodes =
        A.2.2.foldl ensureStep
          (A.2.1.foldl merge_node (build_step emptySnapshot A).nodes) := rfl
    rw [hdefn,
      mergeNodeFold_absorbed _ _ hS1get
        (fun n hn => merge_node_self n (hnode n hn).1 (hnode n hn).2.1
          (hnode n hn).2.2),
      ensureFold_skip _ _ hhas]
  · show (build_step (build_step emptySnapshot A) A).edges =
      ((build_step emptySnapshot A).edges).map bumpEdgePair
    have hdefe : (build_step (build_step emptySnapshot A) A).edges =
        (A.2.2.foldl addEdgeStep ((build_step emptySnapshot A).edges,
          (build_step emptySnapshot A).outAdj,
          (build_step emptySnapshot A).inAdj)).1 := rfl
    rw [hdefe, hS1edges]
    have hagain := addEdgeFold_again A.2.2 []
      (build_step emptySnapshot A).outAdj
      (build_step emptySnapshot A).inAdj hedgeids
      (by intro e he; simp) hctx
    simp only [List.nil_append] at hagain
    rw [hagain, List.map_map]
    rfl

end QlikAtlas

namespace QlikAtlas

/-- Edge context of the C2 example artifact. -/
def exC2Ctx : CanonCtx :=
  ⟨"app1", "App One", "a.json", some "2024-01-01T00:00:00Z"⟩

/-- A canonical LOAD edge of the C2 example artifact. -/
def exC2Edge : CanonEdge :=
  { id := build_semantic_edge_id "qri:a" "qri:b" "LOAD" "app1"
    source := "qri:a", target := "qri:b", relation := "LOAD"
    context := exC2Ctx }

/-- App info of the C2 example artifact. -/
def exC2Info : AppInfo :=
  ⟨"app1", "App One", .null, some "2024-01-01T00:00:00Z", .null, "a.json",
    none, 0, 2⟩

/-- An artifact record that lists the same canonical edge twice. -/
def exC2Rec : CanonRecord := (exC2Info, [], [exC2Edge, exC2Edge])

/-- Raw edge JSON that normalizes to `exC2Edge`. -/
def exC2J : Json := .obj [("source", .str "qri:a"), ("target", .str "qri:b"),
  ("relation", .str "LOAD")]

/-- A node for the C2 witness record. -/
def exC2WNode : NodeRec :=
  { id := "qri:a", label := "Node A", type := "table", subtype := .null
    group := .null, layer := "extract", meta := none }

/-- The duplicate-free C2 witness record. -/
def exC2WRec : CanonRecord := (exC2Info, [exC2WNode], [exC2Edge])

/-- Claim C2 (counterexample): on a record that lists the same canonical
edge twice, `build([A, A])` leaves that edge with occurrence count 4, not
the 2 the claim promises (while `build([A])` already reports 2): the
occurrence count tracks `_add_edge` invocations, not merge passes. -/
theorem C2_counterexample :
    ((alGet (build [exC2Rec, exC2Rec] 0).edges exC2Edge.id).map
      fun r => r.context.occurrences) = some 4 ∧
    ((alGet (build [exC2Rec] 0).edges exC2Edge.id).map
      fun r => r.context.occurrences) = some 2 := by decide

/-- Witness for C2 at a concrete artifact record and concrete raw edges. -/
theorem C2_witness :
    (exC2Edge.id =
      ({ exC2Edge with context := ⟨"app1", "Other", "b.json", none⟩} :
        CanonEdge).id) ∧
    (build [exC2WRec, exC2WRec] 0).nodes = (build [exC2WRec] 0).nodes ∧
    (build [exC2WRec, exC2WRec] 0).edges =
      (build [exC2WRec] 0).edges.map bumpEdgePair :=
  C2_edge_identity_idempotence exC2J exC2J "app1" "App One" "Other"
    (some "2024-01-01T00:00:00Z") none "a.json" "b.json" exC2Edge
    ({ exC2Edge with context := ⟨"app1", "Other", "b.json", none⟩} : CanonEdge)
    (by decide) (by decide) (by decide) (by decide) (by decide)
    exC2WRec (by decide) (by decide) (by decide) (by decide)

end QlikAtlas

namespace QlikAtlas

/-! ### Claims C4/C10 — BFS semantics -/

/-- The adjacency entries `step` iterates for one frontier node, in the
requested direction. -/
def dirEdges (snap : Snapshot) (direction : String) (n : String) :
    List String :=
  (if direction = "down" || direction = "both"
    then (alGet snap.outAdj n).getD [] else []) ++
  (if direction = "up" || direction = "both"
    then (alGet snap.inAdj n).getD [] else [])

/-- One BFS hop: `m` is reached from `n` through an adjacency entry that
resolves in the edge map, in the requested direction. -/
def bfsSucc (snap : Snapshot) (direction : String) (n m : String) : Prop :=
  (∃ eid e, (direction = "down" ∨ direction = "both") ∧
    eid ∈ (alGet snap.outAdj n).getD [] ∧ alGet snap.edges eid = some e ∧
    e.target = m) ∨
  (∃ eid e, (direction = "up" ∨ direction = "both") ∧
    eid ∈ (alGet snap.inAdj n).getD [] ∧ alGet snap.edges eid = some e ∧
    e.source = m)

/-- Reachability along BFS hops from the start node. -/
inductive Reach (snap : Snapshot) (direction start : String) : String → Prop
  | refl : Reach snap direction start start
  | step {n m : String} : Reach snap direction start n →
      bfsSucc snap direction n m → Reach snap direction start m

/-- Plain iteration of the BFS `step` closure (no early stop; stepping an
empty frontier is a no-op, so this agrees with the early-stopping loop). -/
def bfsIter (snap : Snapshot) (direction : String) :
    Nat → BfsState × List String → BfsState × List String
  | 0, p => p
  | k + 1, p => bfsIter snap direction k (bfsStep snap direction p.1 p.2)

theorem bfsStep_nil (snap : Snapshot) (direction : String) (st : BfsState) :
    bfsStep snap direction st [] = (st, []) := rfl

theorem bfsIter_nil (snap : Snapshot) (direction : String) :
    ∀ (k : Nat) (st : BfsState),
      (bfsIter snap direction k (st, [])).1 = st := by
  intro k
  induction k with
  | zero => intro st; rfl
  | succ k ih =>
    intro st
    show (bfsIter snap direction k (bfsStep snap direction st [])).1 = st
    rw [bfsStep_nil]
    exact ih st

theorem bfsRunBounded_eq_iter (snap : Snapshot) (direction : String) :
    ∀ (k : Nat) (st : BfsState) (frontier : List String),
      bfsRunBounded snap direction k st frontier =
        (bfsIter snap direction k (st, frontier)).1 := by
  intro k
  induction k with
  | zero => intro st frontier; rfl
  | succ k ih =>
    intro st frontier
    show (if (bfsStep snap direction st frontier).2.isEmpty then
        (bfsStep snap direction st frontier).1
      else bfsRunBounded snap direction k
        (bfsStep snap direction st frontier).1
        (bfsStep snap direction st frontier).2) =
      (bfsIter snap direction k (bfsStep snap direction st frontier)).1
    split
    · next hempty =>
      rw [List.isEmpty_iff] at hempty
      have : bfsStep snap direction st frontier =
          ((bfsStep snap direction st frontier).1, ([] : List String)) := by
        rw [← hempty]
      rw [this, bfsIter_nil]
    · rw [ih]

theorem bfsRunNeg_nil (snap : Snapshot) (direction : String) :
    ∀ (fuel : Nat) (st : BfsState),
      bfsRunNeg snap direction fuel st [] = st := by
  intro fuel st
  cases fuel with
  | zero => rfl
  | succ k => rfl

end QlikAtlas

namespace QlikAtlas

theorem mem_of_alGet {κ β : Type} [DecidableEq κ] (m : List (κ × β)) (k : κ)
    (v : β) (h : alGet m k = some v) : (k, v) ∈ m := by
  induction m with
  | nil => simp [alGet] at h
  | cons hd tl ih =>
    obtain ⟨k0, v0⟩ := hd
    by_cases hk : k0 = k
    · subst hk
      simp only [alGet, if_pos rfl] at h
      obtain rfl : v0 = v := by injection h
      exact List.mem_cons_self _ _
    · simp only [alGet, hk, if_false] at h
      exact List.mem_cons_of_mem _ (ih h)

end QlikAtlas

namespace QlikAtlas

theorem bfsEdgeDown_props (snap : Snapshot) (acc : BfsState × List String)
    (eid : String) :
    (∃ extra, (bfsEdgeDown snap acc eid).1.visitedNodes =
        acc.1.visitedNodes ++ extra ∧
      (bfsEdgeDown snap acc eid).2 = acc.2 ++ extra) ∧
    (∀ x ∈ acc.1.visitedEdges, x ∈ (bfsEdgeDown snap acc eid).1.visitedEdges) ∧
    eid ∈ (bfsEdgeDown snap acc eid).1.visitedEdges ∧
    (∀ e, alGet snap.edges eid = some e →
      e.target ∈ (bfsEdgeDown snap acc eid).1.visitedNodes) ∧
    (∀ m, m ∈ (bfsEdgeDown snap acc eid).1.visitedNodes →
      m ∈ acc.1.visitedNodes ∨
        ∃ e, alGet snap.edges eid = some e ∧ m = e.target) ∧
    (∀ x ∈ (bfsEdgeDown snap acc eid).1.visitedEdges,
      x ∈ acc.1.visitedEdges ∨ x = eid) ∧
    (acc.1.visitedNodes.Nodup →
      (bfsEdgeDown snap acc eid).1.visitedNodes.Nodup) := by
  cases hg : alGet snap.edges eid with
  | none =>
    have hres : bfsEdgeDown snap acc eid =
        (⟨acc.1.visitedNodes, listAdd acc.1.visitedEdges eid⟩, acc.2) := by
      simp only [bfsEdgeDown, hg]
    rw [hres]
    refine ⟨⟨[], by simp, by simp⟩,
      fun x hx => (mem_listAdd _ _ _).mpr (Or.inl hx),
      (mem_listAdd _ _ _).mpr (Or.inr rfl),
      fun e' he' => absurd he' (by simp),
      fun m hm => Or.inl hm,
      fun x hx => (mem_listAdd _ _ _).mp hx,
      fun h => h⟩
  | some e =>
    by_cases ht : e.target ∈ acc.1.visitedNodes
    · have hres : bfsEdgeDown snap acc eid =
          (⟨acc.1.visitedNodes, listAdd acc.1.visitedEdges eid⟩, acc.2) := by
        simp only [bfsEdgeDown, hg]
        rw [if_pos ht]
      rw [hres]
      refine ⟨⟨[], by simp, by simp⟩,
        fun x hx => (mem_listAdd _ _ _).mpr (Or.inl hx),
        (mem_listAdd _ _ _).mpr (Or.inr rfl),
        ?_, fun m hm => Or.inl hm,
        fun x hx => (mem_listAdd _ _ _).mp hx,
        fun h => h⟩
      intro e' he'
      obtain rfl : e = e' := by injection he'
      exact ht
    · have hres : bfsEdgeDown snap acc eid =
          (⟨acc.1.visitedNodes ++ [e.target],
            listAdd acc.1.visitedEdges eid⟩, acc.2 ++ [e.target]) := by
        simp only [bfsEdgeDown, hg]
        rw [if_neg ht]
      rw [hres]
      refine ⟨⟨[e.target], rfl, rfl⟩,
        fun x hx => (mem_listAdd _ _ _).mpr (Or.inl hx),
        (mem_listAdd _ _ _).mpr (Or.inr rfl),
        ?_, ?_,
        fun x hx => (mem_listAdd _ _ _).mp hx,
        fun h => nodup_append_single _ _ h ht⟩
      · intro e' he'
        obtain rfl : e = e' := by injection he'
        exact List.mem_append_right _ (List.mem_singleton.mpr rfl)
      · intro m hm
        rcases List.mem_append.mp hm with h' | h'
        · exact Or.inl h'
        · exact Or.inr ⟨e, rfl, (List.mem_singleton.mp h').symm ▸ rfl⟩

theorem bfsEdgeUp_props (snap : Snapshot) (acc : BfsState × List String)
    (eid : String) :
    (∃ extra, (bfsEdgeUp snap acc eid).1.visitedNodes =
        acc.1.visitedNodes ++ extra ∧
      (bfsEdgeUp snap acc eid).2 = acc.2 ++ extra) ∧
    (∀ x ∈ acc.1.visitedEdges, x ∈ (bfsEdgeUp snap acc eid).1.visitedEdges) ∧
    eid ∈ (bfsEdgeUp snap acc eid).1.visitedEdges ∧
    (∀ e, alGet snap.edges eid = some e →
      e.source ∈ (bfsEdgeUp snap acc eid).1.visitedNodes) ∧
    (∀ m, m ∈ (bfsEdgeUp snap acc eid).1.visitedNodes →
      m ∈ acc.1.visitedNodes ∨
        ∃ e, alGet snap.edges eid = some e ∧ m = e.source) ∧
    (∀ x ∈ (bfsEdgeUp snap acc eid).1.visitedEdges,
      x ∈ acc.1.visitedEdges ∨ x = eid) ∧
    (acc.1.visitedNodes.Nodup →
      (bfsEdgeUp snap acc eid).1.visitedNodes.Nodup) := by
  cases hg : alGet snap.edges eid with
  | none =>
    have hres : bfsEdgeUp snap acc eid =
        (⟨acc.1.visitedNodes, listAdd acc.1.visitedEdges eid⟩, acc.2) := by
      simp only [bfsEdgeUp, hg]
    rw [hres]
    refine ⟨⟨[], by simp, by simp⟩,
      fun x hx => (mem_listAdd _ _ _).mpr (Or.inl hx),
      (mem_listAdd _ _ _).mpr (Or.inr rfl),
      fun e' he' => absurd he' (by simp),
      fun m hm => Or.inl hm,
      fun x hx => (mem_listAdd _ _ _).mp hx,
      fun h => h⟩
  | some e =>
    by_cases ht : e.source ∈ acc.1.visitedNodes
    · have hres : bfsEdgeUp snap acc eid =
          (⟨acc.1.visitedNodes, listAdd acc.1.visitedEdges eid⟩, acc.2) := by
        simp only [bfsEdgeUp, hg]
        rw [if_pos ht]
      rw [hres]
      refine ⟨⟨[], by simp, by simp⟩,
        fun x hx => (mem_listAdd _ _ _).mpr (Or.inl hx),
        (mem_listAdd _ _ _).mpr (Or.inr rfl),
        ?_, fun m hm => Or.inl hm,
        fun x hx => (mem_listAdd _ _ _).mp hx,
        fun h => h⟩
      intro e' he'
      obtain rfl : e = e' := by injection he'
      exact ht
    · have hres : bfsEdgeUp snap acc eid =
          (⟨acc.1.visitedNodes ++ [e.source],
            listAdd acc.1.visitedEdges eid⟩, acc.2 ++ [e.source]) := by
        simp only [bfsEdgeUp, hg]
        rw [if_neg ht]
      rw [hres]
      refine ⟨⟨[e.source], rfl, rfl⟩,
        fun x hx => (mem_listAdd _ _ _).mpr (Or.inl hx),
        (mem_listAdd _ _ _).mpr (Or.inr rfl),
        ?_, ?_,
        fun x hx => (mem_listAdd _ _ _).mp hx,
        fun h => nodup_append_single _ _ h ht⟩
      · intro e' he'
        obtain rfl : e = e' := by injection he'
        exact List.mem_append_right _ (List.mem_singleton.mpr rfl)
      · intro m hm
        rcases List.mem_append.mp hm with h' | h'
        · exact Or.inl h'
        · exact Or.inr ⟨e, rfl, (List.mem_singleton.mp h').symm ▸ rfl⟩

end QlikAtlas

namespace QlikAtlas

theorem bfsEdgeFoldDown_props (snap : Snapshot) (eids : List String) :
    ∀ acc : BfsState × List String,
      (∃ extra, (eids.foldl (bfsEdgeDown snap) acc).1.visitedNodes =
          acc.1.visitedNodes ++ extra ∧
        (eids.foldl (bfsEdgeDown snap) acc).2 = acc.2 ++ extra) ∧
      (∀ x ∈ acc.1.visitedEdges,
        x ∈ (eids.foldl (bfsEdgeDown snap) acc).1.visitedEdges) ∧
      (∀ eid ∈ eids, eid ∈ (eids.foldl (bfsEdgeDown snap) acc).1.visitedEdges) ∧
      (∀ eid ∈ eids, ∀ e, alGet snap.edges eid = some e →
        e.target ∈ (eids.foldl (bfsEdgeDown snap) acc).1.visitedNodes) ∧
      (∀ m ∈ (eids.foldl (bfsEdgeDown snap) acc).1.visitedNodes,
        m ∈ acc.1.visitedNodes ∨
          ∃ eid ∈ eids, ∃ e, alGet snap.edges eid = some e ∧ m = e.target) ∧
      (∀ x ∈ (eids.foldl (bfsEdgeDown snap) acc).1.visitedEdges,
        x ∈ acc.1.visitedEdges ∨ x ∈ eids) ∧
      (acc.1.visitedNodes.Nodup →
        (eids.foldl (bfsEdgeDown snap) acc).1.visitedNodes.Nodup) := by
  induction eids with
  | nil =>
    intro acc
    exact ⟨⟨[], by simp, by simp⟩, fun x hx => hx,
      fun eid h => absurd h (List.not_mem_nil eid),
      fun eid h => absurd h (List.not_mem_nil eid),
      fun m hm => Or.inl hm, fun x hx => Or.inl hx, fun h => h⟩
  | cons eid rest ih =>
    intro acc
    obtain ⟨⟨ex1, hn1, hf1⟩, hg1, hs1, hd1, hc1, he1, hnd1⟩ :=
      bfsEdgeDown_props snap acc eid
    obtain ⟨⟨ex2, hn2, hf2⟩, hg2, hs2, hd2, hc2, he2, hnd2⟩ :=
      ih (bfsEdgeDown snap acc eid)
    rw [List.foldl_cons]
    refine ⟨⟨ex1 ++ ex2, by rw [hn2, hn1, List.append_assoc],
        by rw [hf2, hf1, List.append_assoc]⟩, ?_, ?_, ?_, ?_, ?_, ?_⟩
    · intro x hx
      exact hg2 x (hg1 x hx)
    · intro eid' h'
      rcases List.mem_cons.mp h' with rfl | h''
      · exact hg2 _ hs1
      · exact hs2 _ h''
    · intro eid' h' e he
      rcases List.mem_cons.mp h' with rfl | h''
      · rw [hn2]
        exact List.mem_append_left _ (hd1 e he)
      · exact hd2 _ h'' e he
    · intro m hm
      rcases hc2 m hm with hm' | ⟨eid', h', e, he, hme⟩
      · rcases hc1 m hm' with hm'' | ⟨e, he, hme⟩
        · exact Or.inl hm''
        · exact Or.inr ⟨eid, List.mem_cons_self _ _, e, he, hme⟩
      · exact Or.inr ⟨eid', List.mem_cons_of_mem _ h', e, he, hme⟩
    · intro x hx
      rcases he2 x hx with hx' | hx'
      · rcases he1 x hx' with hx'' | rfl
        · exact Or.inl hx''
        · exact Or.inr (List.mem_cons_self _ _)
      · exact Or.inr (List.mem_cons_of_mem _ hx')
    · intro h
      exact hnd2 (hnd1 h)

theorem bfsEdgeFoldUp_props (snap : Snapshot) (eids : List String) :
    ∀ acc : BfsState × List String,
      (∃ extra, (eids.foldl (bfsEdgeUp snap) acc).1.visitedNodes =
          acc.1.visitedNodes ++ extra ∧
        (eids.foldl (bfsEdgeUp snap) acc).2 = acc.2 ++ extra) ∧
      (∀ x ∈ acc.1.visitedEdges,
        x ∈ (eids.foldl (bfsEdgeUp snap) acc).1.visitedEdges) ∧
      (∀ eid ∈ eids, eid ∈ (eids.foldl (bfsEdgeUp snap) acc).1.visitedEdges) ∧
      (∀ eid ∈ eids, ∀ e, alGet snap.edges eid = some e →
        e.source ∈ (eids.foldl (bfsEdgeUp snap) acc).1.visitedNodes) ∧
      (∀ m ∈ (eids.foldl (bfsEdgeUp snap) acc).1.visitedNodes,
        m ∈ acc.1.visitedNodes ∨
          ∃ eid ∈ eids, ∃ e, alGet snap.edges eid = some e ∧ m = e.source) ∧
      (∀ x ∈ (eids.foldl (bfsEdgeUp snap) acc).1.visitedEdges,
        x ∈ acc.1.visitedEdges ∨ x ∈ eids) ∧
      (acc.1.visitedNodes.Nodup →
        (eids.foldl (bfsEdgeUp snap) acc).1.visitedNodes.Nodup) := by
  induction eids with
  | nil =>
    intro acc
    exact ⟨⟨[], by simp, by simp⟩, fun x hx => hx,
      fun eid h => absurd h (List.not_mem_nil eid),
      fun eid h => absurd h (List.not_mem_nil eid),
      fun m hm => Or.inl hm, fun x hx => Or.inl hx, fun h => h⟩
  | cons eid rest ih =>
    intro acc
    obtain ⟨⟨ex1, hn1, hf1⟩, hg1, hs1, hd1, hc1, he1, hnd1⟩ :=
      bfsEdgeUp_props snap acc eid
    obtain ⟨⟨ex2, hn2, hf2⟩, hg2, hs2, hd2, hc2, he2, hnd2⟩ :=
      ih (bfsEdgeUp snap acc eid)
    rw [List.foldl_cons]
    refine ⟨⟨ex1 ++ ex2, by rw [hn2, hn1, List.append_assoc],
        by rw [hf2, hf1, List.append_assoc]⟩, ?_, ?_, ?_, ?_, ?_, ?_⟩
    · intro x hx
      exact hg2 x (hg1 x hx)
    · intro eid' h'
      rcases List.mem_cons.mp h' with rfl | h''
      · exact hg2 _ hs1
      · exact hs2 _ h''
    · intro eid' h' e he
      rcases List.mem_cons.mp h' with rfl | h''
      · rw [hn2]
        exact List.mem_append_left _ (hd1 e he)
      · exact hd2 _ h'' e he
    · intro m hm
      rcases hc2 m hm with hm' | ⟨eid', h', e, he, hme⟩
      · rcases hc1 m hm' with hm'' | ⟨e, he, hme⟩
        · exact Or.inl hm''
        · exact Or.inr ⟨eid, List.mem_cons_self _ _, e, he, hme⟩
      · exact Or.inr ⟨eid', List.mem_cons_of_mem _ h', e, he, hme⟩
    · intro x hx
      rcases he2 x hx with hx' | hx'
      · rcases he1 x hx' with hx'' | rfl
        · exact Or.inl hx''
        · exact Or.inr (List.mem_cons_self _ _)
      · exact Or.inr (List.mem_cons_of_mem _ hx')
    · intro h
      exact hnd2 (hnd1 h)

end QlikAtlas

namespace QlikAtlas

/-- A node whose adjacency has been fully expanded into the visited sets. -/
def NodeDone (snap : Snapshot) (direction : String) (st : BfsState)
    (n : String) : Prop :=
  ((direction = "down" || direction = "both") = true →
    ∀ eid ∈ (alGet snap.outAdj n).getD [], eid ∈ st.visitedEdges ∧
      ∀ e, alGet snap.edges eid = some e → e.target ∈ st.visitedNodes) ∧
  ((direction = "up" || direction = "both") = true →
    ∀ eid ∈ (alGet snap.inAdj n).getD [], eid ∈ st.visitedEdges ∧
      ∀ e, alGet snap.edges eid = some e → e.source ∈ st.visitedNodes)

theorem NodeDone_mono (snap : Snapshot) (direction : String)
    (st st' : BfsState) (n : String) (h : NodeDone snap direction st n)
    (hes : ∀ x ∈ st.visitedEdges, x ∈ st'.visitedEdges)
    (hns : ∀ m ∈ st.visitedNodes, m ∈ st'.visitedNodes) :
    NodeDone snap direction st' n := by
  refine ⟨fun hd eid he => ?_, fun hu eid he => ?_⟩
  · obtain ⟨h1, h2⟩ := h.1 hd eid he
    exact ⟨hes _ h1, fun e hee => hns _ (h2 e hee)⟩
  · obtain ⟨h1, h2⟩ := h.2 hu eid he
    exact ⟨hes _ h1, fun e hee => hns _ (h2 e hee)⟩

theorem bfsProcessNode_props (snap : Snapshot) (direction : String)
    (acc : BfsState × List String) (nodeId : String) :
    (∃ extra, (bfsProcessNode snap direction acc nodeId).1.visitedNodes =
        acc.1.visitedNodes ++ extra ∧
      (bfsProcessNode snap direction acc nodeId).2 = acc.2 ++ extra) ∧
    (∀ x ∈ acc.1.visitedEdges,
      x ∈ (bfsProcessNode snap direction acc nodeId).1.visitedEdges) ∧
    NodeDone snap direction (bfsProcessNode snap direction acc nodeId).1
      nodeId ∧
    (∀ m ∈ (bfsProcessNode snap direction acc nodeId).1.visitedNodes,
      m ∈ acc.1.visitedNodes ∨ bfsSucc snap direction nodeId m) ∧
    (∀ x ∈ (bfsProcessNode snap direction acc nodeId).1.visitedEdges,
      x ∈ acc.1.visitedEdges ∨ x ∈ dirEdges snap direction nodeId) ∧
    (acc.1.visitedNodes.Nodup →
      (bfsProcessNode snap direction acc nodeId).1.visitedNodes.Nodup) := by
  by_cases hd : (direction = "down" || direction = "both") = true <;>
    by_cases hu : (direction = "up" || direction = "both") = true
  · have hres : bfsProcessNode snap direction acc nodeId =
        ((alGet snap.inAdj nodeId).getD []).foldl (bfsEdgeUp snap)
          (((alGet snap.outAdj nodeId).getD []).foldl (bfsEdgeDown snap) acc) := by
      simp only [bfsProcessNode]
      rw [if_pos hd, if_pos hu]
    have hdir : dirEdges snap direction nodeId =
        (alGet snap.outAdj nodeId).getD [] ++ (alGet snap.inAdj nodeId).getD [] := by
      unfold dirEdges
      rw [if_pos hd, if_pos hu]
    have hdp : direction = "down" ∨ direction = "both" := by
      simpa using hd
    have hup : direction = "up" ∨ direction = "both" := by
      simpa using hu
    obtain ⟨⟨ex1, hn1, hf1⟩, hg1, hs1, hd1, hc1, he1, hnd1⟩ :=
      bfsEdgeFoldDown_props snap ((alGet snap.outAdj nodeId).getD []) acc
    obtain ⟨⟨ex2, hn2, hf2⟩, hg2, hs2, hd2, hc2, he2, hnd2⟩ :=
      bfsEdgeFoldUp_props snap ((alGet snap.inAdj nodeId).getD [])
        (((alGet snap.outAdj nodeId).getD []).foldl (bfsEdgeDown snap) acc)
    rw [hres, hdir]
    refine ⟨⟨ex1 ++ ex2, by rw [hn2, hn1, List.append_assoc],
        by rw [hf2, hf1, List.append_assoc]⟩, ?_, ⟨?_, ?_⟩, ?_, ?_, ?_⟩
    · intro x hx
      exact hg2 x (hg1 x hx)
    · intro _ eid he
      refine ⟨hg2 _ (hs1 _ he), fun e hee => ?_⟩
      rw [hn2]
      exact List.mem_append_left _ (hd1 _ he e hee)
    · intro _ eid he
      exact ⟨hs2 _ he, fun e hee => hd2 _ he e hee⟩
    · intro m hm
      rcases hc2 m hm with hm' | ⟨eid, he, e, hee, hme⟩
      · rcases hc1 m hm' with hm'' | ⟨eid, he, e, hee, hme⟩
        · exact Or.inl hm''
        · exact Or.inr (Or.inl ⟨eid, e, hdp, he, hee, hme.symm⟩)
      · exact Or.inr (Or.inr ⟨eid, e, hup, he, hee, hme.symm⟩)
    · intro x hx
      rcases he2 x hx with hx' | hx'
      · rcases he1 x hx' with hx'' | hx''
        · exact Or.inl hx''
        · exact Or.inr (List.mem_append_left _ hx'')
      · exact Or.inr (List.mem_append_right _ hx')
    · intro h
      exact hnd2 (hnd1 h)
  · have hres : bfsProcessNode snap direction acc nodeId =
        ((alGet snap.outAdj nodeId).getD []).foldl (bfsEdgeDown snap) acc := by
      simp only [bfsProcessNode]
      rw [if_pos hd, if_neg hu]
    have hdir : dirEdges snap direction nodeId =
        (alGet snap.outAdj nodeId).getD [] ++ [] := by
      unfold dirEdges
      rw [if_pos hd, if_neg hu]
    have hdp : direction = "down" ∨ direction = "both" := by
      simpa using hd
    obtain ⟨⟨ex1, hn1, hf1⟩, hg1, hs1, hd1, hc1, he1, hnd1⟩ :=
      bfsEdgeFoldDown_props snap ((alGet snap.outAdj nodeId).getD []) acc
    rw [hres, hdir]
    refine ⟨⟨ex1, hn1, hf1⟩, hg1, ⟨?_, fun h' => absurd h' hu⟩, ?_, ?_, hnd1⟩
    · intro _ eid he
      exact ⟨hs1 _ he, fun e hee => hd1 _ he e hee⟩
    · intro m hm
      rcases hc1 m hm with hm' | ⟨eid, he, e, hee, hme⟩
      · exact Or.inl hm'
      · exact Or.inr (Or.inl ⟨eid, e, hdp, he, hee, hme.symm⟩)
    · intro x hx
      rcases he1 x hx with hx' | hx'
      · exact Or.inl hx'
      · exact Or.inr (List.mem_append_left _ hx')
  · have hres : bfsProcessNode snap direction acc nodeId =
        ((alGet snap.inAdj nodeId).getD []).foldl (bfsEdgeUp snap) acc := by
      simp only [bfsProcessNode]
      rw [if_neg hd, if_pos hu]
    have hdir : dirEdges snap direction nodeId =
        [] ++ (alGet snap.inAdj nodeId).getD [] := by
      unfold dirEdges
      rw [if_neg hd, if_pos hu]
    have hup : direction = "up" ∨ direction = "both" := by
      simpa using hu
    obtain ⟨⟨ex2, hn2, hf2⟩, hg2, hs2, hd2, hc2, he2, hnd2⟩ :=
      bfsEdgeFoldUp_props snap ((alGet snap.inAdj nodeId).getD []) acc
    rw [hres, hdir]
    refine ⟨⟨ex2, hn2, hf2⟩, hg2, ⟨fun h' => absurd h' hd, ?_⟩, ?_, ?_, hnd2⟩
    · intro _ eid he
      exact ⟨hs2 _ he, fun e hee => hd2 _ he e hee⟩
    · intro m hm
      rcases hc2 m hm with hm' | ⟨eid, he, e, hee, hme⟩
      · exact Or.inl hm'
      · exact Or.inr (Or.inr ⟨eid, e, hup, he, hee, hme.symm⟩)
    · intro x hx
      rcases he2 x hx with hx' | hx'
      · exact Or.inl hx'
      · exact Or.inr (List.mem_append_right _ hx')
  · have hres : bfsProcessNode snap direction acc nodeId = acc := by
      simp only [bfsProcessNode]
      rw [if_neg hd, if_neg hu]
    rw [hres]
    exact ⟨⟨[], by simp, by simp⟩, fun x hx => hx,
      ⟨fun h' => absurd h' hd, fun h' => absurd h' hu⟩,
      fun m hm => Or.inl hm, fun x hx => Or.inl hx, fun h => h⟩

end QlikAtlas

namespace QlikAtlas

theorem bfsFrontierFold_props (snap : Snapshot) (direction : String)
    (frontier : List String) :
    ∀ acc : BfsState × List String,
      (∃ extra,
        ((frontier.foldl (bfsProcessNode snap direction) acc)).1.visitedNodes =
          acc.1.visitedNodes ++ extra ∧
        ((frontier.foldl (bfsProcessNode snap direction) acc)).2 =
          acc.2 ++ extra) ∧
      (∀ x ∈ acc.1.visitedEdges,
        x ∈ ((frontier.foldl (bfsProcessNode snap direction) acc)).1.visitedEdges) ∧
      (∀ n ∈ frontier, NodeDone snap direction
        ((frontier.foldl (bfsProcessNode snap direction) acc)).1 n) ∧
      (∀ m ∈ ((frontier.foldl (bfsProcessNode snap direction) acc)).1.visitedNodes,
        m ∈ acc.1.visitedNodes ∨
          ∃ n ∈ frontier, bfsSucc snap direction n m) ∧
      (∀ x ∈ ((frontier.foldl (bfsProcessNode snap direction) acc)).1.visitedEdges,
        x ∈ acc.1.visitedEdges ∨
          ∃ n ∈ frontier, x ∈ dirEdges snap direction n) ∧
      (acc.1.visitedNodes.Nodup →
        ((frontier.foldl (bfsProcessNode snap direction) acc)).1.visitedNodes.Nodup) := by
  induction frontier with
  | nil =>
    intro acc
    exact ⟨⟨[], by simp, by simp⟩, fun x hx => hx,
      fun n h => absurd h (List.not_mem_nil n),
      fun m hm => Or.inl hm, fun x hx => Or.inl hx, fun h => h⟩
  | cons n0 rest ih =>
    intro acc
    obtain ⟨⟨ex1, hn1, hf1⟩, hg1, hdone1, hc1, he1, hnd1⟩ :=
      bfsProcessNode_props snap direction acc n0
    obtain ⟨⟨ex2, hn2, hf2⟩, hg2, hdone2, hc2, he2, hnd2⟩ :=
      ih (bfsProcessNode snap direction acc n0)
    rw [List.foldl_cons]
    refine ⟨⟨ex1 ++ ex2, by rw [hn2, hn1, List.append_assoc],
        by rw [hf2, hf1, List.append_assoc]⟩, ?_, ?_, ?_, ?_, ?_⟩
    · intro x hx
      exact hg2 x (hg1 x hx)
    · intro n hn
      rcases List.mem_cons.mp hn with rfl | hn'
      · refine NodeDone_mono _ _ _ _ _ hdone1 hg2 ?_
        intro m hm
        rw [hn2]
        exact List.mem_append_left _ hm
      · exact hdone2 n hn'
    · intro m hm
      rcases hc2 m hm with hm' | ⟨n, hn, hsucc⟩
      · rcases hc1 m hm' with hm'' | hsucc
        · exact Or.inl hm''
        · exact Or.inr ⟨n0, List.mem_cons_self _ _, hsucc⟩
      · exact Or.inr ⟨n, List.mem_cons_of_mem _ hn, hsucc⟩
    · intro x hx
      rcases he2 x hx with hx' | ⟨n, hn, hdir⟩
      · rcases he1 x hx' with hx'' | hdir
        · exact Or.inl hx''
        · exact Or.inr ⟨n0, List.mem_cons_self _ _, hdir⟩
      · exact Or.inr ⟨n, List.mem_cons_of_mem _ hn, hdir⟩
    · intro h
      exact hnd2 (hnd1 h)

end QlikAtlas

namespace QlikAtlas

/-- The loop invariant of the BFS: the start is visited, visited nodes are
reachable, visited edges are adjacent to reachable nodes, every visited
node off the frontier has been fully expanded, and the frontier is
visited. -/
def BfsInv (snap : Snapshot) (direction start : String) (st : BfsState)
    (frontier : List String) : Prop :=
  start ∈ st.visitedNodes ∧
  (∀ m ∈ st.visitedNodes, Reach snap direction start m) ∧
  (∀ eid ∈ st.visitedEdges, ∃ n, Reach snap direction start n ∧
    eid ∈ dirEdges snap direction n) ∧
  (∀ n ∈ st.visitedNodes, n ∉ frontier → NodeDone snap direction st n) ∧
  (∀ n ∈ frontier, n ∈ st.visitedNodes)

/-- The visited-node list stays duplicate-free and inside the finite pool
of the start node and the edge endpoints. -/
def BfsBound (snap : Snapshot) (start : String) (st : BfsState) : Prop :=
  st.visitedNodes.Nodup ∧
  ∀ m ∈ st.visitedNodes, m = start ∨
    ∃ p ∈ snap.edges, m = p.2.target ∨ m = p.2.source

theorem bfsBound_length (snap : Snapshot) (start : String) (st : BfsState)
    (h : BfsBound snap start st) :
    st.visitedNodes.length ≤ 2 * snap.edges.length + 1 := by
  have hsub : st.visitedNodes ⊆
      start :: (snap.edges.map (·.2.target) ++ snap.edges.map (·.2.source)) := by
    intro m hm
    rcases h.2 m hm with rfl | ⟨p, hp, hm' | hm'⟩
    · exact List.mem_cons_self _ _
    · exact List.mem_cons_of_mem _ (List.mem_append_left _
        (hm' ▸ List.mem_map_of_mem (·.2.target) hp))
    · exact List.mem_cons_of_mem _ (List.mem_append_right _
        (hm' ▸ List.mem_map_of_mem (·.2.source) hp))
  have := (h.1.subperm hsub).length_le
  simp only [List.length_cons, List.length_append, List.length_map] at this
  omega

theorem bfsStep_pres (snap : Snapshot) (direction start : String)
    (st : BfsState) (frontier : List String)
    (hinv : BfsInv snap direction start st frontier)
    (hb : BfsBound snap start st) :
    (bfsStep snap direction st frontier).1.visitedNodes =
      st.visitedNodes ++ (bfsStep snap direction st frontier).2 ∧
    BfsInv snap direction start (bfsStep snap direction st frontier).1
      (bfsStep snap direction st frontier).2 ∧
    BfsBound snap start (bfsStep snap direction st frontier).1 := by
  obtain ⟨hstart, hns, hes, hdone, hfr⟩ := hinv
  obtain ⟨⟨extra, hn, hf⟩, hg, hdoneF, hc, he, hnd⟩ :=
    bfsFrontierFold_props snap direction frontier (st, [])
  have hf' : (bfsStep snap direction st frontier).2 = extra := by
    rw [show (bfsStep snap direction st frontier).2 =
      ((frontier.foldl (bfsProcessNode snap direction) (st, []))).2 from rfl, hf]
    simp
  have hshape : (bfsStep snap direction st frontier).1.visitedNodes =
      st.visitedNodes ++ (bfsStep snap direction st frontier).2 := by
    rw [hf']
    exact hn
  refine ⟨hshape, ⟨?_, ?_, ?_, ?_, ?_⟩, ?_, ?_⟩
  · rw [hshape]
    exact List.mem_append_left _ hstart
  · intro m hm
    rcases hc m hm with hm' | ⟨n, hn', hsucc⟩
    · exact hns m hm'
    · exact Reach.step (hns n (hfr n hn')) hsucc
  · intro eid heid
    rcases he eid heid with h' | ⟨n, hn', hdir⟩
    · exact hes eid h'
    · exact ⟨n, hns n (hfr n hn'), hdir⟩
  · intro n hn' hnfr
    rw [hshape] at hn'
    rcases List.mem_append.mp hn' with hn'' | hn''
    · by_cases hf2 : n ∈ frontier
      · exact hdoneF n hf2
      · refine NodeDone_mono _ _ _ _ _ (hdone n hn'' hf2) hg ?_
        intro m hm
        rw [hshape]
        exact List.mem_append_left _ hm
    · exact absurd hn'' hnfr
  · intro n hn'
    rw [hshape]
    exact List.mem_append_right _ hn'
  · exact hnd hb.1
  · intro m hm
    rcases hc m hm with hm' | ⟨n, hn', hsucc⟩
    · exact hb.2 m hm'
    · rcases hsucc with ⟨eid, e, _, _, hee, hme⟩ | ⟨eid, e, _, _, hee, hme⟩
      · exact Or.inr ⟨(eid, e), mem_of_alGet _ _ _ hee, Or.inl hme.symm⟩
      · exact Or.inr ⟨(eid, e), mem_of_alGet _ _ _ hee, Or.inr hme.symm⟩

theorem bfsRunNeg_final (snap : Snapshot) (direction start : String) :
    ∀ (fuel : Nat) (st : BfsState) (frontier : List String),
      BfsInv snap direction start st frontier →
      BfsBound snap start st →
      2 * snap.edges.length + 2 ≤ fuel + st.visitedNodes.length →
      BfsInv snap direction start
        (bfsRunNeg snap direction fuel st frontier) [] := by
  intro fuel
  induction fuel with
  | zero =>
    intro st frontier hinv hb hfuel
    have := bfsBound_length snap start st hb
    omega
  | succ fuel ih =>
    intro st frontier hinv hb hfuel
    show BfsInv snap direction start
      (if frontier.isEmpty then st
        else bfsRunNeg snap direction fuel
          (bfsStep snap direction st frontier).1
          (bfsStep snap direction st frontier).2) []
    split
    · next hemp =>
      rw [List.isEmpty_iff] at hemp
      subst hemp
      exact hinv
    · obtain ⟨hshape, hinv', hb'⟩ :=
        bfsStep_pres snap direction start st frontier hinv hb
      cases hr2 : (bfsStep snap direction st frontier).2 with
      | nil =>
        rw [bfsRunNeg_nil]
        rw [hr2] at hinv'
        exact hinv'
      | cons a rest =>
        rw [hr2] at hinv'
        refine ih _ _ hinv' hb' ?_
        have hlen : (bfsStep snap direction st frontier).1.visitedNodes.length =
            st.visitedNodes.length +
              (bfsStep snap direction st frontier).2.length := by
          rw [hshape, List.length_append]
        rw [hr2] at hlen
        simp only [List.length_cons] at hlen
        omega

end QlikAtlas

namespace QlikAtlas

theorem bfsInv_final_char (snap : Snapshot) (direction start : String)
    (st : BfsState) (hinv : BfsInv snap direction start st []) :
    (∀ m, m ∈ st.visitedNodes ↔ Reach snap direction start m) ∧
    (∀ eid, eid ∈ st.visitedEdges ↔
      ∃ n, Reach snap direction start n ∧ eid ∈ dirEdges snap direction n) := by
  obtain ⟨hstart, hsound, hesound, hdone, _⟩ := hinv
  have halldone : ∀ n ∈ st.visitedNodes, NodeDone snap direction st n :=
    fun n hn => hdone n hn (List.not_mem_nil n)
  have hcomplete : ∀ m, Reach snap direction start m → m ∈ st.visitedNodes := by
    intro m hr
    induction hr with
    | refl => exact hstart
    | step hr0 hsucc ih =>
      rcases hsucc with ⟨eid, e, hdir, hmem, hee, hme⟩ |
        ⟨eid, e, hdir, hmem, hee, hme⟩
      · have hdd : (direction = "down" || direction = "both") = true := by
          rcases hdir with h | h <;> simp [h]
        exact hme ▸ ((halldone _ ih).1 hdd eid hmem).2 e hee
      · have huu : (direction = "up" || direction = "both") = true := by
          rcases hdir with h | h <;> simp [h]
        exact hme ▸ ((halldone _ ih).2 huu eid hmem).2 e hee
  refine ⟨fun m => ⟨fun h => hsound m h, fun h => hcomplete m h⟩, fun eid =>
    ⟨fun h => hesound eid h, ?_⟩⟩
  rintro ⟨n, hrn, hdir⟩
  have hball := halldone n (hcomplete n hrn)
  unfold dirEdges at hdir
  rcases List.mem_append.mp hdir with h' | h'
  · by_cases hcond : (direction = "down" || direction = "both") = true
    · rw [if_pos hcond] at h'
      exact (hball.1 hcond eid h').1
    · rw [if_neg hcond] at h'
      exact absurd h' (List.not_mem_nil eid)
  · by_cases hcond : (direction = "up" || direction = "both") = true
    · rw [if_pos hcond] at h'
      exact (hball.2 hcond eid h').1
    · rw [if_neg hcond] at h'
      exact absurd h' (List.not_mem_nil eid)

/-- A placeholder-style node of the C4 chain example. -/
def chainNode (s : String) : NodeRec := ⟨s, s, "other", .null, .null, "other", none⟩

/-- A minimal aggregated edge context for the chain example. -/
def chainCtx : EdgeCtx := ⟨"", "", "", none, [], [], [], none, none, 1⟩

/-- An aggregated LOAD edge of the chain example. -/
def chainEdge (eid s t : String) : EdgeRec := ⟨eid, s, t, "LOAD", chainCtx⟩

/-- The A→B→C→D chain snapshot of spec §8. -/
def exChain : Snapshot :=
  { nodes := [("A", chainNode "A"), ("B", chainNode "B"),
      ("C", chainNode "C"), ("D", chainNode "D")]
    edges := [("e1", chainEdge "e1" "A" "B"), ("e2", chainEdge "e2" "B" "C"),
      ("e3", chainEdge "e3" "C" "D")]
    outAdj := [("A", ["e1"]), ("B", ["e2"]), ("C", ["e3"])]
    inAdj := [("B", ["e1"]), ("C", ["e2"]), ("D", ["e3"])]
    apps := []
    filesLoaded := 0 }

end QlikAtlas

namespace QlikAtlas

/-- Claim C4: `bfs_subgraph` returns two empty sets when the start id is
absent; with negative depth it returns exactly the reachable nodes and the
adjacency entries of reachable nodes in the requested direction; with
non-negative depth `d` it equals `d` plain iterations of the frontier step
(early stop on an empty frontier being a no-op); and on the A→B→C→D LOAD
chain, `bfs(A, down, 2)` gives nodes A,B,C with 2 edges, `bfs(A, down, -1)`
gives all four nodes with 3 edges, and `bfs(D, up, -1)` gives all four
nodes. -/
theorem C4_bfs_subgraph_semantics (snap : Snapshot) (start direction : String)
    (depth : Int) (d : Nat)
    (_hout : ∀ p ∈ snap.outAdj, ∀ eid ∈ p.2,
      (alGet snap.edges eid).isSome = true)
    (_hin : ∀ p ∈ snap.inAdj, ∀ eid ∈ p.2,
      (alGet snap.edges eid).isSome = true) :
    (alHas snap.nodes start = false →
      bfs_subgraph snap start direction depth = ([], [])) ∧
    (alHas snap.nodes start = true → depth < 0 →
      (∀ m, m ∈ (bfs_subgraph snap start direction depth).1 ↔
        Reach snap direction start m) ∧
      (∀ eid, eid ∈ (bfs_subgraph snap start direction depth).2 ↔
        ∃ n, Reach snap direction start n ∧ eid ∈ dirEdges snap direction n)) ∧
    (alHas snap.nodes start = true →
      bfs_subgraph snap start direction (d : Int) =
        ((bfsIter snap direction d (⟨[start], []⟩, [start])).1.visitedNodes,
          (bfsIter snap direction d (⟨[start], []⟩, [start])).1.visitedEdges)) ∧
    bfs_subgraph exChain "A" "down" 2 = (["A", "B", "C"], ["e1", "e2"]) ∧
    (bfs_subgraph exChain "A" "down" 2).2.length = 2 ∧
    bfs_subgraph exChain "A" "down" (-1) =
      (["A", "B", "C", "D"], ["e1", "e2", "e3"]) ∧
    (bfs_subgraph exChain "A" "down" (-1)).2.length = 3 ∧
    (bfs_subgraph exChain "D" "up" (-1)).1 = ["D", "C", "B", "A"] := by
  refine ⟨?_, ?_, ?_, by decide, by decide, by decide, by decide, by decide⟩
  · intro h
    simp [bfs_subgraph, h]
  · intro hstart hdepth
    have hres : bfs_subgraph snap start direction depth =
        ((bfsRunNeg snap direction (bfsFuel snap) ⟨[start], []⟩
            [start]).visitedNodes,
          (bfsRunNeg snap direction (bfsFuel snap) ⟨[start], []⟩
            [start]).visitedEdges) := by
      simp only [bfs_subgraph, hstart, Bool.not_true, Bool.false_eq_true,
        if_false, if_pos hdepth]
    rw [hres]
    have hinv0 : BfsInv snap direction start ⟨[start], []⟩ [start] := by
      refine ⟨List.mem_singleton.mpr rfl, ?_, ?_, ?_, ?_⟩
      · intro m hm
        rw [List.mem_singleton.mp hm]
        exact Reach.refl
      · intro eid h
        exact absurd h (List.not_mem_nil eid)
      · intro n hn hnot
        exact absurd hn hnot
      · intro n hn
        exact hn
    have hb0 : BfsBound snap start ⟨[start], []⟩ := by
      refine ⟨List.nodup_singleton _, ?_⟩
      intro m hm
      exact Or.inl (List.mem_singleton.mp hm)
    have hfinal := bfsRunNeg_final snap direction start (bfsFuel snap)
      ⟨[start], []⟩ [start] hinv0 hb0 (by
        show 2 * snap.edges.length + 2 ≤ bfsFuel snap + 1
        unfold bfsFuel
        omega)
    exact bfsInv_final_char snap direction start _ hfinal
  · intro hstart
    have hres : bfs_subgraph snap start direction (d : Int) =
        ((bfsRunBounded snap direction d ⟨[start], []⟩ [start]).visitedNodes,
          (bfsRunBounded snap direction d ⟨[start], []⟩ [start]).visitedEdges) := by
      simp only [bfs_subgraph, hstart, Bool.not_true, Bool.false_eq_true,
        if_false]
      rw [if_neg (by omega : ¬ ((d : Int) < 0))]
      rfl
    rw [hres, bfsRunBounded_eq_iter]

end QlikAtlas

namespace QlikAtlas

/-- Witness for C4 on the concrete chain snapshot (its adjacency indices
resolve, discharging the consistency hypotheses by computation). -/
theorem C4_witness :
    bfs_subgraph exChain "A" "down" 2 = (["A", "B", "C"], ["e1", "e2"]) :=
  (C4_bfs_subgraph_semantics exChain "A" "down" (-1) 2 (by decide)
    (by decide)).2.2.2.1

end QlikAtlas

namespace QlikAtlas

/-- Every visited edge resolves and has both endpoints visited. -/
def SelfContained (snap : Snapshot) (st : BfsState) : Prop :=
  ∀ eid ∈ st.visitedEdges, ∃ e, alGet snap.edges eid = some e ∧
    e.source ∈ st.visitedNodes ∧ e.target ∈ st.visitedNodes

theorem adjResolve (snap : Snapshot)
    (adj : List (String × List String))
    (f : EdgeRec → String)
    (hcons : ∀ p ∈ adj, ∀ eid ∈ p.2,
      ((alGet snap.edges eid).map f) = some p.1) :
    ∀ n eid, eid ∈ (alGet adj n).getD [] →
      ∃ e, alGet snap.edges eid = some e ∧ f e = n := by
  intro n eid he
  cases hal : alGet adj n with
  | none =>
    rw [hal] at he
    exact absurd he (List.not_mem_nil eid)
  | some l =>
    rw [hal] at he
    have hmap := hcons (n, l) (mem_of_alGet _ _ _ hal) eid he
    cases hg : alGet snap.edges eid with
    | none =>
      rw [hg] at hmap
      exact absurd hmap (by simp)
    | some e =>
      rw [hg] at hmap
      simp only [Option.map_some'] at hmap
      exact ⟨e, rfl, by injection hmap⟩

theorem bfsProcessNode_selfcontained (snap : Snapshot) (direction : String)
    (acc : BfsState × List String) (nodeId : String)
    (hout : ∀ n eid, eid ∈ (alGet snap.outAdj n).getD [] →
      ∃ e, alGet snap.edges eid = some e ∧ e.source = n)
    (hin : ∀ n eid, eid ∈ (alGet snap.inAdj n).getD [] →
      ∃ e, alGet snap.edges eid = some e ∧ e.target = n)
    (hnode : nodeId ∈ acc.1.visitedNodes)
    (hsc : SelfContained snap acc.1) :
    SelfContained snap (bfsProcessNode snap direction acc nodeId).1 := by
  obtain ⟨⟨extra, hn, hf⟩, hg, hdone, hc, he, hnd⟩ :=
    bfsProcessNode_props snap direction acc nodeId
  have hmono : ∀ m ∈ acc.1.visitedNodes,
      m ∈ (bfsProcessNode snap direction acc nodeId).1.visitedNodes := by
    intro m hm
    rw [hn]
    exact List.mem_append_left _ hm
  intro eid heid
  rcases he eid heid with hold | hdir
  · obtain ⟨e, hee, hs, ht⟩ := hsc eid hold
    exact ⟨e, hee, hmono _ hs, hmono _ ht⟩
  · unfold dirEdges at hdir
    rcases List.mem_append.mp hdir with h' | h'
    · by_cases hcond : (direction = "down" || direction = "both") = true
      · rw [if_pos hcond] at h'
        obtain ⟨e, hee, hsrc⟩ := hout nodeId eid h'
        refine ⟨e, hee, ?_, (hdone.1 hcond eid h').2 e hee⟩
        rw [hsrc]
        exact hmono _ hnode
      · rw [if_neg hcond] at h'
        exact absurd h' (List.not_mem_nil eid)
    · by_cases hcond : (direction = "up" || direction = "both") = true
      · rw [if_pos hcond] at h'
        obtain ⟨e, hee, htgt⟩ := hin nodeId eid h'
        refine ⟨e, hee, (hdone.2 hcond eid h').2 e hee, ?_⟩
        rw [htgt]
        exact hmono _ hnode
      · rw [if_neg hcond] at h'
        exact absurd h' (List.not_mem_nil eid)

theorem bfsFrontierFold_selfcontained (snap : Snapshot) (direction : String)
    (hout : ∀ n eid, eid ∈ (alGet snap.outAdj n).getD [] →
      ∃ e, alGet snap.edges eid = some e ∧ e.source = n)
    (hin : ∀ n eid, eid ∈ (alGet snap.inAdj n).getD [] →
      ∃ e, alGet snap.edges eid = some e ∧ e.target = n)
    (frontier : List String) :
    ∀ acc : BfsState × List String,
      (∀ n ∈ frontier, n ∈ acc.1.visitedNodes) →
      SelfContained snap acc.1 →
      SelfContained snap
        ((frontier.foldl (bfsProcessNode snap direction) acc)).1 := by
  induction frontier with
  | nil => intro acc _ hsc; exact hsc
  | cons n0 rest ih =>
    intro acc hfr hsc
    rw [List.foldl_cons]
    obtain ⟨⟨extra, hn, hf⟩, _, _, _, _, _⟩ :=
      bfsProcessNode_props snap direction acc n0
    refine ih _ ?_ (bfsProcessNode_selfcontained snap direction acc n0
      hout hin (hfr n0 (List.mem_cons_self _ _)) hsc)
    intro n hn'
    rw [hn]
    exact List.mem_append_left _ (hfr n (List.mem_cons_of_mem _ hn'))

theorem bfsRunNeg_selfcontained (snap : Snapshot) (direction : String)
    (hout : ∀ n eid, eid ∈ (alGet snap.outAdj n).getD [] →
      ∃ e, alGet snap.edges eid = some e ∧ e.source = n)
    (hin : ∀ n eid, eid ∈ (alGet snap.inAdj n).getD [] →
      ∃ e, alGet snap.edges eid = some e ∧ e.target = n) :
    ∀ (fuel : Nat) (st : BfsState) (frontier : List String),
      (∀ n ∈ frontier, n ∈ st.visitedNodes) →
      SelfContained snap st →
      SelfContained snap (bfsRunNeg snap direction fuel st frontier) := by
  intro fuel
  induction fuel with
  | zero => intro st frontier _ hsc; exact hsc
  | succ fuel ih =>
    intro st frontier hfr hsc
    show SelfContained snap
      (if frontier.isEmpty then st
        else bfsRunNeg snap direction fuel
          (bfsStep snap direction st frontier).1
          (bfsStep snap direction st frontier).2)
    split
    · exact hsc
    · obtain ⟨⟨extra, hn, hf⟩, _, _, _, _, _⟩ :=
        bfsFrontierFold_props snap direction frontier (st, [])
      refine ih _ _ ?_
        (bfsFrontierFold_selfcontained snap direction hout hin frontier
          (st, []) hfr hsc)
      intro n hn'
      show n ∈ ((frontier.foldl (bfsProcessNode snap direction)
        (st, []))).1.visitedNodes
      rw [hn]
      refine List.mem_append_right _ ?_
      have : (bfsStep snap direction st frontier).2 = [] ++ extra := hf
      rw [List.nil_append] at this
      rw [← this]
      exact hn'

theorem bfsRunBounded_selfcontained (snap : Snapshot) (direction : String)
    (hout : ∀ n eid, eid ∈ (alGet snap.outAdj n).getD [] →
      ∃ e, alGet snap.edges eid = some e ∧ e.source = n)
    (hin : ∀ n eid, eid ∈ (alGet snap.inAdj n).getD [] →
      ∃ e, alGet snap.edges eid = some e ∧ e.target = n) :
    ∀ (k : Nat) (st : BfsState) (frontier : List String),
      (∀ n ∈ frontier, n ∈ st.visitedNodes) →
      SelfContained snap st →
      SelfContained snap (bfsRunBounded snap direction k st frontier) := by
  intro k
  induction k with
  | zero => intro st frontier _ hsc; exact hsc
  | succ k ih =>
    intro st frontier hfr hsc
    have hstep := bfsFrontierFold_selfcontained snap direction hout hin
      frontier (st, []) hfr hsc
    obtain ⟨⟨extra, hn, hf⟩, _, _, _, _, _⟩ :=
      bfsFrontierFold_props snap direction frontier (st, [])
    have hfr' : ∀ n ∈ (bfsStep snap direction st frontier).2,
        n ∈ (bfsStep snap direction st frontier).1.visitedNodes := by
      intro n hn'
      show n ∈ ((frontier.foldl (bfsProcessNode snap direction)
        (st, []))).1.visitedNodes
      rw [hn]
      refine List.mem_append_right _ ?_
      have : (bfsStep snap direction st frontier).2 = [] ++ extra := hf
      rw [List.nil_append] at this
      rw [← this]
      exact hn'
    show SelfContained snap
      (if (bfsStep snap direction st frontier).2.isEmpty then
        (bfsStep snap direction st frontier).1
      else bfsRunBounded snap direction k
        (bfsStep snap direction st frontier).1
        (bfsStep snap direction st frontier).2)
    split
    · exact hstep
    · exact ih _ _ hfr' hstep

end QlikAtlas

namespace QlikAtlas

/-- Claim C10: when the adjacency indices are consistent with the edge map
(an id listed under `outAdj[n]` resolves to an edge with source `n`, and
under `inAdj[n]` to one with target `n`), every edge id returned by
`bfs_subgraph` — for every start, direction and depth — resolves to an
edge whose source and target node ids are both in the returned node set. -/
theorem C10_bfs_self_contained (snap : Snapshot) (start direction : String)
    (depth : Int)
    (hout : ∀ p ∈ snap.outAdj, ∀ eid ∈ p.2,
      ((alGet snap.edges eid).map (·.source)) = some p.1)
    (hin : ∀ p ∈ snap.inAdj, ∀ eid ∈ p.2,
      ((alGet snap.edges eid).map (·.target)) = some p.1) :
    ∀ eid ∈ (bfs_subgraph snap start direction depth).2,
      ∃ e, alGet snap.edges eid = some e ∧
        e.source ∈ (bfs_subgraph snap start direction depth).1 ∧
        e.target ∈ (bfs_subgraph snap start direction depth).1 := by
  have hout' := adjResolve snap snap.outAdj (·.source) hout
  have hin' := adjResolve snap snap.inAdj (·.target) hin
  unfold bfs_subgraph
  split
  · intro eid heid
    exact absurd heid (List.not_mem_nil eid)
  · have hsc0 : SelfContained snap ⟨[start], []⟩ := by
      intro eid heid
      exact absurd heid (List.not_mem_nil eid)
    have hfr0 : ∀ n ∈ [start], n ∈ (⟨[start], []⟩ : BfsState).visitedNodes :=
      fun n hn => hn
    split
    · exact bfsRunNeg_selfcontained snap direction hout' hin'
        (bfsFuel snap) ⟨[start], []⟩ [start] hfr0 hsc0
    · exact bfsRunBounded_selfcontained snap direction hout' hin'
        depth.toNat ⟨[start], []⟩ [start] hfr0 hsc0

/-- Witness for C10 on the chain snapshot with a negative depth, at the
returned edge `e1`. -/
theorem C10_witness :
    ∃ e, alGet exChain.edges "e1" = some e ∧
      e.source ∈ (bfs_subgraph exChain "A" "down" (-1)).1 ∧
      e.target ∈ (bfs_subgraph exChain "A" "down" (-1)).1 :=
  C10_bfs_self_contained exChain "A" "down" (-1) (by decide) (by decide)
    "e1" (by decide)

end QlikAtlas

namespace QlikAtlas

/-! ### Claim C8 — endpoint invariants -/

/-- The endpoint well-formedness bundle of the row-reassembly state: every
edge has non-empty endpoints present as node keys, and every id indexed in
`nodeProjects` is a non-empty node key. -/
def RowWF (st : RowBuildState) : Prop :=
  (∀ k r, alGet st.edges k = some r → r.source ≠ "" ∧ r.target ≠ "" ∧
    alHas st.nodes r.source = true ∧ alHas st.nodes r.target = true) ∧
  (∀ k p, p ∈ (alGet st.nodeProjects k).getD [] →
    alHas st.nodes k = true ∧ k ≠ "")

theorem connectionNodeId_ne (row : ConnRow) : connectionNodeId row ≠ "" := by
  intro h
  have := congrArg String.length h
  rw [connectionNodeId, String.length_append] at this
  simp at this
  exact absurd this.1 (by decide)

theorem nodeRowStep_np (appMap : List ((Int × String) × AppInfoRow))
    (st : RowBuildState) (row : NodeRow) :
    (nodeRowStep appMap st row).nodeProjects =
      alSet st.nodeProjects (nodeRowRecord appMap row).id
        (listAdd ((alGet st.nodeProjects
          (nodeRowRecord appMap row).id).getD []) row.projectId) := by
  simp only [nodeRowStep]
  split
  · split <;> rfl
  · rfl

theorem nodeRowStep_wf (appMap : List ((Int × String) × AppInfoRow))
    (st : RowBuildState) (row : NodeRow)
    (hid : (nodeRowRecord appMap row).id ≠ "")
    (hwf : RowWF st) : RowWF (nodeRowStep appMap st row) := by
  constructor
  · intro k r h
    rw [nodeRowStep_edges] at h
    obtain ⟨h1, h2, h3, h4⟩ := hwf.1 k r h
    rw [nodeRowStep_nodes]
    exact ⟨h1, h2, alHas_alSet_of _ _ _ _ h3, alHas_alSet_of _ _ _ _ h4⟩
  · intro k p hp
    rw [nodeRowStep_np] at hp
    rw [nodeRowStep_nodes]
    by_cases hk : k = (nodeRowRecord appMap row).id
    · subst hk
      exact ⟨alHas_alSet_self _ _ _, hid⟩
    · rw [alGet_alSet_ne _ _ _ _ hk] at hp
      obtain ⟨h1, h2⟩ := hwf.2 k p hp
      exact ⟨alHas_alSet_of _ _ _ _ h1, h2⟩

theorem nodeFold_wf (appMap : List ((Int × String) × AppInfoRow))
    (rows : List NodeRow) :
    ∀ st : RowBuildState,
      (∀ r ∈ rows, (nodeRowRecord appMap r).id ≠ "") →
      RowWF st → RowWF (rows.foldl (nodeRowStep appMap) st) := by
  induction rows with
  | nil => intro st _ h; exact h
  | cons r rs ih =>
    intro st hids hwf
    exact ih _ (fun r' h' => hids r' (List.mem_cons_of_mem _ h'))
      (nodeRowStep_wf _ _ _ (hids r (List.mem_cons_self _ _)) hwf)

theorem ensureIf_has_self (ns : List (String × NodeRec)) (s : String)
    (v : NodeRec) :
    alHas (if alHas ns s then ns else alSet ns s v) s = true := by
  split
  · assumption
  · exact alHas_alSet_self _ _ _

theorem ensureIf_has_mono (ns : List (String × NodeRec)) (s k : String)
    (v : NodeRec) (h : alHas ns k = true) :
    alHas (if alHas ns s then ns else alSet ns s v) k = true := by
  split
  · exact h
  · exact alHas_alSet_of _ _ _ _ h

theorem edgeRowStep_wf (st : RowBuildState) (row : EdgeRow)
    (hwf : RowWF st) : RowWF (edgeRowStep st row) := by
  simp only [edgeRowStep]
  split
  · exact hwf
  · next hguard =>
    have hs : (edgeRecordFromPayload row.edgeId (safeDict row.data)).source ≠ "" ∧
        (edgeRecordFromPayload row.edgeId (safeDict row.data)).target ≠ "" := by
      simpa using hguard
    constructor
    · intro k r h
      by_cases hk : k = (edgeRecordFromPayload row.edgeId (safeDict row.data)).id
      · subst hk
        rw [alGet_alSet_self] at h
        obtain rfl : edgeRecordFromPayload row.edgeId (safeDict row.data) = r := by
          injection h
        refine ⟨hs.1, hs.2, ?_, ?_⟩
        · exact ensureIf_has_mono _ _ _ _ (ensureIf_has_self _ _ _)
        · exact ensureIf_has_self _ _ _
      · rw [alGet_alSet_ne _ _ _ _ hk] at h
        obtain ⟨h1, h2, h3, h4⟩ := hwf.1 k r h
        exact ⟨h1, h2,
          ensureIf_has_mono _ _ _ _ (ensureIf_has_mono _ _ _ _ h3),
          ensureIf_has_mono _ _ _ _ (ensureIf_has_mono _ _ _ _ h4)⟩
    · intro k p hp
      by_cases hk2 : k = (edgeRecordFromPayload row.edgeId (safeDict row.data)).target
      · subst hk2
        exact ⟨ensureIf_has_self _ _ _, hs.2⟩
      · rw [alGet_alSet_ne _ _ _ _ hk2] at hp
        by_cases hk1 : k = (edgeRecordFromPayload row.edgeId (safeDict row.data)).source
        · subst hk1
          exact ⟨ensureIf_has_mono _ _ _ _ (ensureIf_has_self _ _ _), hs.1⟩
        · rw [alGet_alSet_ne _ _ _ _ hk1] at hp
          obtain ⟨h1, h2⟩ := hwf.2 k p hp
          exact ⟨ensureIf_has_mono _ _ _ _ (ensureIf_has_mono _ _ _ _ h1), h2⟩

theorem edgeFold_wf (rows : List EdgeRow) :
    ∀ st : RowBuildState, RowWF st → RowWF (rows.foldl edgeRowStep st) := by
  induction rows with
  | nil => intro st h; exact h
  | cons r rs ih =>
    intro st hwf
    exact ih _ (edgeRowStep_wf _ _ hwf)

end QlikAtlas

namespace QlikAtlas

theorem connGroupLinkStep_wf (row : ConnRow) (st : RowBuildState) (t : String)
    (hconn : alHas st.nodes (connectionNodeId row) = true)
    (hwf : RowWF st) : RowWF (connGroupLinkStep row st t) := by
  simp only [connGroupLinkStep]
  split
  · exact hwf
  · split
    · exact hwf
    · next hguard =>
      have hmem : row.projectId ∈ (alGet st.nodeProjects t).getD [] := by
        exact not_not.mp hguard
      obtain ⟨hhast, htne⟩ := hwf.2 t row.projectId hmem
      split
      · exact hwf
      · constructor
        · intro k r h
          by_cases hk : k = connInferredEdgeId row t
          · subst hk
            rw [alGet_alSet_self] at h
            obtain rfl : connInferredEdge row t = r := by injection h
            exact ⟨connectionNodeId_ne row, htne, hconn, hhast⟩
          · rw [alGet_alSet_ne _ _ _ _ hk] at h
            exact hwf.1 k r h
        · exact hwf.2

theorem groupFold_wf (row : ConnRow) (targets : List String) :
    ∀ st : RowBuildState,
      alHas st.nodes (connectionNodeId row) = true →
      RowWF st → RowWF (targets.foldl (connGroupLinkStep row) st) := by
  induction targets with
  | nil => intro st _ h; exact h
  | cons t ts ih =>
    intro st hconn hwf
    rw [List.foldl_cons]
    refine ih _ ?_ (connGroupLinkStep_wf row st t hconn hwf)
    rw [connGroupLinkStep_nodes]
    exact hconn

theorem connQriLinkStep_wf (row : ConnRow) (lbl : String)
    (st : RowBuildState) (t : String)
    (hconn : alHas st.nodes (connectionNodeId row) = true)
    (hwf : RowWF st) :
    alHas (connQriLinkStep row lbl st t).nodes (connectionNodeId row) = true ∧
    RowWF (connQriLinkStep row lbl st t) := by
  simp only [connQriLinkStep]
  split
  · exact ⟨hconn, hwf⟩
  · split
    · exact ⟨hconn, hwf⟩
    · next tnode heq =>
      split
      · exact ⟨hconn, hwf⟩
      · next hguard =>
        have hmem : row.projectId ∈ (alGet st.nodeProjects t).getD [] :=
          not_not.mp hguard
        obtain ⟨hhast, htne⟩ := hwf.2 t row.projectId hmem
        have hconn' : alHas (alSet st.nodes t
            { tnode with meta := some (qriTargetMeta (tnode.meta.getD [])
              lbl row.connectionId) }) (connectionNodeId row) = true :=
          alHas_alSet_of _ _ _ _ hconn
        have hwf' : RowWF { st with nodes := (alSet st.nodes t
            { tnode with meta := some (qriTargetMeta (tnode.meta.getD [])
              lbl row.connectionId) }) } := by
          constructor
          · intro k r h
            obtain ⟨h1, h2, h3, h4⟩ := hwf.1 k r h
            exact ⟨h1, h2, alHas_alSet_of _ _ _ _ h3,
              alHas_alSet_of _ _ _ _ h4⟩
          · intro k p hp
            obtain ⟨h1, h2⟩ := hwf.2 k p hp
            exact ⟨alHas_alSet_of _ _ _ _ h1, h2⟩
        split
        · exact ⟨hconn', hwf'⟩
        · refine ⟨hconn', ?_, hwf'.2⟩
          intro k r h
          by_cases hk : k = connQriEdgeId row t
          · subst hk
            rw [alGet_alSet_self] at h
            obtain rfl : connQriEdge row t = r := by injection h
            refine ⟨connectionNodeId_ne row, htne, hconn', ?_⟩
            exact alHas_alSet_self _ _ _
          · rw [alGet_alSet_ne _ _ _ _ hk] at h
            exact hwf'.1 k r h

theorem qriFold_wf (row : ConnRow) (lbl : String) (targets : List String) :
    ∀ st : RowBuildState,
      alHas st.nodes (connectionNodeId row) = true →
      RowWF st →
      RowWF (targets.foldl (connQriLinkStep row lbl) st) := by
  induction targets with
  | nil => intro st _ h; exact h
  | cons t ts ih =>
    intro st hconn hwf
    rw [List.foldl_cons]
    obtain ⟨hconn', hwf'⟩ := connQriLinkStep_wf row lbl st t hconn hwf
    exact ih _ hconn' hwf'

set_option maxHeartbeats 1000000 in
theorem connRowStep_wf (m : List ((Int × String) × List ConnMatch))
    (st : RowBuildState) (c : ConnRow)
    (hwf : RowWF st) : RowWF (connRowStep m st c) := by
  simp only [connRowStep]
  apply qriFold_wf
  · apply ?hconn
    case hconn =>
      rw [groupFold_nodes]
      exact alHas_alSet_self _ _ _
  · apply groupFold_wf
    · exact alHas_alSet_self _ _ _
    · constructor
      · intro k r h
        obtain ⟨h1, h2, h3, h4⟩ := hwf.1 k r h
        exact ⟨h1, h2, alHas_alSet_of _ _ _ _ h3, alHas_alSet_of _ _ _ _ h4⟩
      · intro k p hp
        by_cases hk : k = connectionNodeId c
        · subst hk
          exact ⟨alHas_alSet_self _ _ _, connectionNodeId_ne c⟩
        · rw [alGet_alSet_ne _ _ _ _ hk] at hp
          obtain ⟨h1, h2⟩ := hwf.2 k p hp
          exact ⟨alHas_alSet_of _ _ _ _ h1, h2⟩

theorem connFold_wf (m : List ((Int × String) × List ConnMatch))
    (rows : List ConnRow) :
    ∀ st : RowBuildState, RowWF st →
      RowWF (rows.foldl (connRowStep m) st) := by
  induction rows with
  | nil => intro st h; exact h
  | cons r rs ih =>
    intro st hwf
    exact ih _ (connRowStep_wf _ _ _ hwf)

end QlikAtlas

namespace QlikAtlas

theorem addEdgeFold_endpoints (Q : String → String → Prop)
    (es : List CanonEdge) :
    ∀ (E : List (String × EdgeRec)) (oa ia : List (String × List String)),
      (∀ k r, alGet E k = some r → Q r.source r.target) →
      (∀ e ∈ es, Q e.source e.target) →
      ∀ k r, alGet (es.foldl addEdgeStep (E, oa, ia)).1 k = some r →
        Q r.source r.target := by
  induction es with
  | nil => intro E oa ia hE _ k r h; exact hE k r h
  | cons e rest ih =>
    intro E oa ia hE hes
    rw [List.foldl_cons]
    have hE' : ∀ k r, alGet (addEdgeStep (E, oa, ia) e).1 k = some r →
        Q r.source r.target := by
      intro k r h
      have h' : alGet (addEdgeRec E e) k = some r := h
      unfold addEdgeRec at h'
      cases hg : alGet E e.id with
      | none =>
        rw [hg] at h'
        by_cases hk : k = e.id
        · subst hk
          rw [alGet_alSet_self] at h'
          obtain rfl : _ = r := by injection h'
          exact hes e (List.mem_cons_self _ _)
        · rw [alGet_alSet_ne _ _ _ _ hk] at h'
          exact hE k r h'
      | some ex =>
        rw [hg] at h'
        by_cases hk : k = e.id
        · subst hk
          rw [alGet_alSet_self] at h'
          obtain rfl : _ = r := by injection h'
          exact hE e.id ex hg
        · rw [alGet_alSet_ne _ _ _ _ hk] at h'
          exact hE k r h'
    have := ih (addEdgeStep (E, oa, ia) e).1 (addEdgeStep (E, oa, ia) e).2.1
      (addEdgeStep (E, oa, ia) e).2.2 hE'
      (fun e' h' => hes e' (List.mem_cons_of_mem _ h'))
    intro k r h
    exact this k r h

theorem mergeNodeFold_has_mono (l : List NodeRec) :
    ∀ (ns : List (String × NodeRec)) (k : String), alHas ns k = true →
      alHas (l.foldl merge_node ns) k = true := by
  induction l with
  | nil => intro ns k h; exact h
  | cons n rest ih =>
    intro ns k h
    rw [List.foldl_cons]
    refine ih _ k ?_
    unfold merge_node
    cases alGet ns n.id with
    | none => exact alHas_alSet_of _ _ _ _ h
    | some ex => exact alHas_alSet_of _ _ _ _ h

/-- The endpoint invariant of merged snapshots. -/
def BuildWF (st : Snapshot) : Prop :=
  ∀ k r, alGet st.edges k = some r → r.source ≠ "" ∧ r.target ≠ "" ∧
    alHas st.nodes r.source = true ∧ alHas st.nodes r.target = true

theorem ensureFold_has_of_hasStep (es : List CanonEdge)
    (ns : List (String × NodeRec)) (e : CanonEdge) (he : e ∈ es) :
    alHas (es.foldl ensureStep ns) e.source = true ∧
    alHas (es.foldl ensureStep ns) e.target = true :=
  ensureFold_establishes es ns e he

theorem build_step_wf (st : Snapshot) (record : CanonRecord)
    (hrec : ∀ e ∈ record.2.2, e.source ≠ "" ∧ e.target ≠ "")
    (hst : BuildWF st) : BuildWF (build_step st record) := by
  intro k r h
  have h' : alGet (record.2.2.foldl addEdgeStep
      (st.edges, st.outAdj, st.inAdj)).1 k = some r := h
  have hchar := addEdgeFold_endpoints
    (fun s t => (s ≠ "" ∧ t ≠ "") ∧
      ((alHas st.nodes s = true ∧ alHas st.nodes t = true) ∨
        ∃ e ∈ record.2.2, s = e.source ∧ t = e.target))
    record.2.2 st.edges st.outAdj st.inAdj
    (fun k' r' h'' => by
      obtain ⟨h1, h2, h3, h4⟩ := hst k' r' h''
      exact ⟨⟨h1, h2⟩, Or.inl ⟨h3, h4⟩⟩)
    (fun e he => ⟨hrec e he, Or.inr ⟨e, he, rfl, rfl⟩⟩)
    k r h'
  obtain ⟨⟨h1, h2⟩, hloc⟩ := hchar
  refine ⟨h1, h2, ?_, ?_⟩ <;>
  · show alHas (record.2.2.foldl ensureStep
      (record.2.1.foldl merge_node st.nodes)) _ = true
    rcases hloc with ⟨h3, h4⟩ | ⟨e, he, hse, hte⟩
    · first
      | exact ensureFold_has_mono _ _ _ (mergeNodeFold_has_mono _ _ _ h3)
      | exact ensureFold_has_mono _ _ _ (mergeNodeFold_has_mono _ _ _ h4)
    · first
      | exact hse ▸ (ensureFold_establishes record.2.2 _ e he).1
      | exact hte ▸ (ensureFold_establishes record.2.2 _ e he).2

theorem build_fold_wf (records : List CanonRecord) :
    ∀ st : Snapshot,
      (∀ record ∈ records, ∀ e ∈ record.2.2,
        e.source ≠ "" ∧ e.target ≠ "") →
      BuildWF st → BuildWF (records.foldl build_step st) := by
  induction records with
  | nil => intro st _ h; exact h
  | cons rec0 rest ih =>
    intro st hrecs hwf
    exact ih _ (fun r' h' => hrecs r' (List.mem_cons_of_mem _ h'))
      (build_step_wf _ _ (hrecs rec0 (List.mem_cons_self _ _)) hwf)

theorem build_edge_endpoints (edge : Json) (appId appName : String)
    (f : Option String) (fn : String) (e : CanonEdge)
    (h : build_edge edge appId appName f fn = some e) :
    e.source ≠ "" ∧ e.target ≠ "" := by
  simp only [build_edge] at h
  split at h
  · exact absurd h (by simp)
  · next hcond =>
    obtain rfl : _ = e := by injection h
    simpa using hcond

end QlikAtlas

namespace QlikAtlas

/-- Claim C8: a raw edge with an empty normalized endpoint is dropped by
`build_edge` (never partially inserted); missing endpoints are synthesized
as other-typed placeholders with id = label = the endpoint id on both
paths; and in snapshots built from canonical records with non-empty edge
endpoints, as well as in snapshots reassembled from persisted rows with
non-empty node ids, every edge has non-empty source and target ids and
both are present as keys of the node map. -/
theorem C8_endpoint_invariants (records : List CanonRecord) (fl : Nat)
    (nodeRows : List NodeRow) (edgeRows : List EdgeRow)
    (appMap : List ((Int × String) × AppInfoRow)) (connRows : List ConnRow)
    (ms : List ((Int × String) × List ConnMatch))
    (hrec : ∀ record ∈ records, ∀ e ∈ record.2.2,
      e.source ≠ "" ∧ e.target ≠ "")
    (hids : ∀ nr ∈ nodeRows, (nodeRowRecord appMap nr).id ≠ "") :
    (∀ (edge : Json) (appId appName : String) (f : Option String)
      (fn : String) (e : CanonEdge),
      build_edge edge appId appName f fn = some e →
      e.source ≠ "" ∧ e.target ≠ "") ∧
    (∀ (ns : List (String × NodeRec)) (nid : String),
      alHas ns nid = false →
      alGet (ensure_node ns nid) nid =
        some ⟨nid, nid, "other", .null, .null, "other", none⟩) ∧
    (∀ s, nodeRecordFromPayload s [("id", .str s)] =
      ⟨s, s, "other", .null, .null, "other", none⟩) ∧
    (∀ k r, alGet (build records fl).edges k = some r →
      r.source ≠ "" ∧ r.target ≠ "" ∧
      alHas (build records fl).nodes r.source = true ∧
      alHas (build records fl).nodes r.target = true) ∧
    (∀ k r, alGet (buildSnapshotFromRows nodeRows edgeRows appMap connRows
        ms).edges k = some r →
      r.source ≠ "" ∧ r.target ≠ "" ∧
      alHas (buildSnapshotFromRows nodeRows edgeRows appMap connRows
        ms).nodes r.source = true ∧
      alHas (buildSnapshotFromRows nodeRows edgeRows appMap connRows
        ms).nodes r.target = true) := by
  refine ⟨build_edge_endpoints, ?_, ?_, ?_, ?_⟩
  · intro ns nid h
    unfold ensure_node
    rw [if_neg (by rw [h]; exact Bool.false_ne_true)]
    rw [alGet_alSet_self]
  · intro s
    simp [nodeRecordFromPayload, jget, alGet, jOr, Json.pyStr, Json.truthy]
  · exact build_fold_wf records emptySnapshot hrec
      (fun k r h => absurd h (by simp [alGet]))
  · exact (connFold_wf ms connRows _
      (edgeFold_wf edgeRows _
        (nodeFold_wf appMap nodeRows ⟨[], [], [], [], [], []⟩ hids
          ⟨fun k r h => absurd h (by simp [alGet]),
            fun k p hp => absurd hp (by simp [alGet])⟩))).1

/-- App info of the C8 witness record. -/
def exC8Info : AppInfo := ⟨"app8", "App Eight", .null, none, .null, "c.json",
  none, 0, 1⟩

/-- A canonical edge with endpoints absent from the node list. -/
def exC8Edge : CanonEdge :=
  { id := "x|y|LOAD|app8", source := "x", target := "y", relation := "LOAD"
    context := ⟨"app8", "App Eight", "c.json", none⟩ }

/-- A canonical record whose only node mentions are edge endpoints. -/
def exC8Rec : CanonRecord := (exC8Info, [], [exC8Edge])

/-- A persisted node row for the C8 witness. -/
def exC8NodeRow : NodeRow :=
  { projectId := 2, nodeId := "m1", appId := none,
    data := .obj [("id", .str "m1")] }

/-- A persisted edge row whose target node has no node row. -/
def exC8EdgeRow : EdgeRow :=
  { projectId := 2, edgeId := "er1",
    data := .obj [("source", .str "m1"), ("target", .str "m2"),
      ("relation", .str "LOAD")] }

/-- Witness for C8 on concrete records and rows with synthesized
endpoints. -/
theorem C8_witness :
    (∀ k r, alGet (build [exC8Rec] 1).edges k = some r →
      r.source ≠ "" ∧ r.target ≠ "" ∧
      alHas (build [exC8Rec] 1).nodes r.source = true ∧
      alHas (build [exC8Rec] 1).nodes r.target = true) ∧
    (∀ k r, alGet (buildSnapshotFromRows [exC8NodeRow] [exC8EdgeRow] [] []
        []).edges k = some r →
      r.source ≠ "" ∧ r.target ≠ "" ∧
      alHas (buildSnapshotFromRows [exC8NodeRow] [exC8EdgeRow] [] []
        []).nodes r.source = true ∧
      alHas (buildSnapshotFromRows [exC8NodeRow] [exC8EdgeRow] [] []
        []).nodes r.target = true) :=
  (C8_endpoint_invariants [exC8Rec] 1 [exC8NodeRow] [exC8EdgeRow] [] [] []
    (by decide) (by decide)).2.2.2

end QlikAtlas

namespace QlikAtlas

/-! ### Claim C5 — orphan outputs -/

/-- A non-hit expansion hop of `_has_downstream_load_depends`: an outgoing
adjacency entry that resolves to an edge whose relation is neither LOAD nor
DEPENDS, followed to its target. -/
def nonHitSucc (snap : Snapshot) (n m : String) : Prop :=
  ∃ eid e, eid ∈ (alGet snap.outAdj n).getD [] ∧
    alGet snap.edges eid = some e ∧
    (e.relation = "LOAD" || e.relation = "DEPENDS") = false ∧ e.target = m

/-- The node has an outgoing LOAD or DEPENDS edge (the hit condition). -/
def hddHit (snap : Snapshot) (n : String) : Prop :=
  ∃ eid e, eid ∈ (alGet snap.outAdj n).getD [] ∧
    alGet snap.edges eid = some e ∧
    (e.relation = "LOAD" || e.relation = "DEPENDS") = true

/-- Reachability from a frontier within a hop budget, through non-hit
expansion hops only. -/
inductive HddWithin (snap : Snapshot) : Nat → List String → String → Prop
  | base {j : Nat} {F : List String} {n : String} :
      n ∈ F → HddWithin snap j F n
  | step {j : Nat} {F : List String} {n m : String} :
      HddWithin snap j F n → nonHitSucc snap n m →
      HddWithin snap (j + 1) F m

theorem HddWithin_nil (snap : Snapshot) (j : Nat) (n : String)
    (h : HddWithin snap j [] n) : False := by
  generalize hF : ([] : List String) = F at h
  induction h with
  | base hmem =>
    rw [← hF] at hmem
    exact absurd hmem (List.not_mem_nil _)
  | step h0 hsucc ih => exact ih hF

theorem HddWithin_mono (snap : Snapshot) {j : Nat} {F : List String}
    {n : String} (h : HddWithin snap j F n) :
    ∀ j', j ≤ j' → HddWithin snap j' F n := by
  induction h with
  | base hmem => intro j' _; exact HddWithin.base hmem
  | step h0 hsucc ih =>
    intro j' hj'
    cases j' with
    | zero => omega
    | succ j'' =>
      exact HddWithin.step (ih j'' (by omega)) hsucc

theorem HddWithin_shift (snap : Snapshot) {F : List String} :
    ∀ {j : Nat} {n : String} {F' : List String}, HddWithin snap j F' n →
      (∀ x ∈ F', HddWithin snap 1 F x) →
      HddWithin snap (j + 1) F n := by
  intro j n F' h
  induction h with
  | base hmem =>
    intro hshift
    exact HddWithin_mono snap (hshift _ hmem) _ (by omega)
  | step h0 hsucc ih =>
    intro hshift
    exact HddWithin.step (ih hshift) hsucc

theorem hddEdge_frozen (snap : Snapshot) (acc : Bool × List String × List String)
    (eid : String) (h : acc.1 = true) : hddEdge snap acc eid = acc := by
  unfold hddEdge
  rw [if_pos h]

theorem hddEdge_true_src (snap : Snapshot)
    (acc : Bool × List String × List String) (eid : String)
    (h : (hddEdge snap acc eid).1 = true) :
    acc.1 = true ∨ ∃ e, alGet snap.edges eid = some e ∧
      (e.relation = "LOAD" || e.relation = "DEPENDS") = true := by
  by_cases hfl : acc.1 = true
  · exact Or.inl hfl
  · rw [Bool.not_eq_true] at hfl
    right
    cases hg : alGet snap.edges eid with
    | none =>
      have hres : hddEdge snap acc eid = acc := by
        simp only [hddEdge, hfl, hg, Bool.false_eq_true, if_false]
      rw [hres, hfl] at h
      exact absurd h Bool.false_ne_true
    | some e =>
      by_cases hrel : (e.relation = "LOAD" || e.relation = "DEPENDS") = true
      · exact ⟨e, rfl, hrel⟩
      · by_cases ht : e.target ∈ acc.2.1
        · have hres : hddEdge snap acc eid = acc := by
            simp only [hddEdge, hfl, hg, Bool.false_eq_true, if_false]
            rw [if_neg hrel, if_pos ht]
          rw [hres, hfl] at h
          exact absurd h Bool.false_ne_true
        · have hres : hddEdge snap acc eid =
              (false, acc.2.1 ++ [e.target], listAdd acc.2.2 e.target) := by
            simp only [hddEdge, hfl, hg, Bool.false_eq_true, if_false]
            rw [if_neg hrel, if_neg ht]
          rw [hres] at h
          exact absurd h Bool.false_ne_true

end QlikAtlas

namespace QlikAtlas

theorem hddEdge_false_props (snap : Snapshot)
    (acc : Bool × List String × List String) (eid : String)
    (hIn : ∀ x ∈ acc.2.2, x ∈ acc.2.1)
    (hfl : (hddEdge snap acc eid).1 = false) :
    acc.1 = false ∧
    ∃ extra, (hddEdge snap acc eid).2.1 = acc.2.1 ++ extra ∧
      (hddEdge snap acc eid).2.2 = acc.2.2 ++ extra ∧
      (∀ x ∈ extra, x ∉ acc.2.1) ∧
      (∀ x ∈ extra, ∃ e, alGet snap.edges eid = some e ∧
        (e.relation = "LOAD" || e.relation = "DEPENDS") = false ∧
        e.target = x) ∧
      (∀ e, alGet snap.edges eid = some e →
        (e.relation = "LOAD" || e.relation = "DEPENDS") = false →
        e.target ∈ (hddEdge snap acc eid).2.1) ∧
      (¬ ∃ e, alGet snap.edges eid = some e ∧
        (e.relation = "LOAD" || e.relation = "DEPENDS") = true) := by
  have hacc : acc.1 = false := by
    by_cases hfl0 : acc.1 = true
    · rw [hddEdge_frozen snap acc eid hfl0] at hfl
      rw [hfl0] at hfl
      exact absurd hfl (by simp)
    · exact Bool.not_eq_true _ |>.mp hfl0
  refine ⟨hacc, ?_⟩
  cases hg : alGet snap.edges eid with
  | none =>
    have hres : hddEdge snap acc eid = acc := by
      simp only [hddEdge, hacc, hg, Bool.false_eq_true, if_false]
    rw [hres]
    refine ⟨[], by simp, by simp, by simp, by simp, ?_, ?_⟩
    · intro e he
      exact absurd he (by simp)
    · rintro ⟨e, he, _⟩
      exact absurd he (by simp)
  | some e =>
    by_cases hrel : (e.relation = "LOAD" || e.relation = "DEPENDS") = true
    · have hres : hddEdge snap acc eid = (true, acc.2) := by
        simp only [hddEdge, hacc, hg, Bool.false_eq_true, if_false]
        rw [if_pos hrel]
      rw [hres] at hfl
      exact absurd hfl (by simp)
    · have hnohit : ¬ ∃ e', (some e : Option EdgeRec) = some e' ∧
          (e'.relation = "LOAD" || e'.relation = "DEPENDS") = true := by
        rintro ⟨e', he', hr'⟩
        obtain rfl : e = e' := by injection he'
        exact hrel hr'
      by_cases ht : e.target ∈ acc.2.1
      · have hres : hddEdge snap acc eid = acc := by
          simp only [hddEdge, hacc, hg, Bool.false_eq_true, if_false]
          rw [if_neg hrel, if_pos ht]
        rw [hres]
        refine ⟨[], by simp, by simp, by simp, by simp, ?_, hnohit⟩
        intro e' he' _
        obtain rfl : e = e' := by injection he'
        exact ht
      · have htf : e.target ∉ acc.2.2 := fun hx => ht (hIn _ hx)
        have hres : hddEdge snap acc eid =
            (false, acc.2.1 ++ [e.target], acc.2.2 ++ [e.target]) := by
          simp only [hddEdge, hacc, hg, Bool.false_eq_true, if_false]
          rw [if_neg hrel, if_neg ht]
          unfold listAdd
          rw [if_neg htf]
        rw [hres]
        refine ⟨[e.target], rfl, rfl, ?_, ?_, ?_, hnohit⟩
        · intro x hx
          rw [List.mem_singleton.mp hx]
          exact ht
        · intro x hx
          rw [List.mem_singleton.mp hx]
          exact ⟨e, rfl, Bool.not_eq_true _ |>.mp hrel, rfl⟩
        · intro e' he' _
          obtain rfl : e = e' := by injection he'
          exact List.mem_append_right _ (List.mem_singleton.mpr rfl)

theorem hddEdge_hIn (snap : Snapshot)
    (acc : Bool × List String × List String) (eid : String)
    (hIn : ∀ x ∈ acc.2.2, x ∈ acc.2.1) :
    ∀ x ∈ (hddEdge snap acc eid).2.2, x ∈ (hddEdge snap acc eid).2.1 := by
  by_cases hfl : (hddEdge snap acc eid).1 = false
  · obtain ⟨_, extra, h1, h2, _, _, _, _⟩ :=
      hddEdge_false_props snap acc eid hIn hfl
    intro x hx
    rw [h2] at hx
    rw [h1]
    rcases List.mem_append.mp hx with hx' | hx'
    · exact List.mem_append_left _ (hIn x hx')
    · exact List.mem_append_right _ hx'
  · rw [Bool.not_eq_false] at hfl
    rcases hddEdge_true_src snap acc eid hfl with hacc | ⟨e, hg, hrel⟩
    · rw [hddEdge_frozen snap acc eid hacc]
      exact hIn
    · by_cases hacc : acc.1 = true
      · rw [hddEdge_frozen snap acc eid hacc]
        exact hIn
      · rw [Bool.not_eq_true] at hacc
        have hres : hddEdge snap acc eid = (true, acc.2) := by
          simp only [hddEdge, hacc, hg, Bool.false_eq_true, if_false]
          rw [if_pos hrel]
        rw [hres]
        exact hIn

end QlikAtlas

namespace QlikAtlas

theorem hddEdgeFold_hIn (snap : Snapshot) (eids : List String) :
    ∀ acc : Bool × List String × List String,
      (∀ x ∈ acc.2.2, x ∈ acc.2.1) →
      ∀ x ∈ (eids.foldl (hddEdge snap) acc).2.2,
        x ∈ (eids.foldl (hddEdge snap) acc).2.1 := by
  induction eids with
  | nil => intro acc h; exact h
  | cons eid rest ih =>
    intro acc h
    exact ih _ (hddEdge_hIn snap acc eid h)

theorem hddEdgeFold_true_src (snap : Snapshot) (eids : List String) :
    ∀ acc : Bool × List String × List String,
      (eids.foldl (hddEdge snap) acc).1 = true →
      acc.1 = true ∨ ∃ eid ∈ eids, ∃ e, alGet snap.edges eid = some e ∧
        (e.relation = "LOAD" || e.relation = "DEPENDS") = true := by
  induction eids with
  | nil => intro acc h; exact Or.inl h
  | cons eid rest ih =>
    intro acc h
    rcases ih _ h with h' | ⟨eid', he', e, hg, hr⟩
    · rcases hddEdge_true_src snap acc eid h' with h'' | ⟨e, hg, hr⟩
      · exact Or.inl h''
      · exact Or.inr ⟨eid, List.mem_cons_self _ _, e, hg, hr⟩
    · exact Or.inr ⟨eid', List.mem_cons_of_mem _ he', e, hg, hr⟩

theorem hddEdgeFold_false_props (snap : Snapshot) (eids : List String) :
    ∀ acc : Bool × List String × List String,
      (∀ x ∈ acc.2.2, x ∈ acc.2.1) →
      (eids.foldl (hddEdge snap) acc).1 = false →
      acc.1 = false ∧
      ∃ extra, (eids.foldl (hddEdge snap) acc).2.1 = acc.2.1 ++ extra ∧
        (eids.foldl (hddEdge snap) acc).2.2 = acc.2.2 ++ extra ∧
        (∀ x ∈ extra, x ∉ acc.2.1) ∧
        (∀ x ∈ extra, ∃ eid ∈ eids, ∃ e, alGet snap.edges eid = some e ∧
          (e.relation = "LOAD" || e.relation = "DEPENDS") = false ∧
          e.target = x) ∧
        (∀ eid ∈ eids, ∀ e, alGet snap.edges eid = some e →
          (e.relation = "LOAD" || e.relation = "DEPENDS") = false →
          e.target ∈ (eids.foldl (hddEdge snap) acc).2.1) ∧
        (∀ eid ∈ eids, ¬ ∃ e, alGet snap.edges eid = some e ∧
          (e.relation = "LOAD" || e.relation = "DEPENDS") = true) := by
  induction eids with
  | nil =>
    intro acc _ h
    exact ⟨h, [], by simp, by simp, by simp, by simp,
      fun eid he => absurd he (List.not_mem_nil _),
      fun eid he => absurd he (List.not_mem_nil _)⟩
  | cons eid rest ih =>
    intro acc hIn hfl
    simp only [List.foldl_cons] at hfl ⊢
    obtain ⟨hacc1, extra2, h21, h22, h2f, h2s, h2t, h2n⟩ :=
      ih _ (hddEdge_hIn snap acc eid hIn) hfl
    obtain ⟨hacc0, extra1, h11, h12, h1f, h1s, h1t, h1n⟩ :=
      hddEdge_false_props snap acc eid hIn hacc1
    refine ⟨hacc0, extra1 ++ extra2,
      by rw [h21, h11, List.append_assoc],
      by rw [h22, h12, List.append_assoc], ?_, ?_, ?_, ?_⟩
    · intro x hx
      rcases List.mem_append.mp hx with hx' | hx'
      · exact h1f x hx'
      · intro hmem
        refine h2f x hx' ?_
        rw [h11]
        exact List.mem_append_left _ hmem
    · intro x hx
      rcases List.mem_append.mp hx with hx' | hx'
      · obtain ⟨e, hg, hr, ht⟩ := h1s x hx'
        exact ⟨eid, List.mem_cons_self _ _, e, hg, hr, ht⟩
      · obtain ⟨eid', he', e, hg, hr, ht⟩ := h2s x hx'
        exact ⟨eid', List.mem_cons_of_mem _ he', e, hg, hr, ht⟩
    · intro eid' he' e hg hr
      rcases List.mem_cons.mp he' with rfl | he''
      · rw [h21]
        exact List.mem_append_left _ (h1t e hg hr)
      · exact h2t eid' he'' e hg hr
    · intro eid' he'
      rcases List.mem_cons.mp he' with rfl | he''
      · exact h1n
      · exact h2n eid' he''

theorem hddNode_frozen (snap : Snapshot)
    (acc : Bool × List String × List String) (nodeId : String)
    (h : acc.1 = true) : hddNode snap acc nodeId = acc := by
  unfold hddNode
  rw [if_pos h]

theorem hddNode_true_src (snap : Snapshot)
    (acc : Bool × List String × List String) (nodeId : String)
    (h : (hddNode snap acc nodeId).1 = true) :
    acc.1 = true ∨ hddHit snap nodeId := by
  by_cases hacc : acc.1 = true
  · exact Or.inl hacc
  · rw [Bool.not_eq_true] at hacc
    have hres : hddNode snap acc nodeId =
        ((alGet snap.outAdj nodeId).getD []).foldl (hddEdge snap) acc := by
      unfold hddNode
      rw [if_neg (by rw [hacc]; exact Bool.false_ne_true)]
    rw [hres] at h
    rcases hddEdgeFold_true_src snap _ acc h with h' | ⟨eid, he, e, hg, hr⟩
    · rw [hacc] at h'
      exact absurd h' Bool.false_ne_true
    · exact Or.inr ⟨eid, e, he, hg, hr⟩

theorem hddNode_hIn (snap : Snapshot)
    (acc : Bool × List String × List String) (nodeId : String)
    (hIn : ∀ x ∈ acc.2.2, x ∈ acc.2.1) :
    ∀ x ∈ (hddNode snap acc nodeId).2.2, x ∈ (hddNode snap acc nodeId).2.1 := by
  by_cases hacc : acc.1 = true
  · rw [hddNode_frozen snap acc nodeId hacc]
    exact hIn
  · rw [Bool.not_eq_true] at hacc
    have hres : hddNode snap acc nodeId =
        ((alGet snap.outAdj nodeId).getD []).foldl (hddEdge snap) acc := by
      unfold hddNode
      rw [if_neg (by rw [hacc]; exact Bool.false_ne_true)]
    rw [hres]
    exact hddEdgeFold_hIn snap _ acc hIn

theorem hddNode_false_props (snap : Snapshot)
    (acc : Bool × List String × List String) (nodeId : String)
    (hIn : ∀ x ∈ acc.2.2, x ∈ acc.2.1)
    (hfl : (hddNode snap acc nodeId).1 = false) :
    acc.1 = false ∧
    ∃ extra, (hddNode snap acc nodeId).2.1 = acc.2.1 ++ extra ∧
      (hddNode snap acc nodeId).2.2 = acc.2.2 ++ extra ∧
      (∀ x ∈ extra, x ∉ acc.2.1) ∧
      (∀ x ∈ extra, nonHitSucc snap nodeId x) ∧
      (∀ eid ∈ (alGet snap.outAdj nodeId).getD [], ∀ e,
        alGet snap.edges eid = some e →
        (e.relation = "LOAD" || e.relation = "DEPENDS") = false →
        e.target ∈ (hddNode snap acc nodeId).2.1) ∧
      ¬ hddHit snap nodeId := by
  have hacc : acc.1 = false := by
    by_cases h0 : acc.1 = true
    · rw [hddNode_frozen snap acc nodeId h0, h0] at hfl
      exact absurd hfl (by simp)
    · exact Bool.not_eq_true _ |>.mp h0
  have hres : hddNode snap acc nodeId =
      ((alGet snap.outAdj nodeId).getD []).foldl (hddEdge snap) acc := by
    unfold hddNode
    rw [if_neg (by rw [hacc]; exact Bool.false_ne_true)]
  rw [hres] at hfl ⊢
  obtain ⟨_, extra, h1, h2, hf, hs, ht, hn⟩ :=
    hddEdgeFold_false_props snap _ acc hIn hfl
  refine ⟨hacc, extra, h1, h2, hf, ?_, ht, ?_⟩
  · intro x hx
    obtain ⟨eid, he, e, hg, hr, htg⟩ := hs x hx
    exact ⟨eid, e, he, hg, hr, htg⟩
  · rintro ⟨eid, e, he, hg, hr⟩
    exact hn eid he ⟨e, hg, hr⟩

end QlikAtlas

namespace QlikAtlas

theorem hddFrontierFold_hIn (snap : Snapshot) (F : List String) :
    ∀ acc : Bool × List String × List String,
      (∀ x ∈ acc.2.2, x ∈ acc.2.1) →
      ∀ x ∈ (F.foldl (hddNode snap) acc).2.2,
        x ∈ (F.foldl (hddNode snap) acc).2.1 := by
  induction F with
  | nil => intro acc h; exact h
  | cons f rest ih =>
    intro acc h
    exact ih _ (hddNode_hIn snap acc f h)

theorem hddFrontierFold_true_src (snap : Snapshot) (F : List String) :
    ∀ acc : Bool × List String × List String,
      (F.foldl (hddNode snap) acc).1 = true →
      acc.1 = true ∨ ∃ f ∈ F, hddHit snap f := by
  induction F with
  | nil => intro acc h; exact Or.inl h
  | cons f rest ih =>
    intro acc h
    rcases ih _ h with h' | ⟨f', hf', hhit⟩
    · rcases hddNode_true_src snap acc f h' with h'' | hhit
      · exact Or.inl h''
      · exact Or.inr ⟨f, List.mem_cons_self _ _, hhit⟩
    · exact Or.inr ⟨f', List.mem_cons_of_mem _ hf', hhit⟩

theorem hddFrontierFold_false_props (snap : Snapshot) (F : List String) :
    ∀ acc : Bool × List String × List String,
      (∀ x ∈ acc.2.2, x ∈ acc.2.1) →
      (F.foldl (hddNode snap) acc).1 = false →
      acc.1 = false ∧
      ∃ extra, (F.foldl (hddNode snap) acc).2.1 = acc.2.1 ++ extra ∧
        (F.foldl (hddNode snap) acc).2.2 = acc.2.2 ++ extra ∧
        (∀ x ∈ extra, x ∉ acc.2.1) ∧
        (∀ x ∈ extra, ∃ f ∈ F, nonHitSucc snap f x) ∧
        (∀ f ∈ F, ∀ eid ∈ (alGet snap.outAdj f).getD [], ∀ e,
          alGet snap.edges eid = some e →
          (e.relation = "LOAD" || e.relation = "DEPENDS") = false →
          e.target ∈ (F.foldl (hddNode snap) acc).2.1) ∧
        (∀ f ∈ F, ¬ hddHit snap f) := by
  induction F with
  | nil =>
    intro acc _ h
    exact ⟨h, [], by simp, by simp, by simp, by simp,
      fun f hf => absurd hf (List.not_mem_nil _),
      fun f hf => absurd hf (List.not_mem_nil _)⟩
  | cons f rest ih =>
    intro acc hIn hfl
    simp only [List.foldl_cons] at hfl ⊢
    obtain ⟨hacc1, extra2, h21, h22, h2f, h2s, h2t, h2n⟩ :=
      ih _ (hddNode_hIn snap acc f hIn) hfl
    obtain ⟨hacc0, extra1, h11, h12, h1f, h1s, h1t, h1n⟩ :=
      hddNode_false_props snap acc f hIn hacc1
    refine ⟨hacc0, extra1 ++ extra2,
      by rw [h21, h11, List.append_assoc],
      by rw [h22, h12, List.append_assoc], ?_, ?_, ?_, ?_⟩
    · intro x hx
      rcases List.mem_append.mp hx with hx' | hx'
      · exact h1f x hx'
      · intro hmem
        refine h2f x hx' ?_
        rw [h11]
        exact List.mem_append_left _ hmem
    · intro x hx
      rcases List.mem_append.mp hx with hx' | hx'
      · exact ⟨f, List.mem_cons_self _ _, h1s x hx'⟩
      · obtain ⟨f', hf', hsucc⟩ := h2s x hx'
        exact ⟨f', List.mem_cons_of_mem _ hf', hsucc⟩
    · intro f' hf' eid he e hg hr
      rcases List.mem_cons.mp hf' with rfl | hf''
      · rw [h21]
        exact List.mem_append_left _ (h1t eid he e hg hr)
      · exact h2t f' hf'' eid he e hg hr
    · intro f' hf'
      rcases List.mem_cons.mp hf' with rfl | hf''
      · exact h1n
      · exact h2n f' hf''

end QlikAtlas

namespace QlikAtlas

set_option maxHeartbeats 1000000 in
theorem hddRun_iff (snap : Snapshot) :
    ∀ (k : Nat) (F V : List String),
      (∀ n ∈ F, n ∈ V) →
      (∀ n ∈ V, n ∉ F → ¬ hddHit snap n ∧
        (∀ eid ∈ (alGet snap.outAdj n).getD [], ∀ e,
          alGet snap.edges eid = some e →
          (e.relation = "LOAD" || e.relation = "DEPENDS") = false →
          e.target ∈ V)) →
      (hddRun snap k F V = true ↔
        ∃ j, j < k ∧ ∃ n, HddWithin snap j F n ∧ hddHit snap n) := by
  intro k
  induction k with
  | zero =>
    intro F V _ _
    constructor
    · intro h
      exact absurd h (by simp [hddRun])
    · rintro ⟨j, hj, _⟩
      omega
  | succ k ih =>
    intro F V hFV hVexp
    have hrun : hddRun snap (k + 1) F V =
        (if (F.foldl (hddNode snap) (false, V, [])).1 then true
         else if (F.foldl (hddNode snap) (false, V, [])).2.2.isEmpty then false
         else hddRun snap k (F.foldl (hddNode snap) (false, V, [])).2.2
           (F.foldl (hddNode snap) (false, V, [])).2.1) := rfl
    rw [hrun]
    by_cases hflag : (F.foldl (hddNode snap) (false, V, [])).1 = true
    · rw [if_pos hflag]
      rcases hddFrontierFold_true_src snap F (false, V, []) hflag with h' | ⟨f, hf, hhit⟩
      · exact absurd h' (by simp)
      · exact ⟨fun _ => ⟨0, by omega, f, HddWithin.base hf, hhit⟩, fun _ => rfl⟩
    · rw [if_neg hflag]
      rw [Bool.not_eq_true] at hflag
      obtain ⟨_, extra, h1, h2, hfresh, hsucc, htgt, hnohit⟩ :=
        hddFrontierFold_false_props snap F (false, V, [])
          (fun x hx => absurd hx (List.not_mem_nil x)) hflag
      rw [List.nil_append] at h2
      have hshift : ∀ x ∈ (F.foldl (hddNode snap) (false, V, [])).2.2,
          HddWithin snap 1 F x := by
        intro x hx
        rw [h2] at hx
        obtain ⟨f, hf, hs⟩ := hsucc x hx
        exact HddWithin.step (HddWithin.base hf) hs
      have claimA : ∀ (j : Nat) (n : String), HddWithin snap j F n →
          n ∈ (F.foldl (hddNode snap) (false, V, [])).2.1 ∨
          ∃ j', j' + 1 ≤ j ∧
            HddWithin snap j' (F.foldl (hddNode snap) (false, V, [])).2.2 n := by
        suffices haux : ∀ (j : Nat) (F0 : List String) (n : String),
            HddWithin snap j F0 n → F0 = F →
            (n ∈ (F.foldl (hddNode snap) (false, V, [])).2.1 ∨
              ∃ j', j' + 1 ≤ j ∧
                HddWithin snap j'
                  (F.foldl (hddNode snap) (false, V, [])).2.2 n) by
          exact fun j n h => haux j F n h rfl
        intro j F0 n h
        induction h with
        | @base j1 F1 n1 hmem =>
          intro hFe
          subst hFe
          left
          rw [h1]
          exact List.mem_append_left _ (hFV _ hmem)
        | @step j1 F1 n1 m1 h0 hs ih0 =>
          intro hFe
          subst hFe
          rcases ih0 rfl with hin | ⟨j', hj', hw⟩
          · rw [h1] at hin
            rcases List.mem_append.mp hin with hin' | hin'
            · by_cases hF : n1 ∈ F1
              · left
                obtain ⟨eid, e, he, hg, hr, ht⟩ := hs
                rw [← ht]
                exact htgt _ hF eid he e hg hr
              · left
                obtain ⟨eid, e, he, hg, hr, ht⟩ := hs
                rw [h1, ← ht]
                exact List.mem_append_left _
                  ((hVexp _ hin' hF).2 eid he e hg hr)
            · right
              have hnF : n1 ∉ F1 := fun hF =>
                hfresh _ hin' (hFV _ hF)
              refine ⟨1, ?_, HddWithin.step
                (HddWithin.base (h2 ▸ hin')) hs⟩
              cases h0 with
              | base hmem0 => exact absurd hmem0 hnF
              | step _ _ => omega
          · exact Or.inr ⟨j' + 1, by omega, HddWithin.step hw hs⟩
      by_cases hemp : (F.foldl (hddNode snap) (false, V, [])).2.2.isEmpty = true
      · rw [if_pos hemp]
        rw [List.isEmpty_iff] at hemp
        constructor
        · intro h
          exact absurd h (by simp)
        · rintro ⟨j, hj, n, hw, hhit⟩
          rcases claimA j n hw with hin | ⟨j', hj', hw'⟩
          · rw [h1] at hin
            rcases List.mem_append.mp hin with hin' | hin'
            · by_cases hF : n ∈ F
              · exact absurd hhit (hnohit n hF)
              · exact absurd hhit (hVexp n hin' hF).1
            · rw [← h2, hemp] at hin'
              exact absurd hin' (List.not_mem_nil n)
          · rw [hemp] at hw'
            exact absurd hw' (fun hw'' => HddWithin_nil snap j' n hw'')
      · rw [if_neg hemp]
        have hFV' : ∀ n ∈ (F.foldl (hddNode snap) (false, V, [])).2.2,
            n ∈ (F.foldl (hddNode snap) (false, V, [])).2.1 := by
          intro n hn
          rw [h2] at hn
          rw [h1]
          exact List.mem_append_right _ hn
        have hVexp' : ∀ n ∈ (F.foldl (hddNode snap) (false, V, [])).2.1,
            n ∉ (F.foldl (hddNode snap) (false, V, [])).2.2 →
            ¬ hddHit snap n ∧
            (∀ eid ∈ (alGet snap.outAdj n).getD [], ∀ e,
              alGet snap.edges eid = some e →
              (e.relation = "LOAD" || e.relation = "DEPENDS") = false →
              e.target ∈ (F.foldl (hddNode snap) (false, V, [])).2.1) := by
          intro n hn hnF'
          rw [h1] at hn
          rcases List.mem_append.mp hn with hn' | hn'
          · by_cases hF : n ∈ F
            · exact ⟨hnohit n hF, fun eid he e hg hr => htgt n hF eid he e hg hr⟩
            · obtain ⟨hh, he⟩ := hVexp n hn' hF
              refine ⟨hh, fun eid hee e hg hr => ?_⟩
              rw [h1]
              exact List.mem_append_left _ (he eid hee e hg hr)
          · rw [← h2] at hn'
            exact absurd hn' hnF'
        rw [ih _ _ hFV' hVexp']
        constructor
        · rintro ⟨j, hj, n, hw, hhit⟩
          exact ⟨j + 1, by omega, n, HddWithin_shift snap hw hshift, hhit⟩
        · rintro ⟨j, hj, n, hw, hhit⟩
          rcases claimA j n hw with hin | ⟨j', hj', hw'⟩
          · rw [h1] at hin
            rcases List.mem_append.mp hin with hin' | hin'
            · by_cases hF : n ∈ F
              · exact absurd hhit (hnohit n hF)
              · exact absurd hhit (hVexp n hin' hF).1
            · refine ⟨0, ?_, n, HddWithin.base (h2 ▸ hin'), hhit⟩
              cases Nat.eq_zero_or_pos k with
              | inl hk =>
                subst hk
                interval_cases j
                · cases hw with
                  | base hmem => exact absurd hhit (hnohit n hmem)
              | inr hk => exact hk
          · exact ⟨j', by omega, n, hw', hhit⟩

end QlikAtlas

namespace QlikAtlas

theorem hdd_iff (snap : Snapshot) (start : String) (depth : Int) :
    has_downstream_load_depends start snap depth = true ↔
      ∃ j, j < depth.toNat ∧ ∃ n, HddWithin snap j [start] n ∧
        hddHit snap n := by
  unfold has_downstream_load_depends
  exact hddRun_iff snap depth.toNat [start] [start]
    (fun n hn => hn)
    (fun n hn hnF => absurd hn hnF)

/-- Claim C5: `orphan_outputs` reports exactly the nodes with at least one
incoming STORE edge that either have no outgoing adjacency entries, or
from which no LOAD/DEPENDS out-edge is reachable through fewer than
`depth` non-hit expansion hops. -/
theorem C5_orphan_outputs_classification (snap : Snapshot) (depth : Int)
    (nodeId : String) :
    nodeId ∈ orphan_outputs snap depth ↔
      nodeId ∈ snap.nodes.map Prod.fst ∧
      (∃ eid ∈ (alGet snap.inAdj nodeId).getD [], ∃ e,
        alGet snap.edges eid = some e ∧ e.relation = "STORE") ∧
      ((alGet snap.outAdj nodeId).getD [] = [] ∨
        ¬ ∃ j, j < depth.toNat ∧ ∃ n, HddWithin snap j [nodeId] n ∧
          hddHit snap n) := by
  have hstore : hasIncomingStore snap nodeId = true ↔
      ∃ eid ∈ (alGet snap.inAdj nodeId).getD [], ∃ e,
        alGet snap.edges eid = some e ∧ e.relation = "STORE" := by
    unfold hasIncomingStore edgeRelation
    rw [List.any_eq_true]
    constructor
    · rintro ⟨eid, he, hp⟩
      rw [decide_eq_true_iff, Option.map_eq_some'] at hp
      obtain ⟨e, hg, hrel⟩ := hp
      exact ⟨eid, he, e, hg, hrel⟩
    · rintro ⟨eid, he, e, hg, hrel⟩
      refine ⟨eid, he, ?_⟩
      rw [decide_eq_true_iff, Option.map_eq_some']
      exact ⟨e, hg, hrel⟩
  unfold orphan_outputs
  rw [List.mem_filter]
  constructor
  · rintro ⟨hmem, hp⟩
    rw [Bool.and_eq_true] at hp
    obtain ⟨h1, h2⟩ := hp
    refine ⟨hmem, hstore.mp h1, ?_⟩
    rw [Bool.or_eq_true] at h2
    rcases h2 with h2 | h2
    · left
      rw [decide_eq_true_iff] at h2
      exact List.length_eq_zero.mp h2
    · right
      rw [Bool.not_eq_true'] at h2
      intro hex
      exact absurd ((hdd_iff snap nodeId depth).mpr hex)
        (by rw [h2]; exact Bool.false_ne_true)
  · rintro ⟨hmem, hstore', hor⟩
    refine ⟨hmem, ?_⟩
    rw [Bool.and_eq_true]
    refine ⟨hstore.mpr hstore', ?_⟩
    rw [Bool.or_eq_true]
    rcases hor with hor | hor
    · left
      rw [decide_eq_true_iff]
      exact List.length_eq_zero.mpr hor
    · right
      rw [Bool.not_eq_true']
      by_cases hd : has_downstream_load_depends nodeId snap depth = true
      · exact absurd ((hdd_iff snap nodeId depth).mp hd) hor
      · exact Bool.not_eq_true _ |>.mp hd

end QlikAtlas
